import Mathlib

/-!
# CommandBufferNode: deferred Vulkan work and its dependency graph

A shallow embedding of `src/libANGLE/renderer/vulkan/CommandBufferNode.cpp`.

Conventions of the embedding.

* A `CommandBufferNode *` is a `NodeId` (an address); the heap maps addresses to node
  values. A graph of `nodeCount` nodes lives at the addresses `0 .. nodeCount - 1`.
* A `std::vector` used as a stack (`back`, `pop_back`, `insert` at `end`) is a `List`
  whose head is `back()`; inserting the range `[a, b, c]` at the end therefore
  prepends `[c, b, a]`.
* `ASSERT` is fatal in debug builds and compiled out in release builds. An operation
  with assertions is modelled by its release-build effect together with the truth
  value of its assertions (`Asserted`).
* Vulkan handles are natural numbers, `VK_NULL_HANDLE` is `0`.
-/

namespace rx.vk

/-! ## Data model -/

/-- Address of a `CommandBufferNode`. -/
abbrev NodeId := Nat

/-- The null Vulkan handle. -/
def VK_NULL_HANDLE : Nat := 0

/-- Result code carried by a `vk::Error`. -/
abbrev VkResult := Int

/-- Traversal colour of a node during the flush. -/
inductive VisitedState where
  | Unvisited
  | Ready
  | Visited
  deriving DecidableEq, Repr

/-- The effect of an operation together with the truth value of its `ASSERT`s. -/
structure Asserted (α : Type) where
  value : α
  assertionHeld : Bool
  deriving Repr

/-- Modelled from the spec: the `CommandBuffer` wrapper (a command surface) is declared
outside the sources at hand. It is a Vulkan handle, valid when the handle is not null;
`recording` tracks the driver-side state between `begin` and `end`. -/
structure CommandBuffer where
  mHandle : Nat
  recording : Bool
  deriving DecidableEq, Repr

/-- Wrapper validity: `mHandle != VK_NULL_HANDLE`. -/
def CommandBuffer.valid (c : CommandBuffer) : Bool := c.mHandle != VK_NULL_HANDLE

/-- Effect of `CommandBuffer::end()` on the wrapper. -/
def CommandBuffer.end_ (c : CommandBuffer) : CommandBuffer := { c with recording := false }

/-- Which of the two attachment packers produced an attachment. -/
inductive AttachmentKind where
  | color
  | depthStencil
  deriving DecidableEq, Repr

/-- One packed attachment: format and sample count. -/
structure PackedAttachmentDesc where
  kind : AttachmentKind
  format : Nat
  samples : Nat
  deriving DecidableEq, Repr

/-- Modelled from the spec: `RenderPassDesc` is declared outside the sources at hand.
It is the accumulated attachment list, in append order. -/
structure RenderPassDesc where
  attachments : List PackedAttachmentDesc
  deriving DecidableEq, Repr

/-- Modelled from the spec: `RenderPassDesc::packColorAttachment` extends the description
by one colour attachment. -/
def RenderPassDesc.packColorAttachment (d : RenderPassDesc) (format samples : Nat) :
    RenderPassDesc :=
  { attachments := d.attachments ++ [{ kind := .color, format := format, samples := samples }] }

/-- Modelled from the spec: `RenderPassDesc::packDepthStencilAttachment` extends the
description by one depth-stencil attachment. -/
def RenderPassDesc.packDepthStencilAttachment (d : RenderPassDesc) (format samples : Nat) :
    RenderPassDesc :=
  { attachments :=
      d.attachments ++ [{ kind := .depthStencil, format := format, samples := samples }] }

/-- Modelled from the spec: `RenderPassDesc::attachmentCount`. -/
def RenderPassDesc.attachmentCount (d : RenderPassDesc) : Nat := d.attachments.length

/-- The `Framebuffer` wrapper: a handle. -/
structure Framebuffer where
  mHandle : Nat
  deriving DecidableEq, Repr

/-- The record `gl::Rectangle` of four `int`s. -/
structure Rectangle where
  x : Int
  y : Int
  width : Int
  height : Int
  deriving DecidableEq, Repr

/-- A `VkClearValue`, kept as its raw bits. -/
structure VkClearValue where
  raw : Nat
  deriving DecidableEq, Repr

/-- A render target: format, sample count and the address of the resource written. -/
structure RenderTargetVk where
  format : Nat
  samples : Nat
  resource : Nat
  deriving DecidableEq, Repr

/-- The member data of a `CommandBufferNode`. -/
structure CommandBufferNode where
  mOutsideRenderPassCommands : CommandBuffer
  mInsideRenderPassCommands : CommandBuffer
  mRenderPassDesc : RenderPassDesc
  mRenderPassFramebuffer : Framebuffer
  mRenderPassRenderArea : Rectangle
  mRenderPassClearValues : List VkClearValue
  mHappensBeforeDependencies : List NodeId
  mHasHappensAfterDependencies : Bool
  mVisitedState : VisitedState
  mIsFinishedRecording : Bool
  deriving DecidableEq, Repr

/-- The heap of nodes: every address holds a node value. -/
abbrev Heap := NodeId → CommandBufferNode

/-- Pointer to one of the two command surfaces of a node. -/
inductive SurfaceRef where
  | outsideRenderPass
  | insideRenderPass
  deriving DecidableEq, Repr

/-- Dereference a surface pointer. -/
def CommandBufferNode.surface (node : CommandBufferNode) : SurfaceRef → CommandBuffer
  | .outsideRenderPass => node.mOutsideRenderPassCommands
  | .insideRenderPass => node.mInsideRenderPassCommands

/-- The constructor `CommandBufferNode::CommandBufferNode()`. The clear-value array is
declared in the header, which is not at hand; its initial contents are a parameter. -/
def CommandBufferNode.new (clearValues : List VkClearValue) : CommandBufferNode :=
  { mOutsideRenderPassCommands := { mHandle := VK_NULL_HANDLE, recording := false }
    mInsideRenderPassCommands := { mHandle := VK_NULL_HANDLE, recording := false }
    mRenderPassDesc := { attachments := [] }
    mRenderPassFramebuffer := { mHandle := VK_NULL_HANDLE }
    mRenderPassRenderArea := { x := 0, y := 0, width := 0, height := 0 }
    mRenderPassClearValues := clearValues
    mHappensBeforeDependencies := []
    mHasHappensAfterDependencies := false
    mVisitedState := .Unvisited
    mIsFinishedRecording := false }

/-! ## Vulkan structures passed to the driver -/

/-- The record `VkCommandBufferInheritanceInfo`. -/
structure VkCommandBufferInheritanceInfo where
  renderPass : Nat
  subpass : Nat
  framebuffer : Nat
  occlusionQueryEnable : Bool
  queryFlags : Nat
  pipelineStatistics : Nat
  deriving DecidableEq, Repr

/-- Command buffer level. -/
inductive VkCommandBufferLevel where
  | primary
  | secondary
  deriving DecidableEq, Repr

/-- The record `VkCommandBufferAllocateInfo`. -/
structure VkCommandBufferAllocateInfo where
  commandPool : Nat
  level : VkCommandBufferLevel
  commandBufferCount : Nat
  deriving DecidableEq, Repr

/-- Usage bit `VK_COMMAND_BUFFER_USAGE_ONE_TIME_SUBMIT_BIT`. -/
def VK_COMMAND_BUFFER_USAGE_ONE_TIME_SUBMIT_BIT : Nat := 1

/-- Usage bit `VK_COMMAND_BUFFER_USAGE_RENDER_PASS_CONTINUE_BIT`. -/
def VK_COMMAND_BUFFER_USAGE_RENDER_PASS_CONTINUE_BIT : Nat := 2

/-- The record `VkCommandBufferBeginInfo`. -/
structure VkCommandBufferBeginInfo where
  flags : Nat
  pInheritanceInfo : VkCommandBufferInheritanceInfo
  deriving DecidableEq, Repr

/-- The record `VkRenderPassBeginInfo`; `pClearValues` is the array pointed to. The
offset of the render area is a `VkOffset2D`, whose fields are `int32_t`; its extent is a
`VkExtent2D`, whose fields are `uint32_t`. -/
structure VkRenderPassBeginInfo where
  renderPass : Nat
  framebuffer : Nat
  offsetX : Int
  offsetY : Int
  extentWidth : Nat
  extentHeight : Nat
  clearValueCount : Nat
  pClearValues : List VkClearValue
  deriving DecidableEq, Repr

/-- Subpass contents mode. -/
inductive VkSubpassContents where
  | inline
  | secondaryCommandBuffers
  deriving DecidableEq, Repr

/-- A command recorded into the primary command buffer. -/
inductive PrimaryCommand where
  | executeCommands (count : Nat) (buffer : CommandBuffer)
  | beginRenderPass (beginInfo : VkRenderPassBeginInfo) (contents : VkSubpassContents)
  | endRenderPass
  deriving DecidableEq, Repr

/-- A call made to the Vulkan driver while starting a recording. -/
inductive DriverCall where
  | allocateCommandBuffers (info : VkCommandBufferAllocateInfo)
  | beginCommandBuffer (handle : Nat) (info : VkCommandBufferBeginInfo)
  deriving DecidableEq, Repr

/-- The Vulkan driver, as a parameter: the outcome of the two driver calls behind
`CommandBuffer::init` and `CommandBuffer::begin`. -/
structure VkDriver where
  allocate : VkCommandBufferAllocateInfo → Except VkResult Nat
  beginBuffer : Nat → VkCommandBufferBeginInfo → Except VkResult Unit

/-- The collaborator `RendererVk`, which is not in the sources at hand, as a parameter:
its render-pass cache, its device and its command pool. -/
structure RendererVk where
  getCompatibleRenderPass : RenderPassDesc → Except VkResult Nat
  device : Nat
  commandPool : Nat

/-- The cast `static_cast<uint32_t>` of an `int`. -/
def toUint32 (i : Int) : Nat := (i % 4294967296).toNat

/-- The conversion of a `uint32_t` to `int32_t`, as when a `uint32_t` is assigned to a
field of `VkOffset2D`: the value with the same 32 bits, in two's complement. -/
def toInt32 (u : Nat) : Int :=
  if u % 4294967296 < 2147483648 then ((u % 4294967296 : Nat) : Int)
  else ((u % 4294967296 : Nat) : Int) - 4294967296

/-! ## Recording -/

/-- `CommandBufferNode::getOutsideRenderPassCommands`. -/
def CommandBufferNode.getOutsideRenderPassCommands (node : CommandBufferNode) :
    Asserted SurfaceRef :=
  { value := .outsideRenderPass, assertionHeld := !node.mIsFinishedRecording }

/-- `CommandBufferNode::getInsideRenderPassCommands`. -/
def CommandBufferNode.getInsideRenderPassCommands (node : CommandBufferNode) :
    Asserted SurfaceRef :=
  { value := .insideRenderPass, assertionHeld := !node.mIsFinishedRecording }

/-- Outcome of `InitAndBeginCommandBuffer`: the command buffer afterwards, the driver
calls made, and the error returned (`none` is `NoError()`). -/
structure InitAndBeginResult where
  commandBuffer : CommandBuffer
  calls : List DriverCall
  error : Option VkResult
  deriving DecidableEq, Repr

/-- `InitAndBeginCommandBuffer` of the anonymous namespace. `CommandBuffer::init` stores
the allocated handle, `CommandBuffer::begin` starts the recording. -/
def InitAndBeginCommandBuffer (driver : VkDriver) (_device : Nat) (commandPool : Nat)
    (inheritanceInfo : VkCommandBufferInheritanceInfo) (flags : Nat)
    (commandBuffer : CommandBuffer) : Asserted InitAndBeginResult :=
  let createInfo : VkCommandBufferAllocateInfo :=
    { commandPool := commandPool, level := .secondary, commandBufferCount := 1 }
  let held := !commandBuffer.valid
  match driver.allocate createInfo with
  | .error e =>
    { value := { commandBuffer := commandBuffer
                 calls := [.allocateCommandBuffers createInfo]
                 error := some e }
      assertionHeld := held }
  | .ok handle =>
    let beginInfo : VkCommandBufferBeginInfo :=
      { flags := flags ||| VK_COMMAND_BUFFER_USAGE_ONE_TIME_SUBMIT_BIT
        pInheritanceInfo := inheritanceInfo }
    let calls := [.allocateCommandBuffers createInfo, .beginCommandBuffer handle beginInfo]
    match driver.beginBuffer handle beginInfo with
    | .error e =>
      { value := { commandBuffer := { commandBuffer with mHandle := handle }
                   calls := calls
                   error := some e }
        assertionHeld := held }
    | .ok _ =>
      { value := { commandBuffer := { mHandle := handle, recording := true }
                   calls := calls
                   error := none }
        assertionHeld := held }

/-- Outcome of `startRecording` / `startRenderPassRecording`: the node afterwards, the
pointer stored into `*commandsOut` (`none`: not written), the driver calls made, and the
error returned (`none` is `NoError()`). -/
structure StartRecordingResult where
  node : CommandBufferNode
  commandsOut : Option SurfaceRef
  calls : List DriverCall
  error : Option VkResult
  deriving DecidableEq, Repr

/-- `CommandBufferNode::startRecording`. -/
def CommandBufferNode.startRecording (driver : VkDriver) (device commandPool : Nat)
    (node : CommandBufferNode) : Asserted StartRecordingResult :=
  let inheritanceInfo : VkCommandBufferInheritanceInfo :=
    { renderPass := VK_NULL_HANDLE
      subpass := 0
      framebuffer := VK_NULL_HANDLE
      occlusionQueryEnable := false
      queryFlags := 0
      pipelineStatistics := 0 }
  let r := InitAndBeginCommandBuffer driver device commandPool inheritanceInfo 0
    node.mOutsideRenderPassCommands
  let node1 := { node with mOutsideRenderPassCommands := r.value.commandBuffer }
  let held := !node.mIsFinishedRecording && r.assertionHeld
  match r.value.error with
  | some e =>
    { value := { node := node1, commandsOut := none, calls := r.value.calls, error := some e }
      assertionHeld := held }
  | none =>
    { value := { node := node1
                 commandsOut := some .outsideRenderPass
                 calls := r.value.calls
                 error := none }
      assertionHeld := held }

/-- `CommandBufferNode::startRenderPassRecording`. -/
def CommandBufferNode.startRenderPassRecording (driver : VkDriver) (renderer : RendererVk)
    (node : CommandBufferNode) : Asserted StartRecordingResult :=
  match renderer.getCompatibleRenderPass node.mRenderPassDesc with
  | .error e =>
    { value := { node := node, commandsOut := none, calls := [], error := some e }
      assertionHeld := !node.mIsFinishedRecording }
  | .ok compatibleRenderPass =>
    let inheritanceInfo : VkCommandBufferInheritanceInfo :=
      { renderPass := compatibleRenderPass
        subpass := 0
        framebuffer := node.mRenderPassFramebuffer.mHandle
        occlusionQueryEnable := false
        queryFlags := 0
        pipelineStatistics := 0 }
    let r := InitAndBeginCommandBuffer driver renderer.device renderer.commandPool
      inheritanceInfo VK_COMMAND_BUFFER_USAGE_RENDER_PASS_CONTINUE_BIT
      node.mInsideRenderPassCommands
    let node1 := { node with mInsideRenderPassCommands := r.value.commandBuffer }
    let held := !node.mIsFinishedRecording && r.assertionHeld
    match r.value.error with
    | some e =>
      { value := { node := node1, commandsOut := none, calls := r.value.calls, error := some e }
        assertionHeld := held }
    | none =>
      { value := { node := node1
                   commandsOut := some .insideRenderPass
                   calls := r.value.calls
                   error := none }
        assertionHeld := held }

/-- `CommandBufferNode::isFinishedRecording`. -/
def CommandBufferNode.isFinishedRecording (node : CommandBufferNode) : Bool :=
  node.mIsFinishedRecording

/-- `CommandBufferNode::finishRecording`. -/
def CommandBufferNode.finishRecording (node : CommandBufferNode) : CommandBufferNode :=
  { node with mIsFinishedRecording := true }

/-! ## Render-pass metadata -/

/-- The call `std::copy(src.begin(), src.end(), dst.begin())`: the leading elements of
`dst` are overwritten by `src`. Writing past the end of `dst` is undefined (`none`). -/
def stdCopy {α : Type} (src dst : List α) : Option (List α) :=
  if src.length ≤ dst.length then some (src ++ dst.drop src.length) else none

/-- `CommandBufferNode::storeRenderPassInfo`. The result is `none` when the copy of the
clear values runs past the end of the node's array. -/
def CommandBufferNode.storeRenderPassInfo (node : CommandBufferNode) (framebuffer : Framebuffer)
    (renderArea : Rectangle) (clearValues : List VkClearValue) : Option CommandBufferNode :=
  match stdCopy clearValues node.mRenderPassClearValues with
  | none => none
  | some stored =>
    some { node with
      mRenderPassFramebuffer := { mHandle := framebuffer.mHandle }
      mRenderPassRenderArea := renderArea
      mRenderPassClearValues := stored }

/-- `CommandBufferNode::appendColorRenderTarget`, for the node at address `self`. The
resource hook `onWriteResource (resource) (writer) (serial)` is a collaborator acting on
a world `W` of resources. -/
def CommandBufferNode.appendColorRenderTarget {W : Type}
    (onWriteResource : Nat → NodeId → Nat → W → W) (self : NodeId) (node : CommandBufferNode)
    (world : W) (serial : Nat) (colorRenderTarget : RenderTargetVk) : CommandBufferNode × W :=
  ({ node with
      mRenderPassDesc :=
        node.mRenderPassDesc.packColorAttachment colorRenderTarget.format
          colorRenderTarget.samples },
   onWriteResource colorRenderTarget.resource self serial world)

/-- `CommandBufferNode::appendDepthStencilRenderTarget`, for the node at address `self`. -/
def CommandBufferNode.appendDepthStencilRenderTarget {W : Type}
    (onWriteResource : Nat → NodeId → Nat → W → W) (self : NodeId) (node : CommandBufferNode)
    (world : W) (serial : Nat) (depthStencilRenderTarget : RenderTargetVk) :
    CommandBufferNode × W :=
  ({ node with
      mRenderPassDesc :=
        node.mRenderPassDesc.packDepthStencilAttachment depthStencilRenderTarget.format
          depthStencilRenderTarget.samples },
   onWriteResource depthStencilRenderTarget.resource self serial world)

/-! ## Dependencies -/

/-- `CommandBufferNode::setHasHappensAfterDependencies`. -/
def CommandBufferNode.setHasHappensAfterDependencies (node : CommandBufferNode) :
    CommandBufferNode :=
  { node with mHasHappensAfterDependencies := true }

/-- `CommandBufferNode::hasHappensAfterDependencies`. -/
def CommandBufferNode.hasHappensAfterDependencies (node : CommandBufferNode) : Bool :=
  node.mHasHappensAfterDependencies

/-- `CommandBufferNode::hasHappensBeforeDependencies`. -/
def CommandBufferNode.hasHappensBeforeDependencies (node : CommandBufferNode) : Bool :=
  !node.mHappensBeforeDependencies.isEmpty

/-- Iteration budget of the two graph loops: one unit per pending node plus one per
predecessor entry it would push. -/
def pendingWork (nodeCount : Nat) (heap : Heap) (isPending : NodeId → Bool) : Nat :=
  (((List.range nodeCount).filter isPending).map
    (fun v => (heap v).mHappensBeforeDependencies.length + 1)).sum

/-- The `while (!openList.empty())` loop of `happensAfter`, with an iteration budget.
`openList` has `back()` at its head; `none` means the budget ran out. -/
def happensAfterLoop (heap : Heap) (beforeNode : NodeId) :
    Nat → List NodeId → List NodeId → Option Bool
  | 0, _, _ => none
  | _ + 1, _, [] => some false
  | fuel + 1, visitedList, checkNode :: openList =>
    if checkNode ∈ visitedList then
      happensAfterLoop heap beforeNode fuel visitedList openList
    else if checkNode = beforeNode then
      some true
    else
      happensAfterLoop heap beforeNode fuel (checkNode :: visitedList)
        ((heap checkNode).mHappensBeforeDependencies.reverse ++ openList)

/-- `CommandBufferNode::happensAfter`, called on the node at address `self` in a graph of
`nodeCount` nodes. -/
def happensAfter (nodeCount : Nat) (heap : Heap) (self beforeNode : NodeId) : Option Bool :=
  let openList := (heap self).mHappensBeforeDependencies.reverse
  happensAfterLoop heap beforeNode
    (openList.length + pendingWork nodeCount heap (fun _ => true) + 1) [] openList

/-- The expression `beforeNode != afterNode && !beforeNode->happensAfter(afterNode)` of the
assertions; it does not hold when the search does not return. -/
def dependencyAssertion (nodeCount : Nat) (heap : Heap) (beforeNode afterNode : NodeId) : Bool :=
  if beforeNode = afterNode then false
  else
    match happensAfter nodeCount heap beforeNode afterNode with
    | some r => !r
    | none => false

/-- `CommandBufferNode::SetHappensBeforeDependency` (static), in a graph of `nodeCount`
nodes. -/
def SetHappensBeforeDependency (nodeCount : Nat) (heap : Heap) (beforeNode afterNode : NodeId) :
    Asserted Heap :=
  let heap1 := Function.update heap afterNode
    { heap afterNode with
      mHappensBeforeDependencies := (heap afterNode).mHappensBeforeDependencies ++ [beforeNode] }
  let heap2 := Function.update heap1 beforeNode (heap1 beforeNode).setHasHappensAfterDependencies
  let heap3 := Function.update heap2 beforeNode (heap2 beforeNode).finishRecording
  { value := heap3, assertionHeld := dependencyAssertion nodeCount heap3 beforeNode afterNode }

/-- The `for` loop of `SetHappensBeforeDependencies` over the remaining `beforeNodes`. -/
def setHappensBeforeLoop (nodeCount : Nat) (afterNode : NodeId) :
    List NodeId → Asserted Heap → Asserted Heap
  | [], acc => acc
  | beforeNode :: rest, acc =>
    let heap1 := Function.update acc.value beforeNode
      (acc.value beforeNode).setHasHappensAfterDependencies
    let heap2 := Function.update heap1 beforeNode (heap1 beforeNode).finishRecording
    setHappensBeforeLoop nodeCount afterNode rest
      { value := heap2
        assertionHeld :=
          acc.assertionHeld && dependencyAssertion nodeCount heap2 beforeNode afterNode }

/-- `CommandBufferNode::SetHappensBeforeDependencies` (static), in a graph of `nodeCount`
nodes. -/
def SetHappensBeforeDependencies (nodeCount : Nat) (heap : Heap) (beforeNodes : List NodeId)
    (afterNode : NodeId) : Asserted Heap :=
  let heap1 := Function.update heap afterNode
    { heap afterNode with
      mHappensBeforeDependencies := (heap afterNode).mHappensBeforeDependencies ++ beforeNodes }
  setHappensBeforeLoop nodeCount afterNode beforeNodes { value := heap1, assertionHeld := true }

/-! ## Flush -/

/-- `CommandBufferNode::visitedState`. -/
def CommandBufferNode.visitedState (node : CommandBufferNode) : VisitedState :=
  node.mVisitedState

/-- `CommandBufferNode::visitDependencies`: the node and the stack afterwards. -/
def CommandBufferNode.visitDependencies (node : CommandBufferNode) (stack : List NodeId) :
    Asserted (CommandBufferNode × List NodeId) :=
  { value := ({ node with mVisitedState := .Ready },
              node.mHappensBeforeDependencies.reverse ++ stack)
    assertionHeld := decide (node.mVisitedState = .Unvisited) }

/-- Outcome of `visitAndExecute`: the node and the primary command buffer afterwards, and
the error returned (`none` is `vk::NoError()`). -/
structure VisitResult where
  node : CommandBufferNode
  primaryCommandBuffer : List PrimaryCommand
  error : Option VkResult
  deriving DecidableEq, Repr

/-- `CommandBufferNode::visitAndExecute`. The four fields of the render area are cast with
`static_cast<uint32_t>`; the offset fields of the begin structure are `int32_t`, so the
two offsets are converted back to signed on assignment, and a negative offset is passed
on as it is; the extent fields are `uint32_t`. -/
def CommandBufferNode.visitAndExecute (renderer : RendererVk) (node : CommandBufferNode)
    (primaryCommandBuffer : List PrimaryCommand) : VisitResult :=
  let node1 :=
    if node.mOutsideRenderPassCommands.valid then
      { node with mOutsideRenderPassCommands := node.mOutsideRenderPassCommands.end_ }
    else node
  let primary1 :=
    if node.mOutsideRenderPassCommands.valid then
      primaryCommandBuffer ++ [.executeCommands 1 node1.mOutsideRenderPassCommands]
    else primaryCommandBuffer
  if node1.mInsideRenderPassCommands.valid then
    match renderer.getCompatibleRenderPass node1.mRenderPassDesc with
    | .error e => { node := node1, primaryCommandBuffer := primary1, error := some e }
    | .ok renderPass =>
      let node2 := { node1 with mInsideRenderPassCommands := node1.mInsideRenderPassCommands.end_ }
      let beginInfo : VkRenderPassBeginInfo :=
        { renderPass := renderPass
          framebuffer := node2.mRenderPassFramebuffer.mHandle
          offsetX := toInt32 (toUint32 node2.mRenderPassRenderArea.x)
          offsetY := toInt32 (toUint32 node2.mRenderPassRenderArea.y)
          extentWidth := toUint32 node2.mRenderPassRenderArea.width
          extentHeight := toUint32 node2.mRenderPassRenderArea.height
          clearValueCount := node2.mRenderPassDesc.attachmentCount
          pClearValues := node2.mRenderPassClearValues }
      { node := { node2 with mVisitedState := .Visited }
        primaryCommandBuffer :=
          primary1 ++ [.beginRenderPass beginInfo .secondaryCommandBuffers,
                       .executeCommands 1 node2.mInsideRenderPassCommands,
                       .endRenderPass]
        error := none }
  else
    { node := { node1 with mVisitedState := .Visited }
      primaryCommandBuffer := primary1
      error := none }

/-- State of the flush: the heap, the node stack (top at the head), the primary command
buffer, and the log of the nodes on which `visitAndExecute` has run, oldest first. -/
structure FlushState where
  heap : Heap
  nodeStack : List NodeId
  primaryCommandBuffer : List PrimaryCommand
  executed : List NodeId

/-- Outcome of the flush loop. -/
inductive FlushResult where
  | outOfFuel
  | failed (error : VkResult) (state : FlushState)
  | finished (state : FlushState)

/-- Modelled from the spec: the flush loop that drives `visitDependencies` and
`visitAndExecute` is outside the sources at hand. While the stack is not empty, take the
node on top: `Unvisited` calls `visitDependencies`; `Ready` calls `visitAndExecute`
(an error aborts the flush) and pops; `Visited` pops. -/
def flushLoop (renderer : RendererVk) : Nat → FlushState → FlushResult
  | 0, _ => .outOfFuel
  | fuel + 1, s =>
    match s.nodeStack with
    | [] => .finished s
    | node :: rest =>
      match (s.heap node).mVisitedState with
      | .Unvisited =>
        let r := (s.heap node).visitDependencies s.nodeStack
        flushLoop renderer fuel
          { s with heap := Function.update s.heap node r.value.1, nodeStack := r.value.2 }
      | .Ready =>
        let r := (s.heap node).visitAndExecute renderer s.primaryCommandBuffer
        let s1 : FlushState :=
          { heap := Function.update s.heap node r.node
            nodeStack := s.nodeStack
            primaryCommandBuffer := r.primaryCommandBuffer
            executed := s.executed ++ [node] }
        match r.error with
        | some e => .failed e s1
        | none => flushLoop renderer fuel { s1 with nodeStack := rest }
      | .Visited => flushLoop renderer fuel { s with nodeStack := rest }

/-- Modelled from the spec: the flush of a graph of `nodeCount` nodes, from a stack seeded
with `seed` and an empty primary command buffer. -/
def flush (renderer : RendererVk) (nodeCount : Nat) (heap : Heap) (seed : List NodeId) :
    FlushResult :=
  flushLoop renderer
    (seed.length + pendingWork nodeCount heap (fun v => (heap v).mVisitedState = .Unvisited) + 1)
    { heap := heap, nodeStack := seed, primaryCommandBuffer := [], executed := [] }

/-! ## The predecessor graph -/

/-- Predecessor edge: `b` is in the predecessor list of `a`. -/
def Edge (heap : Heap) (a b : NodeId) : Prop := b ∈ (heap a).mHappensBeforeDependencies

/-- The node `b` is reachable from `a` by one or more predecessor edges. -/
def Reaches (heap : Heap) (a b : NodeId) : Prop := Relation.TransGen (Edge heap) a b

/-- The predecessor graph has no cycle. -/
def Acyclic (heap : Heap) : Prop := ∀ v, ¬ Reaches heap v v

/-- The nodes `0 .. nodeCount - 1` only name each other as predecessors. -/
def Closed (nodeCount : Nat) (heap : Heap) : Prop :=
  ∀ v, v < nodeCount → ∀ p ∈ (heap v).mHappensBeforeDependencies, p < nodeCount

/-- What `visitAndExecute` records into the primary command buffer for a node. -/
def emitted (renderer : RendererVk) (node : CommandBufferNode) : List PrimaryCommand :=
  (node.visitAndExecute renderer []).primaryCommandBuffer

/-- The primary-buffer commands of a list of nodes, executed in order. -/
def emittedFor (renderer : RendererVk) (heap : Heap) : List NodeId → List PrimaryCommand
  | [] => []
  | v :: rest => emitted renderer (heap v) ++ emittedFor renderer heap rest

/-- The `executeCommands` entries of a command list. -/
def executeCommandsOf (cmds : List PrimaryCommand) : List PrimaryCommand :=
  cmds.filter fun c =>
    match c with
    | .executeCommands _ _ => true
    | _ => false

/-- A run of `SetHappensBeforeDependency(before, after)` calls, in order; the flag tells
whether the assertion held in every call. -/
def setDependencies (nodeCount : Nat) (heap : Heap) : List (NodeId × NodeId) → Asserted Heap
  | [] => { value := heap, assertionHeld := true }
  | (beforeNode, afterNode) :: rest =>
    let r := SetHappensBeforeDependency nodeCount heap beforeNode afterNode
    let r2 := setDependencies nodeCount r.value rest
    { value := r2.value, assertionHeld := r.assertionHeld && r2.assertionHeld }

/-- Invariant of the flush loop over a graph of `n` nodes whose heap at the start of the
flush is `heap0`. -/
structure FlushInv (renderer : RendererVk) (n : Nat) (heap0 : Heap) (s : FlushState) : Prop where
  frame : ∀ v, v ∉ s.executed →
    s.heap v = { heap0 v with mVisitedState := (s.heap v).mVisitedState }
  deps : ∀ v, (s.heap v).mHappensBeforeDependencies = (heap0 v).mHappensBeforeDependencies
  stack_lt : ∀ v ∈ s.nodeStack, v < n
  covered : ∀ v, v < n → (s.heap v).mVisitedState = .Visited ∨ v ∈ s.nodeStack
  visited_iff : ∀ v, v < n → ((s.heap v).mVisitedState = .Visited ↔ v ∈ s.executed)
  exec_lt : ∀ v ∈ s.executed, v < n
  exec_nodup : s.executed.Nodup
  exec_order : ∀ y ∈ s.executed, ∀ x ∈ (heap0 y).mHappensBeforeDependencies,
    ∃ pre mid post, s.executed = pre ++ x :: (mid ++ y :: post)
  ready : ∀ v, v < n → (s.heap v).mVisitedState = .Ready →
    ∃ above below, s.nodeStack = above ++ v :: below ∧
      (∀ p ∈ (heap0 v).mHappensBeforeDependencies,
        (s.heap p).mVisitedState = .Visited ∨ p ∈ above) ∧
      (∀ x ∈ above, Reaches heap0 v x)
  primary : s.primaryCommandBuffer = emittedFor renderer heap0 s.executed
  noerr : ∀ v ∈ s.executed, (heap0 v).mInsideRenderPassCommands.valid = true →
    ∃ rp, renderer.getCompatibleRenderPass (heap0 v).mRenderPassDesc = .ok rp

/-- Remaining work of the flush loop: stack entries plus the budget of the unvisited nodes. -/
def flushMeasure (n : Nat) (s : FlushState) : Nat :=
  s.nodeStack.length
    + pendingWork n s.heap (fun v => decide ((s.heap v).mVisitedState = .Unvisited))

/-- In the finished flush state `s`, `visitAndExecute` ran on `x` strictly before it ran
on `y`, and on each of them once: the log of the runs splits at one run on `x` and one
later run on `y`, neither node occurs anywhere else in the log, and the primary command
buffer holds the commands of `x` in a block that ends before the block of the commands of
`y` starts, the other blocks being those of the other nodes. -/
def ExecutedBefore (renderer : RendererVk) (heap : Heap) (s : FlushState) (x y : NodeId) : Prop :=
  ∃ pre mid post, s.executed = pre ++ x :: (mid ++ y :: post) ∧
    (x ∉ pre ∧ x ∉ mid ∧ x ∉ post ∧ y ∉ pre ∧ y ∉ mid ∧ y ∉ post ∧ x ≠ y) ∧
    s.primaryCommandBuffer
      = emittedFor renderer heap pre ++ (emitted renderer (heap x) ++
          (emittedFor renderer heap mid ++ (emitted renderer (heap y) ++
            emittedFor renderer heap post)))

/-- The `executeCommands` entries a node owes to the primary command buffer: one for each
valid command surface, the outside-render-pass surface first. -/
def surfaceEmissions (node : CommandBufferNode) : List PrimaryCommand :=
  (if node.mOutsideRenderPassCommands.valid then
      [PrimaryCommand.executeCommands 1 node.mOutsideRenderPassCommands.end_]
    else []) ++
  (if node.mInsideRenderPassCommands.valid then
      [PrimaryCommand.executeCommands 1 node.mInsideRenderPassCommands.end_]
    else [])

/-- The execution log of a finished flush. -/
def FlushResult.executedLog : FlushResult → Option (List NodeId)
  | .finished s => some s.executed
  | _ => none

/-- One `executeCommands` entry per valid command surface of each node of the list, in
order. -/
def surfaceEmissionsFor (heap : Heap) : List NodeId → List PrimaryCommand
  | [] => []
  | v :: rest => surfaceEmissions (heap v) ++ surfaceEmissionsFor heap rest

/-! ## Example graphs -/

/-- A fresh node with the given predecessor list and command-buffer handles. -/
def exampleNode (deps : List NodeId) (outsideHandle insideHandle : Nat) : CommandBufferNode :=
  { CommandBufferNode.new [] with
    mHappensBeforeDependencies := deps
    mOutsideRenderPassCommands := { mHandle := outsideHandle, recording := true }
    mInsideRenderPassCommands := { mHandle := insideHandle, recording := insideHandle != 0 } }

/-- Three nodes: node 1 after node 0; node 2 after node 0 (named twice) and node 1. -/
def exampleHeap : Heap := fun v =>
  match v with
  | 0 => exampleNode [] 10 0
  | 1 => exampleNode [0] 11 21
  | 2 => exampleNode [0, 0, 1] 0 22
  | _ => exampleNode [] 0 0

/-- A renderer whose render-pass cache never fails. -/
def exampleRenderer : RendererVk :=
  { getCompatibleRenderPass := fun d => .ok (100 + d.attachmentCount)
    device := 1
    commandPool := 2 }

/-- A fresh node whose clear-value array has four entries. -/
def freshNode : CommandBufferNode :=
  CommandBufferNode.new [{ raw := 0 }, { raw := 0 }, { raw := 0 }, { raw := 0 }]

/-- Fresh nodes, without edges. -/
def freshHeap : Heap := fun _ => freshNode

/-- Node 0 of two fresh nodes after `SetHappensBeforeDependency(0, 1)`: a sealed node. -/
def sealedNode : CommandBufferNode := (SetHappensBeforeDependency 2 freshHeap 0 1).value 0

/-- Three nodes with a cycle, a duplicate edge and a self-edge: node 0 after node 1
(named twice), node 1 after node 0, node 2 after itself. -/
def cyclicHeap : Heap := fun v =>
  match v with
  | 0 => exampleNode [1, 1] 0 0
  | 1 => exampleNode [0] 0 0
  | 2 => exampleNode [2] 0 0
  | _ => exampleNode [] 0 0

/-- Modelled from the spec: a resource records the most recent writing node and the
serial of that write. -/
structure ResourceVk where
  mCurrentWriteOperation : Option NodeId
  mSerial : Nat
  deriving DecidableEq, Repr

/-- Modelled from the spec: the hook `onWriteResource(node, serial)` of a resource, which
is outside the sources at hand, records the last writer. The world maps resource
addresses to resources. -/
def onWriteResource (resource : Nat) (writer : NodeId) (serial : Nat)
    (world : Nat → ResourceVk) : Nat → ResourceVk :=
  Function.update world resource { mCurrentWriteOperation := some writer, mSerial := serial }

/-- The last writer recorded for a resource. -/
def lastWriter (world : Nat → ResourceVk) (resource : Nat) : Option NodeId :=
  (world resource).mCurrentWriteOperation

/-- A hook that only logs its invocations `(resource, node, serial)`, oldest first. -/
def logWrite (resource : Nat) (writer : NodeId) (serial : Nat)
    (log : List (Nat × NodeId × Nat)) : List (Nat × NodeId × Nat) :=
  log ++ [(resource, writer, serial)]

/-- A fresh node with one colour attachment. -/
def attachedNode : CommandBufferNode :=
  (freshNode.appendColorRenderTarget logWrite 0 [] 1
    { format := 37, samples := 1, resource := 0 }).1

/-- The node `attachedNode` with framebuffer 5, a 4 by 4 render area and one clear value
bound. -/
def boundNode : CommandBufferNode :=
  { attachedNode with
    mRenderPassFramebuffer := { mHandle := 5 }
    mRenderPassRenderArea := { x := 0, y := 0, width := 4, height := 4 }
    mRenderPassClearValues := [{ raw := 7 }, { raw := 0 }, { raw := 0 }, { raw := 0 }] }

/-- Resources without a writer. -/
def freshWorld : Nat → ResourceVk := fun _ => { mCurrentWriteOperation := none, mSerial := 0 }

/-! ## Node operations -/

/-- The public operations of the class that change a node; `self` is the node they are
called on. The private `setHasHappensAfterDependencies` is called from the two static
dependency setters only and is part of them. -/
inductive NodeOp where
  | setHappensBeforeDependency (beforeNode afterNode : NodeId)
  | setHappensBeforeDependencies (beforeNodes : List NodeId) (afterNode : NodeId)
  | finishRecording (self : NodeId)
  | storeRenderPassInfo (self : NodeId) (framebuffer : Framebuffer) (renderArea : Rectangle)
      (clearValues : List VkClearValue)
  | appendColorRenderTarget (self : NodeId) (serial : Nat) (renderTarget : RenderTargetVk)
  | appendDepthStencilRenderTarget (self : NodeId) (serial : Nat) (renderTarget : RenderTargetVk)
  | startRecording (self : NodeId) (device commandPool : Nat)
  | startRenderPassRecording (self : NodeId)
  | visitDependencies (self : NodeId) (stack : List NodeId)
  | visitAndExecute (self : NodeId) (primaryCommandBuffer : List PrimaryCommand)

/-- A resource hook that leaves its world alone. -/
def noWrite (_resource : Nat) (_writer : NodeId) (_serial : Nat) (world : Unit) : Unit := world

/-- The heap after a node operation; `none` when `storeRenderPassInfo` copies past the end
of the clear-value array. -/
def NodeOp.apply (nodeCount : Nat) (driver : VkDriver) (renderer : RendererVk) (heap : Heap) :
    NodeOp → Option Heap
  | .setHappensBeforeDependency beforeNode afterNode =>
    some (SetHappensBeforeDependency nodeCount heap beforeNode afterNode).value
  | .setHappensBeforeDependencies beforeNodes afterNode =>
    some (SetHappensBeforeDependencies nodeCount heap beforeNodes afterNode).value
  | .finishRecording self => some (Function.update heap self (heap self).finishRecording)
  | .storeRenderPassInfo self framebuffer renderArea clearValues =>
    match (heap self).storeRenderPassInfo framebuffer renderArea clearValues with
    | none => none
    | some node => some (Function.update heap self node)
  | .appendColorRenderTarget self serial renderTarget =>
    some (Function.update heap self
      ((heap self).appendColorRenderTarget noWrite self () serial renderTarget).1)
  | .appendDepthStencilRenderTarget self serial renderTarget =>
    some (Function.update heap self
      ((heap self).appendDepthStencilRenderTarget noWrite self () serial renderTarget).1)
  | .startRecording self device commandPool =>
    some (Function.update heap self
      ((heap self).startRecording driver device commandPool).value.node)
  | .startRenderPassRecording self =>
    some (Function.update heap self
      ((heap self).startRenderPassRecording driver renderer).value.node)
  | .visitDependencies self stack =>
    some (Function.update heap self ((heap self).visitDependencies stack).value.1)
  | .visitAndExecute self primaryCommandBuffer =>
    some (Function.update heap self
      ((heap self).visitAndExecute renderer primaryCommandBuffer).node)

/-- The heaps reachable from freshly constructed nodes through node operations, whatever
the driver and the renderer answer in each of them. -/
inductive ReachableHeap (nodeCount : Nat) : Heap → Prop where
  | fresh (heap : Heap) (h : ∀ v, ∃ clearValues, heap v = CommandBufferNode.new clearValues) :
      ReachableHeap nodeCount heap
  | step (heap heap2 : Heap) (driver : VkDriver) (renderer : RendererVk) (op : NodeOp)
      (h : ReachableHeap nodeCount heap)
      (hop : op.apply nodeCount driver renderer heap = some heap2) :
      ReachableHeap nodeCount heap2

/-- The structure `VkRenderPassBeginInfo` that `visitAndExecute` fills in for a node, given
the render pass handle. -/
def renderPassBeginInfo (node : CommandBufferNode) (renderPass : Nat) : VkRenderPassBeginInfo :=
  { renderPass := renderPass
    framebuffer := node.mRenderPassFramebuffer.mHandle
    offsetX := toInt32 (toUint32 node.mRenderPassRenderArea.x)
    offsetY := toInt32 (toUint32 node.mRenderPassRenderArea.y)
    extentWidth := toUint32 node.mRenderPassRenderArea.width
    extentHeight := toUint32 node.mRenderPassRenderArea.height
    clearValueCount := node.mRenderPassDesc.attachmentCount
    pClearValues := node.mRenderPassClearValues }

/-- The value is in the range of a C++ `int`. -/
def IsInt (i : Int) : Prop := -2147483648 ≤ i ∧ i ≤ 2147483647

/-- The predecessors of a node that are `Unvisited`, in predecessor-list order. -/
def unvisitedPredecessors (heap : Heap) (node : CommandBufferNode) : List NodeId :=
  node.mHappensBeforeDependencies.filter fun p => decide ((heap p).mVisitedState = .Unvisited)

/-- A driver on which allocation and begin succeed; allocation returns handle 77. -/
def exampleDriver : VkDriver :=
  { allocate := fun _ => .ok 77
    beginBuffer := fun _ _ => .ok () }

/-- A driver on which allocation fails with code -1. -/
def failingDriver : VkDriver :=
  { allocate := fun _ => .error (-1)
    beginBuffer := fun _ _ => .ok () }

/-- A renderer whose render-pass cache fails with code -3. -/
def failingRenderer : RendererVk :=
  { getCompatibleRenderPass := fun _ => .error (-3)
    device := 1
    commandPool := 2 }

/-- Two nodes: node 0 is `Visited`, node 1 is `Unvisited` and comes after node 0. -/
def visitedHeap : Heap := fun v =>
  match v with
  | 0 => { exampleNode [] 10 0 with mVisitedState := .Visited }
  | 1 => exampleNode [0] 11 21
  | _ => exampleNode [] 0 0

/-- The node value `node2` has the predecessor list and the successor flag of `node`, and
is sealed when `node` is. -/
def KeepsGraphFields (node node2 : CommandBufferNode) : Prop :=
  node2.mHappensBeforeDependencies = node.mHappensBeforeDependencies ∧
  node2.mHasHappensAfterDependencies = node.mHasHappensAfterDependencies ∧
  (node.mIsFinishedRecording = true → node2.mIsFinishedRecording = true)

/-- The node `boundNode` after `startRenderPassRecording` on the example driver and
renderer: its inside-render-pass surface is valid. -/
def recordingNode : CommandBufferNode :=
  (boundNode.startRenderPassRecording exampleDriver exampleRenderer).value.node

/-- Two fresh nodes after `SetHappensBeforeDependency(0, 1)`. -/
def linkedHeap : Heap := (SetHappensBeforeDependency 2 freshHeap 0 1).value

/-- The allocation request of `InitAndBeginCommandBuffer` for a command pool. -/
def secondaryAllocateInfo (commandPool : Nat) : VkCommandBufferAllocateInfo :=
  { commandPool := commandPool, level := .secondary, commandBufferCount := 1 }

/-- The begin request that `startRecording` makes. -/
def outsideBeginInfo : VkCommandBufferBeginInfo :=
  { flags := VK_COMMAND_BUFFER_USAGE_ONE_TIME_SUBMIT_BIT
    pInheritanceInfo :=
      { renderPass := VK_NULL_HANDLE
        subpass := 0
        framebuffer := VK_NULL_HANDLE
        occlusionQueryEnable := false
        queryFlags := 0
        pipelineStatistics := 0 } }

/-- The begin request that `startRenderPassRecording` makes, given the compatible render
pass and the framebuffer handle of the node. -/
def insideBeginInfo (renderPass framebuffer : Nat) : VkCommandBufferBeginInfo :=
  { flags :=
      VK_COMMAND_BUFFER_USAGE_ONE_TIME_SUBMIT_BIT
        ||| VK_COMMAND_BUFFER_USAGE_RENDER_PASS_CONTINUE_BIT
    pInheritanceInfo :=
      { renderPass := renderPass
        subpass := 0
        framebuffer := framebuffer
        occlusionQueryEnable := false
        queryFlags := 0
        pipelineStatistics := 0 } }

/-- A driver on which allocation returns handle 77 and begin fails with code -2. -/
def beginFailingDriver : VkDriver :=
  { allocate := fun _ => .ok 77
    beginBuffer := fun _ _ => .error (-2) }

/-! ## Refinements -/

/-- The loop of `happensAfter` once more, returning next to the answer its local
`visitedList` at the end: the nodes whose predecessors were pushed onto the open list,
most recent first. -/
def happensAfterTrace (heap : Heap) (beforeNode : NodeId) :
    Nat → List NodeId → List NodeId → Option (Bool × List NodeId)
  | 0, _, _ => none
  | _ + 1, visitedList, [] => some (false, visitedList)
  | fuel + 1, visitedList, checkNode :: openList =>
    if checkNode ∈ visitedList then
      happensAfterTrace heap beforeNode fuel visitedList openList
    else if checkNode = beforeNode then
      some (true, visitedList)
    else
      happensAfterTrace heap beforeNode fuel (checkNode :: visitedList)
        ((heap checkNode).mHappensBeforeDependencies.reverse ++ openList)

/-- The answer of `happensAfter` together with the nodes it expanded, for the node at
address `self` in a graph of `nodeCount` nodes. -/
def happensAfterExpanded (nodeCount : Nat) (heap : Heap) (self beforeNode : NodeId) :
    Option (Bool × List NodeId) :=
  let openList := (heap self).mHappensBeforeDependencies.reverse
  happensAfterTrace heap beforeNode
    (openList.length + pendingWork nodeCount heap (fun _ => true) + 1) [] openList

/-- Step 2 of the flush algorithm as the specification words it, for an `Unvisited` node:
push every predecessor whose visit state is `Unvisited` and set the node to `Ready`. -/
def visitDependenciesSpec (heap : Heap) (node : CommandBufferNode) (stack : List NodeId) :
    CommandBufferNode × List NodeId :=
  ({ node with mVisitedState := .Ready }, (unvisitedPredecessors heap node).reverse ++ stack)

/-- The flush loop with step 2 as the specification words it (`visitDependenciesSpec`);
everything else as in `flushLoop`. -/
def flushLoopSpec (renderer : RendererVk) : Nat → FlushState → FlushResult
  | 0, _ => .outOfFuel
  | fuel + 1, s =>
    match s.nodeStack with
    | [] => .finished s
    | node :: rest =>
      match (s.heap node).mVisitedState with
      | .Unvisited =>
        let r := visitDependenciesSpec s.heap (s.heap node) s.nodeStack
        flushLoopSpec renderer fuel
          { s with heap := Function.update s.heap node r.1, nodeStack := r.2 }
      | .Ready =>
        let r := (s.heap node).visitAndExecute renderer s.primaryCommandBuffer
        let s1 : FlushState :=
          { heap := Function.update s.heap node r.node
            nodeStack := s.nodeStack
            primaryCommandBuffer := r.primaryCommandBuffer
            executed := s.executed ++ [node] }
        match r.error with
        | some e => .failed e s1
        | none => flushLoopSpec renderer fuel { s1 with nodeStack := rest }
      | .Visited => flushLoopSpec renderer fuel { s with nodeStack := rest }

/-- The flush with step 2 as the specification words it, from a stack seeded with `seed`
and an empty primary command buffer. -/
def flushSpec (renderer : RendererVk) (nodeCount : Nat) (heap : Heap) (seed : List NodeId) :
    FlushResult :=
  flushLoopSpec renderer
    (seed.length + pendingWork nodeCount heap (fun v => (heap v).mVisitedState = .Unvisited) + 1)
    { heap := heap, nodeStack := seed, primaryCommandBuffer := [], executed := [] }

/-- Two flushes ended alike: both finished, or both failed with the same error, with the
same heap (so the same visit states), the same primary command buffer and the same
execution log. A flush that ran out of fuel ended like no other. -/
def SameOutcome : FlushResult → FlushResult → Prop
  | .finished s1, .finished s2 =>
    s1.heap = s2.heap ∧ s1.primaryCommandBuffer = s2.primaryCommandBuffer ∧
      s1.executed = s2.executed
  | .failed e1 s1, .failed e2 s2 =>
    e1 = e2 ∧ s1.heap = s2.heap ∧ s1.primaryCommandBuffer = s2.primaryCommandBuffer ∧
      s1.executed = s2.executed
  | _, _ => False

/-- The stack entries that are not `Visited`. -/
def liveEntries (heap : Heap) (stack : List NodeId) : List NodeId :=
  stack.filter fun v => decide ((heap v).mVisitedState ≠ .Visited)

/-- The states of the two flush loops correspond: same heap, primary command buffer and
execution log, and the same stack once the `Visited` entries are left out. -/
def FlushSim (s1 s2 : FlushState) : Prop :=
  s1.heap = s2.heap ∧ s1.primaryCommandBuffer = s2.primaryCommandBuffer ∧
    s1.executed = s2.executed ∧
    liveEntries s1.heap s1.nodeStack = liveEntries s2.heap s2.nodeStack

/-- Outcome of one iteration of the flush loop. -/
inductive FlushStepResult where
  | finished
  | failed (error : VkResult) (state : FlushState)
  | next (state : FlushState)

/-- One iteration of `flushLoop`. -/
def flushStep (renderer : RendererVk) (s : FlushState) : FlushStepResult :=
  match s.nodeStack with
  | [] => .finished
  | node :: rest =>
    match (s.heap node).mVisitedState with
    | .Unvisited =>
      let r := (s.heap node).visitDependencies s.nodeStack
      .next { s with heap := Function.update s.heap node r.value.1, nodeStack := r.value.2 }
    | .Ready =>
      let r := (s.heap node).visitAndExecute renderer s.primaryCommandBuffer
      let s1 : FlushState :=
        { heap := Function.update s.heap node r.node
          nodeStack := s.nodeStack
          primaryCommandBuffer := r.primaryCommandBuffer
          executed := s.executed ++ [node] }
      match r.error with
      | some e => .failed e s1
      | none => .next { s1 with nodeStack := rest }
    | .Visited => .next { s with nodeStack := rest }

/-- The state of the flush loop after `k` iterations, if it runs that long. -/
def flushRun (renderer : RendererVk) : Nat → FlushState → Option FlushState
  | 0, s => some s
  | k + 1, s =>
    match flushStep renderer s with
    | .next s2 => flushRun renderer k s2
    | _ => none

/-- The primary command buffer of a finished flush. -/
def FlushResult.primaryCommands : FlushResult → Option (List PrimaryCommand)
  | .finished s => some s.primaryCommandBuffer
  | _ => none

/-- The calls `SetHappensBeforeDependency(b, afterNode)` for each `b` of the list, in
order. -/
def singleCalls (beforeNodes : List NodeId) (afterNode : NodeId) : List (NodeId × NodeId) :=
  beforeNodes.map fun b => (b, afterNode)

/-- Node 1 of the example graph with framebuffer 5 and a 4 by 3 render area whose offset
is negative, at (-1, -2). -/
def offsetNode : CommandBufferNode :=
  { exampleHeap 1 with
    mRenderPassFramebuffer := { mHandle := 5 }
    mRenderPassRenderArea := { x := -1, y := -2, width := 4, height := 3 } }

/-! ## Iteration budget -/

theorem sum_filter_agree (w : Nat → Nat) (P Q : Nat → Bool) (u : Nat) (l : List Nat)
    (hu : u ∉ l) (hPQ : ∀ v, v ≠ u → Q v = P v) :
    ((l.filter Q).map w).sum = ((l.filter P).map w).sum := by
  have : l.filter Q = l.filter P := by
    apply List.filter_congr
    intro x hx
    exact hPQ x (fun h => hu (h ▸ hx))
  rw [this]

theorem sum_filter_remove (w : Nat → Nat) (P Q : Nat → Bool) (u : Nat)
    (hP : P u = true) (hQ : Q u = false) (hPQ : ∀ v, v ≠ u → Q v = P v) :
    ∀ l : List Nat, l.Nodup → u ∈ l →
      ((l.filter P).map w).sum = ((l.filter Q).map w).sum + w u := by
  intro l
  induction l with
  | nil => intro _ h; simp at h
  | cons a l ih =>
    intro hnd hmem
    rw [List.nodup_cons] at hnd
    by_cases hau : a = u
    · subst hau
      have := sum_filter_agree w P Q a l hnd.1 hPQ
      simp [List.filter_cons, hP, hQ, this]
      omega
    · have hul : u ∈ l := by
        rcases List.mem_cons.1 hmem with h | h
        · exact absurd h.symm hau
        · exact h
      have := ih hnd.2 hul
      have hq := hPQ a hau
      cases hpa : P a <;> simp [List.filter_cons, hpa, hq, this]
      omega

/-- Taking one pending node out of the pending set releases its share of the budget. -/
theorem pendingWork_remove (n : Nat) (heap : Heap) (P Q : NodeId → Bool) (u : NodeId)
    (hu : u < n) (hP : P u = true) (hQ : Q u = false) (hPQ : ∀ v, v ≠ u → Q v = P v) :
    pendingWork n heap P
      = pendingWork n heap Q + ((heap u).mHappensBeforeDependencies.length + 1) := by
  unfold pendingWork
  exact sum_filter_remove _ P Q u hP hQ hPQ (List.range n) (List.nodup_range n)
    (List.mem_range.2 hu)

/-- The budget depends on the heap only through the predecessor lists. -/
theorem pendingWork_congr (n : Nat) (heap heap2 : Heap) (P : NodeId → Bool)
    (h : ∀ v, (heap2 v).mHappensBeforeDependencies = (heap v).mHappensBeforeDependencies) :
    pendingWork n heap2 P = pendingWork n heap P := by
  unfold pendingWork
  simp [h]

/-! ## Reachability search -/

/-- Everything reachable from `s` lies in a set that holds the predecessors of `s` and is
closed under predecessors. -/
theorem reaches_mem_of_closed (heap : Heap) (s : NodeId) (visited : List NodeId)
    (h0 : ∀ p ∈ (heap s).mHappensBeforeDependencies, p ∈ visited)
    (h1 : ∀ v ∈ visited, ∀ p ∈ (heap v).mHappensBeforeDependencies, p ∈ visited)
    (y : NodeId) (hy : Reaches heap s y) : y ∈ visited := by
  unfold Reaches at hy
  induction hy with
  | single h => exact h0 _ h
  | tail _ h ih => exact h1 _ ih _ h

/-- The search loop returns, and its answer is reachability, under the loop invariant:
the open list holds reachable nodes, and the visited set together with the open list is
closed under predecessors. -/
theorem happensAfterLoop_spec (n : Nat) (heap : Heap) (hc : Closed n heap) (s b : NodeId) :
    ∀ (fuel : Nat) (visited openList : List NodeId),
      (∀ x ∈ openList, x < n) →
      openList.length + pendingWork n heap (fun v => decide (v ∉ visited)) < fuel →
      (∀ x ∈ openList, Reaches heap s x) →
      (∀ p ∈ (heap s).mHappensBeforeDependencies, p ∈ visited ∨ p ∈ openList) →
      (∀ v ∈ visited, ∀ p ∈ (heap v).mHappensBeforeDependencies, p ∈ visited ∨ p ∈ openList) →
      b ∉ visited →
      (happensAfterLoop heap b fuel visited openList = some true ∧ Reaches heap s b) ∨
      (happensAfterLoop heap b fuel visited openList = some false ∧ ¬ Reaches heap s b) := by
  intro fuel
  induction fuel with
  | zero => intro visited openList _ hf; omega
  | succ fuel ih =>
    intro visited openList hlt hf hreach hsrc hclosed hb
    cases openList with
    | nil =>
      right
      refine ⟨rfl, fun hr => hb ?_⟩
      exact reaches_mem_of_closed heap s visited
        (fun p hp => (hsrc p hp).resolve_right (by simp))
        (fun v hv p hp => (hclosed v hv p hp).resolve_right (by simp)) b hr
    | cons x rest =>
      have hxn : x < n := hlt x (List.mem_cons_self _ _)
      by_cases hxv : x ∈ visited
      · have hstep : happensAfterLoop heap b (fuel + 1) visited (x :: rest)
            = happensAfterLoop heap b fuel visited rest := by
          simp [happensAfterLoop, hxv]
        rw [hstep]
        apply ih visited rest
        · intro y hy; exact hlt y (List.mem_cons_of_mem _ hy)
        · simp only [List.length_cons] at hf; omega
        · intro y hy; exact hreach y (List.mem_cons_of_mem _ hy)
        · intro p hp
          rcases hsrc p hp with h | h
          · exact Or.inl h
          · rcases List.mem_cons.1 h with h | h
            · exact Or.inl (h ▸ hxv)
            · exact Or.inr h
        · intro v hv p hp
          rcases hclosed v hv p hp with h | h
          · exact Or.inl h
          · rcases List.mem_cons.1 h with h | h
            · exact Or.inl (h ▸ hxv)
            · exact Or.inr h
        · exact hb
      · by_cases hxb : x = b
        · left
          subst hxb
          exact ⟨by simp [happensAfterLoop, hxv], hreach x (List.mem_cons_self _ _)⟩
        · have hstep : happensAfterLoop heap b (fuel + 1) visited (x :: rest)
              = happensAfterLoop heap b fuel (x :: visited)
                  ((heap x).mHappensBeforeDependencies.reverse ++ rest) := by
            simp [happensAfterLoop, hxv, hxb]
          rw [hstep]
          apply ih (x :: visited) ((heap x).mHappensBeforeDependencies.reverse ++ rest)
          · intro y hy
            rcases List.mem_append.1 hy with h | h
            · exact hc x hxn y (List.mem_reverse.1 h)
            · exact hlt y (List.mem_cons_of_mem _ h)
          · have hrem := pendingWork_remove n heap (fun v => decide (v ∉ visited))
              (fun v => decide (v ∉ x :: visited)) x hxn (by simp [hxv]) (by simp)
              (by
                intro v hv
                simp [hv])
            simp only [List.length_cons, List.length_append, List.length_reverse] at hf ⊢
            omega
          · intro y hy
            rcases List.mem_append.1 hy with h | h
            · exact Relation.TransGen.tail (hreach x (List.mem_cons_self _ _))
                (List.mem_reverse.1 h)
            · exact hreach y (List.mem_cons_of_mem _ h)
          · intro p hp
            rcases hsrc p hp with h | h
            · exact Or.inl (List.mem_cons_of_mem _ h)
            · rcases List.mem_cons.1 h with h | h
              · exact Or.inl (h ▸ List.mem_cons_self _ _)
              · exact Or.inr (List.mem_append_right _ h)
          · intro v hv p hp
            rcases List.mem_cons.1 hv with hvx | hvv
            · subst hvx
              exact Or.inr (List.mem_append_left _ (List.mem_reverse.2 hp))
            · rcases hclosed v hvv p hp with h | h
              · exact Or.inl (List.mem_cons_of_mem _ h)
              · rcases List.mem_cons.1 h with h | h
                · exact Or.inl (h ▸ List.mem_cons_self _ _)
                · exact Or.inr (List.mem_append_right _ h)
          · intro h
            rcases List.mem_cons.1 h with h | h
            · exact hxb h.symm
            · exact hb h

/-- On a closed graph `happensAfter` returns, and it returns reachability. -/
theorem happensAfter_spec (n : Nat) (heap : Heap) (hc : Closed n heap) (s b : NodeId)
    (hs : s < n) :
    (happensAfter n heap s b = some true ∧ Reaches heap s b) ∨
    (happensAfter n heap s b = some false ∧ ¬ Reaches heap s b) := by
  unfold happensAfter
  apply happensAfterLoop_spec n heap hc s b
  · intro x hx; exact hc s hs x (List.mem_reverse.1 hx)
  · have : pendingWork n heap (fun v => decide (v ∉ ([] : List NodeId)))
        = pendingWork n heap (fun _ => true) := by
      unfold pendingWork; simp
    rw [this]; omega
  · intro x hx; exact Relation.TransGen.single (List.mem_reverse.1 hx)
  · intro p hp; exact Or.inr (List.mem_reverse.2 hp)
  · intro v hv; simp at hv
  · simp

/-! ## Executing one node -/

theorem visitAndExecute_deps (renderer : RendererVk) (node : CommandBufferNode)
    (primary : List PrimaryCommand) :
    (node.visitAndExecute renderer primary).node.mHappensBeforeDependencies
      = node.mHappensBeforeDependencies := by
  unfold CommandBufferNode.visitAndExecute
  simp only []
  split_ifs <;> (try split) <;> rfl

theorem visitAndExecute_primary (renderer : RendererVk) (node : CommandBufferNode)
    (primary : List PrimaryCommand) :
    (node.visitAndExecute renderer primary).primaryCommandBuffer
      = primary ++ emitted renderer node := by
  unfold emitted CommandBufferNode.visitAndExecute
  simp only []
  split_ifs <;> (try split) <;> simp

theorem visitAndExecute_ok (renderer : RendererVk) (node : CommandBufferNode)
    (primary : List PrimaryCommand)
    (h : (node.visitAndExecute renderer primary).error = none) :
    (node.visitAndExecute renderer primary).node.mVisitedState = .Visited ∧
    (node.mInsideRenderPassCommands.valid = true →
      ∃ rp, renderer.getCompatibleRenderPass node.mRenderPassDesc = .ok rp) := by
  unfold CommandBufferNode.visitAndExecute at h ⊢
  simp only [] at h ⊢
  split_ifs at h ⊢ <;> (try split at h) <;> simp_all

theorem visitAndExecute_failed (renderer : RendererVk) (node : CommandBufferNode)
    (primary : List PrimaryCommand) (e : VkResult)
    (h : (node.visitAndExecute renderer primary).error = some e) :
    ∃ d, renderer.getCompatibleRenderPass d = .error e := by
  unfold CommandBufferNode.visitAndExecute at h
  simp only [] at h
  split_ifs at h
  all_goals
    split at h
    · rename_i e2 heq
      simp only [Option.some.injEq] at h
      exact ⟨_, h ▸ heq⟩
    · simp at h

theorem emitted_visitedState (renderer : RendererVk) (node : CommandBufferNode)
    (vs : VisitedState) :
    emitted renderer { node with mVisitedState := vs } = emitted renderer node := by
  unfold emitted CommandBufferNode.visitAndExecute
  simp only []
  split_ifs <;> (try split) <;> simp_all

theorem emittedFor_append (renderer : RendererVk) (heap : Heap) (l1 l2 : List NodeId) :
    emittedFor renderer heap (l1 ++ l2)
      = emittedFor renderer heap l1 ++ emittedFor renderer heap l2 := by
  induction l1 with
  | nil => rfl
  | cons a l ih => simp [emittedFor, ih]

/-! ## The flush loop -/

/-- A split of a stack whose top differs from the split point has a non-empty upper part. -/
theorem split_below_top {u v : NodeId} {rest above below : List NodeId}
    (h : u :: rest = above ++ v :: below) (hne : v ≠ u) :
    ∃ above2, above = u :: above2 ∧ rest = above2 ++ v :: below := by
  cases above with
  | nil =>
    simp only [List.nil_append, List.cons.injEq] at h
    exact absurd h.1.symm hne
  | cons a above2 =>
    simp only [List.cons_append, List.cons.injEq] at h
    exact ⟨above2, by rw [h.1], h.2⟩

/-- Step of the flush loop on an `Unvisited` top of stack keeps the invariant. -/
theorem flushInv_visitDependencies (renderer : RendererVk) (n : Nat) (heap0 : Heap)
    (hc : Closed n heap0) (s : FlushState) (u : NodeId) (rest : List NodeId)
    (hstack : s.nodeStack = u :: rest) (hvs : (s.heap u).mVisitedState = .Unvisited)
    (inv : FlushInv renderer n heap0 s) :
    FlushInv renderer n heap0
      { heap := Function.update s.heap u { s.heap u with mVisitedState := .Ready }
        nodeStack := (s.heap u).mHappensBeforeDependencies.reverse ++ s.nodeStack
        primaryCommandBuffer := s.primaryCommandBuffer
        executed := s.executed } := by
  have hun : u < n := inv.stack_lt u (by rw [hstack]; exact List.mem_cons_self _ _)
  have hu_notexec : u ∉ s.executed := by
    intro h
    have := (inv.visited_iff u hun).2 h
    rw [hvs] at this
    exact absurd this (by decide)
  constructor
  · intro v hv
    by_cases hvu : v = u
    · subst hvu
      simp only [Function.update_same]
      rw [inv.frame v hv]
    · simp only [Function.update_noteq hvu]
      exact inv.frame v hv
  · intro v
    by_cases hvu : v = u
    · subst hvu; simp only [Function.update_same]; exact inv.deps v
    · simp only [Function.update_noteq hvu]; exact inv.deps v
  · intro v hv
    simp only at hv
    rcases List.mem_append.1 hv with h | h
    · rw [inv.deps u] at h
      exact hc u hun v (List.mem_reverse.1 h)
    · exact inv.stack_lt v h
  · intro v hv
    by_cases hvu : v = u
    · subst hvu
      right
      simp only
      rw [hstack]
      exact List.mem_append_right _ (List.mem_cons_self _ _)
    · simp only [Function.update_noteq hvu]
      rcases inv.covered v hv with h | h
      · exact Or.inl h
      · exact Or.inr (List.mem_append_right _ h)
  · intro v hv
    by_cases hvu : v = u
    · subst hvu
      simp only [Function.update_same]
      constructor
      · intro h; exact absurd h (by decide)
      · intro h; exact absurd h hu_notexec
    · simp only [Function.update_noteq hvu]
      exact inv.visited_iff v hv
  · exact inv.exec_lt
  · exact inv.exec_nodup
  · exact inv.exec_order
  · intro v hv hready
    by_cases hvu : v = u
    · subst hvu
      refine ⟨(s.heap v).mHappensBeforeDependencies.reverse, rest, ?_, ?_, ?_⟩
      · simp only; rw [hstack]
      · intro p hp
        right
        rw [inv.deps v]
        exact List.mem_reverse.2 hp
      · intro x hx
        rw [inv.deps v] at hx
        exact Relation.TransGen.single (List.mem_reverse.1 hx)
    · simp only [Function.update_noteq hvu] at hready
      obtain ⟨above, below, hsplit, hdeps, hreach⟩ := inv.ready v hv hready
      rw [hstack] at hsplit
      obtain ⟨above2, habove, hrest⟩ := split_below_top hsplit hvu
      refine ⟨(s.heap u).mHappensBeforeDependencies.reverse ++ above, below, ?_, ?_, ?_⟩
      · simp only
        rw [hstack, hsplit, List.append_assoc]
      · intro p hp
        rcases hdeps p hp with h | h
        · left
          have hpu : p ≠ u := by
            intro hpu
            rw [hpu, hvs] at h
            exact absurd h (by decide)
          simp only [Function.update_noteq hpu]
          exact h
        · exact Or.inr (List.mem_append_right _ h)
      · intro x hx
        rcases List.mem_append.1 hx with h | h
        · rw [inv.deps u] at h
          have hvu2 : Reaches heap0 v u := hreach u (by rw [habove]; exact List.mem_cons_self _ _)
          exact Relation.TransGen.tail hvu2 (List.mem_reverse.1 h)
        · exact hreach x h
  · exact inv.primary
  · exact inv.noerr

/-- Popping the top of the stack keeps the `ready` part of the invariant, when the popped
node is `Visited` afterwards and no other visit state changes. -/
theorem ready_after_pop (n : Nat) (heap0 : Heap) (heap heap2 : Heap) (u : NodeId)
    (rest : List NodeId)
    (hready : ∀ v, v < n → (heap v).mVisitedState = .Ready →
      ∃ above below, u :: rest = above ++ v :: below ∧
        (∀ p ∈ (heap0 v).mHappensBeforeDependencies,
          (heap p).mVisitedState = .Visited ∨ p ∈ above) ∧
        (∀ x ∈ above, Reaches heap0 v x))
    (hu : (heap2 u).mVisitedState = .Visited)
    (hother : ∀ p, p ≠ u → (heap2 p).mVisitedState = (heap p).mVisitedState) :
    ∀ v, v < n → (heap2 v).mVisitedState = .Ready →
      ∃ above below, rest = above ++ v :: below ∧
        (∀ p ∈ (heap0 v).mHappensBeforeDependencies,
          (heap2 p).mVisitedState = .Visited ∨ p ∈ above) ∧
        (∀ x ∈ above, Reaches heap0 v x) := by
  intro v hv hr
  have hvu : v ≠ u := by
    intro h
    rw [h, hu] at hr
    exact absurd hr (by decide)
  rw [hother v hvu] at hr
  obtain ⟨above, below, hsplit, hdeps, hreach⟩ := hready v hv hr
  obtain ⟨above2, habove, hrest⟩ := split_below_top hsplit hvu
  refine ⟨above2, below, hrest, ?_, ?_⟩
  · intro p hp
    by_cases hpu : p = u
    · left; rw [hpu]; exact hu
    · rcases hdeps p hp with h | h
      · left; rw [hother p hpu]; exact h
      · right
        rw [habove] at h
        rcases List.mem_cons.1 h with h | h
        · exact absurd h hpu
        · exact h
  · intro x hx
    exact hreach x (by rw [habove]; exact List.mem_cons_of_mem _ hx)

/-- Step of the flush loop on a `Visited` top of stack keeps the invariant. -/
theorem flushInv_pop (renderer : RendererVk) (n : Nat) (heap0 : Heap)
    (s : FlushState) (u : NodeId) (rest : List NodeId)
    (hstack : s.nodeStack = u :: rest) (hvs : (s.heap u).mVisitedState = .Visited)
    (inv : FlushInv renderer n heap0 s) :
    FlushInv renderer n heap0
      { heap := s.heap
        nodeStack := rest
        primaryCommandBuffer := s.primaryCommandBuffer
        executed := s.executed } := by
  constructor
  · exact inv.frame
  · exact inv.deps
  · intro v hv
    exact inv.stack_lt v (by rw [hstack]; exact List.mem_cons_of_mem _ hv)
  · intro v hv
    rcases inv.covered v hv with h | h
    · exact Or.inl h
    · rw [hstack] at h
      rcases List.mem_cons.1 h with h | h
      · left; rw [h]; exact hvs
      · exact Or.inr h
  · exact inv.visited_iff
  · exact inv.exec_lt
  · exact inv.exec_nodup
  · exact inv.exec_order
  · exact ready_after_pop n heap0 s.heap s.heap u rest (hstack ▸ inv.ready) hvs
      (fun _ _ => rfl)
  · exact inv.primary
  · exact inv.noerr

/-- On an acyclic graph, a `Ready` node on top of the stack has all its predecessors
`Visited`. -/
theorem ready_top_predecessors_visited (renderer : RendererVk) (n : Nat) (heap0 : Heap)
    (hac : Acyclic heap0) (s : FlushState) (u : NodeId) (rest : List NodeId)
    (hstack : s.nodeStack = u :: rest) (hvs : (s.heap u).mVisitedState = .Ready)
    (inv : FlushInv renderer n heap0 s) :
    ∀ p ∈ (heap0 u).mHappensBeforeDependencies, (s.heap p).mVisitedState = .Visited := by
  have hun : u < n := inv.stack_lt u (by rw [hstack]; exact List.mem_cons_self _ _)
  obtain ⟨above, below, hsplit, hdeps, hreach⟩ := inv.ready u hun hvs
  rw [hstack] at hsplit
  cases above with
  | nil =>
    intro p hp
    rcases hdeps p hp with h | h
    · exact h
    · simp at h
  | cons a above2 =>
    simp only [List.cons_append, List.cons.injEq] at hsplit
    exact absurd (hreach u (by rw [hsplit.1]; exact List.mem_cons_self _ _)) (hac u)

/-- Step of the flush loop on a `Ready` top of stack, when `visitAndExecute` returns no
error, keeps the invariant. -/
theorem flushInv_visitAndExecute (renderer : RendererVk) (n : Nat) (heap0 : Heap)
    (hc : Closed n heap0) (hac : Acyclic heap0) (s : FlushState) (u : NodeId)
    (rest : List NodeId)
    (hstack : s.nodeStack = u :: rest) (hvs : (s.heap u).mVisitedState = .Ready)
    (hok : ((s.heap u).visitAndExecute renderer s.primaryCommandBuffer).error = none)
    (inv : FlushInv renderer n heap0 s) :
    FlushInv renderer n heap0
      { heap := Function.update s.heap u
          ((s.heap u).visitAndExecute renderer s.primaryCommandBuffer).node
        nodeStack := rest
        primaryCommandBuffer :=
          ((s.heap u).visitAndExecute renderer s.primaryCommandBuffer).primaryCommandBuffer
        executed := s.executed ++ [u] } := by
  have hun : u < n := inv.stack_lt u (by rw [hstack]; exact List.mem_cons_self _ _)
  have hu_notexec : u ∉ s.executed := by
    intro h
    have := (inv.visited_iff u hun).2 h
    rw [hvs] at this
    exact absurd this (by decide)
  have hpreds := ready_top_predecessors_visited renderer n heap0 hac s u rest hstack hvs inv
  obtain ⟨hvisited, hrp⟩ := visitAndExecute_ok renderer (s.heap u) s.primaryCommandBuffer hok
  have hframe_u := inv.frame u hu_notexec
  constructor
  · intro v hv
    have hvu : v ≠ u := by
      intro h; apply hv; rw [h]; exact List.mem_append_right _ (List.mem_cons_self _ _)
    simp only [Function.update_noteq hvu]
    exact inv.frame v (fun h => hv (List.mem_append_left _ h))
  · intro v
    by_cases hvu : v = u
    · subst hvu
      simp only [Function.update_same, visitAndExecute_deps]
      exact inv.deps v
    · simp only [Function.update_noteq hvu]; exact inv.deps v
  · intro v hv
    exact inv.stack_lt v (by rw [hstack]; exact List.mem_cons_of_mem _ hv)
  · intro v hv
    by_cases hvu : v = u
    · subst hvu
      left
      simp only [Function.update_same]
      exact hvisited
    · simp only [Function.update_noteq hvu]
      rcases inv.covered v hv with h | h
      · exact Or.inl h
      · rw [hstack] at h
        rcases List.mem_cons.1 h with h | h
        · exact absurd h hvu
        · exact Or.inr h
  · intro v hv
    by_cases hvu : v = u
    · subst hvu
      simp only [Function.update_same]
      exact ⟨fun _ => List.mem_append_right _ (List.mem_cons_self _ _), fun _ => hvisited⟩
    · simp only [Function.update_noteq hvu]
      rw [inv.visited_iff v hv]
      constructor
      · intro h; exact List.mem_append_left _ h
      · intro h
        rcases List.mem_append.1 h with h | h
        · exact h
        · simp only [List.mem_singleton] at h
          exact absurd h hvu
  · intro v hv
    rcases List.mem_append.1 hv with h | h
    · exact inv.exec_lt v h
    · simp only [List.mem_singleton] at h
      rw [h]; exact hun
  · apply List.Nodup.append inv.exec_nodup (List.nodup_singleton u)
    intro a ha hau
    simp only [List.mem_singleton] at hau
    exact hu_notexec (hau ▸ ha)
  · intro y hy x hx
    rcases List.mem_append.1 hy with h | h
    · obtain ⟨pre, mid, post, heq⟩ := inv.exec_order y h x hx
      refine ⟨pre, mid, post ++ [u], ?_⟩
      rw [heq]
      simp
    · simp only [List.mem_singleton] at h
      subst h
      have hxn : x < n := hc y hun x hx
      have hxe : x ∈ s.executed := (inv.visited_iff x hxn).1 (hpreds x hx)
      obtain ⟨pre, mid, heq⟩ := List.append_of_mem hxe
      exact ⟨pre, mid, [], by rw [heq]; simp⟩
  · apply ready_after_pop n heap0 s.heap _ u rest (hstack ▸ inv.ready)
    · simp only [Function.update_same]; exact hvisited
    · intro p hp
      simp only [Function.update_noteq hp]
  · simp only
    rw [visitAndExecute_primary, emittedFor_append, inv.primary, hframe_u,
      emitted_visitedState]
    simp [emittedFor]
  · intro v hv hvalid
    rcases List.mem_append.1 hv with h | h
    · exact inv.noerr v h hvalid
    · simp only [List.mem_singleton] at h
      subst h
      rw [hframe_u] at hrp
      exact hrp hvalid

/-- The `Unvisited` step lowers the remaining work. -/
theorem flushMeasure_visitDependencies (n : Nat) (s : FlushState) (u : NodeId)
    (rest : List NodeId) (hstack : s.nodeStack = u :: rest) (hun : u < n)
    (hvs : (s.heap u).mVisitedState = .Unvisited) :
    flushMeasure n
      { heap := Function.update s.heap u { s.heap u with mVisitedState := .Ready }
        nodeStack := (s.heap u).mHappensBeforeDependencies.reverse ++ s.nodeStack
        primaryCommandBuffer := s.primaryCommandBuffer
        executed := s.executed } + 1 = flushMeasure n s := by
  unfold flushMeasure
  simp only
  have hw : ∀ v, ((Function.update s.heap u { s.heap u with mVisitedState := .Ready }) v).mHappensBeforeDependencies
      = (s.heap v).mHappensBeforeDependencies := by
    intro v
    by_cases hvu : v = u
    · subst hvu; simp only [Function.update_same]
    · simp only [Function.update_noteq hvu]
  rw [pendingWork_congr n s.heap _ _ hw]
  have hrem := pendingWork_remove n s.heap
    (fun v => decide ((s.heap v).mVisitedState = .Unvisited))
    (fun v => decide (((Function.update s.heap u
      { s.heap u with mVisitedState := .Ready }) v).mVisitedState = .Unvisited))
    u hun (by simp [hvs]) (by simp)
    (by
      intro v hv
      simp only [Function.update_noteq hv])
  rw [hrem]
  simp only [List.length_append, List.length_reverse]
  omega

/-- The `Ready` step lowers the remaining work. -/
theorem flushMeasure_visitAndExecute (renderer : RendererVk) (n : Nat) (s : FlushState)
    (u : NodeId) (rest : List NodeId) (hstack : s.nodeStack = u :: rest)
    (hvs : (s.heap u).mVisitedState = .Ready)
    (hok : ((s.heap u).visitAndExecute renderer s.primaryCommandBuffer).error = none) :
    flushMeasure n
      { heap := Function.update s.heap u
          ((s.heap u).visitAndExecute renderer s.primaryCommandBuffer).node
        nodeStack := rest
        primaryCommandBuffer :=
          ((s.heap u).visitAndExecute renderer s.primaryCommandBuffer).primaryCommandBuffer
        executed := s.executed ++ [u] } + 1 = flushMeasure n s := by
  unfold flushMeasure
  simp only
  have hvisited := (visitAndExecute_ok renderer (s.heap u) s.primaryCommandBuffer hok).1
  have hw : ∀ v, ((Function.update s.heap u
      ((s.heap u).visitAndExecute renderer s.primaryCommandBuffer).node) v).mHappensBeforeDependencies
      = (s.heap v).mHappensBeforeDependencies := by
    intro v
    by_cases hvu : v = u
    · subst hvu; simp only [Function.update_same, visitAndExecute_deps]
    · simp only [Function.update_noteq hvu]
  rw [pendingWork_congr n s.heap _ _ hw]
  have hP : (fun v => decide (((Function.update s.heap u
      ((s.heap u).visitAndExecute renderer s.primaryCommandBuffer).node) v).mVisitedState
        = .Unvisited))
      = (fun v => decide ((s.heap v).mVisitedState = .Unvisited)) := by
    funext v
    by_cases hvu : v = u
    · subst hvu; simp [Function.update_same, hvisited, hvs]
    · simp only [Function.update_noteq hvu]
  rw [hP, hstack]
  simp only [List.length_cons]
  omega

/-- With enough fuel the flush loop on an acyclic graph ends: either `visitAndExecute`
fails because the renderer does, or the stack is empty and the invariant holds. -/
theorem flushLoop_spec (renderer : RendererVk) (n : Nat) (heap0 : Heap)
    (hc : Closed n heap0) (hac : Acyclic heap0) :
    ∀ (fuel : Nat) (s : FlushState), FlushInv renderer n heap0 s → flushMeasure n s < fuel →
      (∃ e s2, flushLoop renderer fuel s = .failed e s2 ∧
        ∃ d, renderer.getCompatibleRenderPass d = .error e) ∨
      (∃ s2, flushLoop renderer fuel s = .finished s2 ∧ FlushInv renderer n heap0 s2 ∧
        s2.nodeStack = []) := by
  intro fuel
  induction fuel with
  | zero => intro s _ h; omega
  | succ fuel ih =>
    intro s inv hfuel
    cases hstack : s.nodeStack with
    | nil =>
      right
      exact ⟨s, by simp [flushLoop, hstack], inv, hstack⟩
    | cons u rest =>
      have hun : u < n := inv.stack_lt u (by rw [hstack]; exact List.mem_cons_self _ _)
      cases hvs : (s.heap u).mVisitedState with
      | Unvisited =>
        have hstep : flushLoop renderer (fuel + 1) s = flushLoop renderer fuel
            { heap := Function.update s.heap u { s.heap u with mVisitedState := .Ready }
              nodeStack := (s.heap u).mHappensBeforeDependencies.reverse ++ s.nodeStack
              primaryCommandBuffer := s.primaryCommandBuffer
              executed := s.executed } := by
          simp [flushLoop, hstack, hvs, CommandBufferNode.visitDependencies]
        rw [hstep]
        apply ih
        · exact flushInv_visitDependencies renderer n heap0 hc s u rest hstack hvs inv
        · have := flushMeasure_visitDependencies n s u rest hstack hun hvs
          omega
      | Ready =>
        cases herr : ((s.heap u).visitAndExecute renderer s.primaryCommandBuffer).error with
        | some e =>
          left
          refine ⟨e,
            { heap := Function.update s.heap u
                ((s.heap u).visitAndExecute renderer s.primaryCommandBuffer).node
              nodeStack := s.nodeStack
              primaryCommandBuffer :=
                ((s.heap u).visitAndExecute renderer
                  s.primaryCommandBuffer).primaryCommandBuffer
              executed := s.executed ++ [u] }, ?_,
            visitAndExecute_failed renderer _ _ e herr⟩
          simp only [flushLoop, hstack, hvs, herr]
        | none =>
          have hstep : flushLoop renderer (fuel + 1) s = flushLoop renderer fuel
              { heap := Function.update s.heap u
                  ((s.heap u).visitAndExecute renderer s.primaryCommandBuffer).node
                nodeStack := rest
                primaryCommandBuffer :=
                  ((s.heap u).visitAndExecute renderer
                    s.primaryCommandBuffer).primaryCommandBuffer
                executed := s.executed ++ [u] } := by
            simp only [flushLoop, hstack, hvs, herr]
          rw [hstep]
          apply ih
          · exact flushInv_visitAndExecute renderer n heap0 hc hac s u rest hstack hvs herr inv
          · have := flushMeasure_visitAndExecute renderer n s u rest hstack hvs herr
            omega
      | Visited =>
        have hstep : flushLoop renderer (fuel + 1) s = flushLoop renderer fuel
            { heap := s.heap
              nodeStack := rest
              primaryCommandBuffer := s.primaryCommandBuffer
              executed := s.executed } := by
          simp only [flushLoop, hstack, hvs]
        rw [hstep]
        apply ih
        · exact flushInv_pop renderer n heap0 s u rest hstack hvs inv
        · have : flushMeasure n
              { heap := s.heap
                nodeStack := rest
                primaryCommandBuffer := s.primaryCommandBuffer
                executed := s.executed } + 1 = flushMeasure n s := by
            unfold flushMeasure
            simp only [hstack, List.length_cons]
            omega
          omega

/-- The invariant holds when the flush starts on unvisited nodes with all of them on the
stack. -/
theorem flushInv_initial (renderer : RendererVk) (n : Nat) (heap : Heap) (seed : List NodeId)
    (hfresh : ∀ v, v < n → (heap v).mVisitedState = .Unvisited)
    (hseed : ∀ v ∈ seed, v < n) (hall : ∀ v, v < n → v ∈ seed) :
    FlushInv renderer n heap
      { heap := heap, nodeStack := seed, primaryCommandBuffer := [], executed := [] } := by
  constructor
  · intro v _; rfl
  · intro v; rfl
  · exact hseed
  · intro v hv; exact Or.inr (hall v hv)
  · intro v hv
    simp only [hfresh v hv, List.not_mem_nil, iff_false]
    decide
  · intro v hv; simp at hv
  · exact List.nodup_nil
  · intro y hy; simp at hy
  · intro v hv hr
    simp only [hfresh v hv] at hr
    exact absurd hr (by decide)
  · rfl
  · intro v hv; simp at hv

/-- The flush of an acyclic graph ends; when it finishes, the invariant holds on an empty
stack. -/
theorem flush_spec (renderer : RendererVk) (n : Nat) (heap : Heap) (seed : List NodeId)
    (hc : Closed n heap) (hac : Acyclic heap)
    (hfresh : ∀ v, v < n → (heap v).mVisitedState = .Unvisited)
    (hseed : ∀ v ∈ seed, v < n) (hall : ∀ v, v < n → v ∈ seed) :
    (∃ e s2, flush renderer n heap seed = .failed e s2 ∧
      ∃ d, renderer.getCompatibleRenderPass d = .error e) ∨
    (∃ s2, flush renderer n heap seed = .finished s2 ∧ FlushInv renderer n heap s2 ∧
      s2.nodeStack = []) := by
  unfold flush
  apply flushLoop_spec renderer n heap hc hac
  · exact flushInv_initial renderer n heap seed hfresh hseed hall
  · unfold flushMeasure
    simp only
    omega

/-- A graph whose predecessors all have smaller addresses has no cycle. -/
theorem acyclic_of_decreasing (heap : Heap)
    (h : ∀ v, ∀ p ∈ (heap v).mHappensBeforeDependencies, p < v) : Acyclic heap := by
  have key : ∀ a b, Reaches heap a b → b < a := by
    intro a b hab
    unfold Reaches at hab
    induction hab with
    | single e => exact h _ _ e
    | tail _ e ih => exact lt_trans (h _ _ e) ih
  intro v hv
  exact lt_irrefl v (key v v hv)

theorem exampleHeap_decreasing :
    ∀ v, ∀ p ∈ (exampleHeap v).mHappensBeforeDependencies, p < v := by
  intro v
  match v with
  | 0 => simp [exampleHeap, exampleNode]
  | 1 => simp [exampleHeap, exampleNode]
  | 2 => simp [exampleHeap, exampleNode]
  | _ + 3 => simp [exampleHeap, exampleNode]

theorem exampleHeap_closed : Closed 3 exampleHeap := by
  intro v _ p hp
  exact lt_trans (exampleHeap_decreasing v p hp) (by assumption)

theorem exampleHeap_fresh : ∀ v, v < 3 → (exampleHeap v).mVisitedState = .Unvisited := by
  intro v hv
  interval_cases v <;> rfl

/-- When the renderer does not fail on a node, the `executeCommands` entries emitted for
the node are one per valid command surface. -/
theorem executeCommandsOf_emitted (renderer : RendererVk) (node : CommandBufferNode)
    (h : node.mInsideRenderPassCommands.valid = true →
      ∃ rp, renderer.getCompatibleRenderPass node.mRenderPassDesc = .ok rp) :
    executeCommandsOf (emitted renderer node) = surfaceEmissions node := by
  unfold emitted surfaceEmissions executeCommandsOf CommandBufferNode.visitAndExecute
  by_cases hin : node.mInsideRenderPassCommands.valid = true
  · obtain ⟨rp, hrp⟩ := h hin
    by_cases hout : node.mOutsideRenderPassCommands.valid = true
    · simp [hin, hout, hrp]
    · simp [hin, hout, hrp]
  · by_cases hout : node.mOutsideRenderPassCommands.valid = true
    · simp [hin, hout]
    · simp [hin, hout]

/-- When the renderer fails on no node of the list, the `executeCommands` entries emitted
for the list are one per valid command surface of each node. -/
theorem executeCommandsOf_emittedFor (renderer : RendererVk) (heap : Heap) :
    ∀ l : List NodeId,
      (∀ v ∈ l, (heap v).mInsideRenderPassCommands.valid = true →
        ∃ rp, renderer.getCompatibleRenderPass (heap v).mRenderPassDesc = .ok rp) →
      executeCommandsOf (emittedFor renderer heap l) = surfaceEmissionsFor heap l := by
  intro l
  induction l with
  | nil => intro _; rfl
  | cons a l ih =>
    intro h
    have ha := executeCommandsOf_emitted renderer (heap a) (h a (List.mem_cons_self _ _))
    have hl := ih (fun v hv => h v (List.mem_cons_of_mem _ hv))
    unfold executeCommandsOf at ha hl ⊢
    simp only [emittedFor, surfaceEmissionsFor, List.filter_append, ha, hl]

/-! ## Claims on the flush -/

/-- In a list without duplicates that splits at `x` and a later `y`, neither of them
occurs anywhere else. -/
theorem nodup_split_not_mem {α : Type} (pre mid post : List α) (x y : α)
    (hnd : (pre ++ x :: (mid ++ y :: post)).Nodup) :
    x ∉ pre ∧ x ∉ mid ∧ x ∉ post ∧ y ∉ pre ∧ y ∉ mid ∧ y ∉ post ∧ x ≠ y := by
  rw [List.nodup_append] at hnd
  obtain ⟨_, h2, h3⟩ := hnd
  rw [List.nodup_cons, List.nodup_append] at h2
  obtain ⟨hx, _, h5, h6⟩ := h2
  rw [List.nodup_cons] at h5
  simp only [List.mem_append, List.mem_cons, not_or] at hx
  refine ⟨?_, hx.1, hx.2.2, ?_, ?_, h5.1, hx.2.1⟩
  · intro h; exact h3 h (List.mem_cons_self _ _)
  · intro h
    exact h3 h (List.mem_cons_of_mem _ (List.mem_append_right _ (List.mem_cons_self _ _)))
  · intro h; exact h6 h (List.mem_cons_self _ _)

/-- In a list without duplicates that splits at `x` and a later `y`, every position of `x`
is smaller than every position of `y`. -/
theorem nodup_split_index {α : Type} (l pre mid post : List α) (x y : α) (hnd : l.Nodup)
    (heq : l = pre ++ x :: (mid ++ y :: post)) (i j : Nat)
    (hi : l[i]? = some x) (hj : l[j]? = some y) : i < j := by
  have hx : l[pre.length]? = some x := by
    rw [heq, List.getElem?_append_right (le_refl _)]; simp
  have hy : l[pre.length + 1 + mid.length]? = some y := by
    rw [heq, List.getElem?_append_right (by omega)]
    have : pre.length + 1 + mid.length - pre.length = (mid.length) + 1 := by omega
    rw [this, List.getElem?_cons_succ, List.getElem?_append_right (le_refl _)]
    simp
  have key : ∀ (a b : Nat) (z : α), l[a]? = some z → l[b]? = some z → a = b := by
    intro a b z ha hb
    have hal : a < l.length := by
      by_contra h; rw [List.getElem?_eq_none (by omega)] at ha; cases ha
    exact List.getElem?_inj hal hnd (ha.trans hb.symm)
  have h1 := key i _ x hi hx
  have h2 := key j _ y hj hy
  omega

/-- C1 (topological order). On every finite acyclic predecessor graph with unvisited nodes,
the flush loop seeded with the nodes of the graph ends (it finishes whenever the renderer
does not fail), and when it finishes then `visitAndExecute` ran at most once on each node
(the log of the runs has no duplicates), the primary command buffer is the concatenation
of the blocks of commands of the logged runs, in log order, and for every edge (`x` before
`y`) `visitAndExecute` ran on `x` strictly before it ran on `y`: every position of `x` in
the log is smaller than every position of `y`, and the one block of commands emitted for
`x` ends before the one block of commands emitted for `y` starts. -/
theorem flush_topological_order (renderer : RendererVk) (n : Nat) (heap : Heap)
    (seed : List NodeId) (hc : Closed n heap) (hac : Acyclic heap)
    (hfresh : ∀ v, v < n → (heap v).mVisitedState = .Unvisited)
    (hseed : ∀ v ∈ seed, v < n) (hall : ∀ v, v < n → v ∈ seed) :
    ((∀ d, ∃ rp, renderer.getCompatibleRenderPass d = .ok rp) →
      ∃ s, flush renderer n heap seed = .finished s) ∧
    flush renderer n heap seed ≠ .outOfFuel ∧
    ∀ s, flush renderer n heap seed = .finished s →
      s.executed.Nodup ∧
      s.primaryCommandBuffer = emittedFor renderer heap s.executed ∧
      ∀ y, y < n → ∀ x ∈ (heap y).mHappensBeforeDependencies,
        ExecutedBefore renderer heap s x y ∧
        ∀ i j : Nat, s.executed[i]? = some x → s.executed[j]? = some y → i < j := by
  have hspec := flush_spec renderer n heap seed hc hac hfresh hseed hall
  refine ⟨?_, ?_, ?_⟩
  · intro hok
    rcases hspec with ⟨e, s2, _, d, hd⟩ | ⟨s2, hs2, _⟩
    · obtain ⟨rp, hrp⟩ := hok d
      rw [hrp] at hd
      cases hd
    · exact ⟨s2, hs2⟩
  · rcases hspec with ⟨e, s2, hs2, _⟩ | ⟨s2, hs2, _⟩ <;> rw [hs2] <;> simp
  · intro s hs
    rcases hspec with ⟨e, s2, hs2, _⟩ | ⟨s2, hs2, inv, hempty⟩
    · rw [hs2] at hs; cases hs
    · rw [hs2] at hs
      have hs3 : s2 = s := FlushResult.finished.inj hs
      rw [hs3] at inv hempty
      refine ⟨inv.exec_nodup, inv.primary, ?_⟩
      intro y hy x hx
      have hyexec : y ∈ s.executed := by
        rcases inv.covered y hy with h | h
        · exact (inv.visited_iff y hy).1 h
        · rw [hempty] at h; simp at h
      obtain ⟨pre, mid, post, heq⟩ := inv.exec_order y hyexec x hx
      have hnd := inv.exec_nodup
      refine ⟨⟨pre, mid, post, heq, ?_, ?_⟩, ?_⟩
      · rw [heq] at hnd
        exact nodup_split_not_mem pre mid post x y hnd
      · rw [inv.primary, heq]
        simp only [emittedFor_append, emittedFor]
      · intro i j hi hj
        exact nodup_split_index s.executed pre mid post x y hnd heq i j hi hj

/-- C1, on the example graph: node 1 after node 0, node 2 after nodes 0 (twice) and 1. -/
theorem flush_topological_order_witness :
    (Closed 3 exampleHeap ∧ Acyclic exampleHeap ∧
      (∀ v, v < 3 → (exampleHeap v).mVisitedState = .Unvisited) ∧
      (∀ v ∈ [2, 0, 1], v < 3) ∧ (∀ v, v < 3 → v ∈ [2, 0, 1])) ∧
    (((∀ d, ∃ rp, exampleRenderer.getCompatibleRenderPass d = .ok rp) →
      ∃ s, flush exampleRenderer 3 exampleHeap [2, 0, 1] = .finished s) ∧
    flush exampleRenderer 3 exampleHeap [2, 0, 1] ≠ .outOfFuel ∧
    ∀ s, flush exampleRenderer 3 exampleHeap [2, 0, 1] = .finished s →
      s.executed.Nodup ∧
      s.primaryCommandBuffer = emittedFor exampleRenderer exampleHeap s.executed ∧
      ∀ y, y < 3 → ∀ x ∈ (exampleHeap y).mHappensBeforeDependencies,
        ExecutedBefore exampleRenderer exampleHeap s x y ∧
        ∀ i j : Nat, s.executed[i]? = some x → s.executed[j]? = some y → i < j) ∧
    (flush exampleRenderer 3 exampleHeap [2, 0, 1]).executedLog = some [0, 1, 2] :=
  ⟨⟨exampleHeap_closed, acyclic_of_decreasing exampleHeap exampleHeap_decreasing,
      exampleHeap_fresh, by decide, by intro v hv; interval_cases v <;> simp⟩,
    flush_topological_order exampleRenderer 3 exampleHeap [2, 0, 1] exampleHeap_closed
      (acyclic_of_decreasing exampleHeap exampleHeap_decreasing) exampleHeap_fresh
      (by decide) (by intro v hv; interval_cases v <;> simp),
    by decide⟩

/-- C2 (flush completeness). On every finite acyclic predecessor graph with unvisited
nodes, the flush loop seeded with the nodes of the graph finishes whenever the renderer
does not fail; after a finished flush every node is `Visited`, `visitAndExecute` has run
exactly once on each node, the primary command buffer is the concatenation of what each
run emitted, and its `executeCommands` entries are exactly one for each valid command
surface of each node. Predecessor lists may name a node several times. -/
theorem flush_completeness (renderer : RendererVk) (n : Nat) (heap : Heap)
    (seed : List NodeId) (hc : Closed n heap) (hac : Acyclic heap)
    (hfresh : ∀ v, v < n → (heap v).mVisitedState = .Unvisited)
    (hseed : ∀ v ∈ seed, v < n) (hall : ∀ v, v < n → v ∈ seed) :
    ((∀ d, ∃ rp, renderer.getCompatibleRenderPass d = .ok rp) →
      ∃ s, flush renderer n heap seed = .finished s) ∧
    ∀ s, flush renderer n heap seed = .finished s →
      (∀ v, v < n → (s.heap v).visitedState = .Visited) ∧
      s.executed.Perm (List.range n) ∧
      s.primaryCommandBuffer = emittedFor renderer heap s.executed ∧
      executeCommandsOf s.primaryCommandBuffer = surfaceEmissionsFor heap s.executed ∧
      ∀ v, v < n →
        executeCommandsOf (emitted renderer (heap v)) = surfaceEmissions (heap v) := by
  have hspec := flush_spec renderer n heap seed hc hac hfresh hseed hall
  refine ⟨?_, ?_⟩
  · intro hok
    rcases hspec with ⟨e, s2, _, d, hd⟩ | ⟨s2, hs2, _⟩
    · obtain ⟨rp, hrp⟩ := hok d
      rw [hrp] at hd
      cases hd
    · exact ⟨s2, hs2⟩
  · intro s hs
    rcases hspec with ⟨e, s2, hs2, _⟩ | ⟨s2, hs2, inv, hempty⟩
    · rw [hs2] at hs; cases hs
    · rw [hs2] at hs
      have hs3 : s2 = s := FlushResult.finished.inj hs
      rw [hs3] at inv hempty
      have hvis : ∀ v, v < n → (s.heap v).mVisitedState = .Visited := by
        intro v hv
        rcases inv.covered v hv with h | h
        · exact h
        · rw [hempty] at h; simp at h
      refine ⟨hvis, ?_, inv.primary, ?_, ?_⟩
      rotate_left
      · rw [inv.primary]
        exact executeCommandsOf_emittedFor renderer heap s.executed inv.noerr
      · intro v hv
        apply executeCommandsOf_emitted
        exact inv.noerr v ((inv.visited_iff v hv).1 (hvis v hv))
      · apply (List.perm_ext_iff_of_nodup inv.exec_nodup (List.nodup_range n)).2
        intro v
        rw [List.mem_range]
        exact ⟨inv.exec_lt v, fun hv => (inv.visited_iff v hv).1 (hvis v hv)⟩

/-- C2, on the example graph, whose node 2 names node 0 twice. -/
theorem flush_completeness_witness :
    (Closed 3 exampleHeap ∧ Acyclic exampleHeap ∧
      (∀ v, v < 3 → (exampleHeap v).mVisitedState = .Unvisited) ∧
      (∀ v ∈ [0, 1, 2], v < 3) ∧ (∀ v, v < 3 → v ∈ [0, 1, 2])) ∧
    (((∀ d, ∃ rp, exampleRenderer.getCompatibleRenderPass d = .ok rp) →
      ∃ s, flush exampleRenderer 3 exampleHeap [0, 1, 2] = .finished s) ∧
    ∀ s, flush exampleRenderer 3 exampleHeap [0, 1, 2] = .finished s →
      (∀ v, v < 3 → (s.heap v).visitedState = .Visited) ∧
      s.executed.Perm (List.range 3) ∧
      s.primaryCommandBuffer = emittedFor exampleRenderer exampleHeap s.executed ∧
      executeCommandsOf s.primaryCommandBuffer = surfaceEmissionsFor exampleHeap s.executed ∧
      ∀ v, v < 3 →
        executeCommandsOf (emitted exampleRenderer (exampleHeap v))
          = surfaceEmissions (exampleHeap v)) ∧
    (flush exampleRenderer 3 exampleHeap [0, 1, 2]).executedLog = some [0, 1, 2] :=
  ⟨⟨exampleHeap_closed, acyclic_of_decreasing exampleHeap exampleHeap_decreasing,
      exampleHeap_fresh, by decide, by intro v hv; interval_cases v <;> simp⟩,
    flush_completeness exampleRenderer 3 exampleHeap [0, 1, 2] exampleHeap_closed
      (acyclic_of_decreasing exampleHeap exampleHeap_decreasing) exampleHeap_fresh
      (by decide) (by intro v hv; interval_cases v <;> simp),
    by decide⟩

/-! ## Adding dependencies -/

/-- Predecessor lists after `SetHappensBeforeDependency`. -/
theorem SetHappensBeforeDependency_deps (n : Nat) (heap : Heap) (b a v : NodeId) :
    ((SetHappensBeforeDependency n heap b a).value v).mHappensBeforeDependencies
      = if v = a then (heap a).mHappensBeforeDependencies ++ [b]
        else (heap v).mHappensBeforeDependencies := by
  unfold SetHappensBeforeDependency CommandBufferNode.finishRecording
    CommandBufferNode.setHasHappensAfterDependencies
  simp only [Function.update_apply]
  split_ifs <;> simp_all

/-- Edges after `SetHappensBeforeDependency`: the old ones and the new one. -/
theorem SetHappensBeforeDependency_edge (n : Nat) (heap : Heap) (b a c y : NodeId) :
    Edge (SetHappensBeforeDependency n heap b a).value c y ↔ Edge heap c y ∨ (c = a ∧ y = b) := by
  unfold Edge
  rw [SetHappensBeforeDependency_deps]
  split_ifs with h
  · subst h; simp
  · simp [h]

theorem SetHappensBeforeDependency_closed (n : Nat) (heap : Heap) (b a : NodeId)
    (hc : Closed n heap) (hb : b < n) : Closed n (SetHappensBeforeDependency n heap b a).value := by
  intro v hv p hp
  rcases (SetHappensBeforeDependency_edge n heap b a v p).1 hp with h | ⟨_, h⟩
  · exact hc v hv p h
  · rw [h]; exact hb

/-- A path in a relation extended by the edge `a → b` is a path of the old relation, or
passes through the new edge. -/
theorem transGen_add_edge {r r2 : NodeId → NodeId → Prop} {a b : NodeId}
    (hnew : ∀ c y, r2 c y → r c y ∨ (c = a ∧ y = b)) (hmono : ∀ c y, r c y → r2 c y)
    {x y : NodeId} (h : Relation.TransGen r2 x y) :
    Relation.TransGen r x y ∨ (Relation.ReflTransGen r2 x a ∧ Relation.ReflTransGen r2 b y) := by
  induction h with
  | single e =>
    rcases hnew _ _ e with h | ⟨h1, h2⟩
    · exact Or.inl (Relation.TransGen.single h)
    · right; rw [h1, h2]; exact ⟨Relation.ReflTransGen.refl, Relation.ReflTransGen.refl⟩
  | tail hxc e ih =>
    rcases ih with ih | ⟨ih1, ih2⟩
    · rcases hnew _ _ e with h | ⟨h1, h2⟩
      · exact Or.inl (Relation.TransGen.tail ih h)
      · right
        rw [h2]
        refine ⟨?_, Relation.ReflTransGen.refl⟩
        rw [← h1]
        exact (Relation.TransGen.mono hmono ih).to_reflTransGen
    · exact Or.inr ⟨ih1, Relation.ReflTransGen.tail ih2 e⟩

/-- What the assertion of `SetHappensBeforeDependency` says when it holds. -/
theorem dependencyAssertion_true (n : Nat) (heap : Heap) (b a : NodeId)
    (h : dependencyAssertion n heap b a = true) :
    b ≠ a ∧ happensAfter n heap b a = some false := by
  unfold dependencyAssertion at h
  split_ifs at h with hba
  refine ⟨hba, ?_⟩
  cases hr : happensAfter n heap b a with
  | none => rw [hr] at h; simp at h
  | some r => rw [hr] at h; cases r <;> simp_all

/-- One asserted call of `SetHappensBeforeDependency` keeps the graph acyclic. -/
theorem SetHappensBeforeDependency_acyclic (n : Nat) (heap : Heap) (b a : NodeId)
    (hc : Closed n heap) (hac : Acyclic heap) (hb : b < n)
    (hheld : (SetHappensBeforeDependency n heap b a).assertionHeld = true) :
    Acyclic (SetHappensBeforeDependency n heap b a).value := by
  have hc2 := SetHappensBeforeDependency_closed n heap b a hc hb
  obtain ⟨hne, hfalse⟩ := dependencyAssertion_true n _ b a hheld
  have hnot : ¬ Reaches (SetHappensBeforeDependency n heap b a).value b a := by
    rcases happensAfter_spec n _ hc2 b a hb with ⟨h, _⟩ | ⟨_, h⟩
    · have h2 : happensAfter n (SetHappensBeforeDependency n heap b a).value b a
          = some false := hfalse
      rw [h2] at h
      simp at h
    · exact h
  intro v hv
  have hsplit := transGen_add_edge
    (fun c y e => (SetHappensBeforeDependency_edge n heap b a c y).1 e)
    (fun c y e => (SetHappensBeforeDependency_edge n heap b a c y).2 (Or.inl e)) hv
  rcases hsplit with h | ⟨h1, h2⟩
  · exact hac v h
  · rcases Relation.reflTransGen_iff_eq_or_transGen.1 (h2.trans h1) with h | h
    · exact hne h.symm
    · exact hnot h

/-- A run of asserted calls keeps a closed acyclic graph acyclic. -/
theorem setDependencies_acyclic (n : Nat) :
    ∀ (calls : List (NodeId × NodeId)) (heap : Heap), Closed n heap → Acyclic heap →
      (∀ c ∈ calls, c.1 < n ∧ c.2 < n) →
      (setDependencies n heap calls).assertionHeld = true →
      Acyclic (setDependencies n heap calls).value := by
  intro calls
  induction calls with
  | nil => intro heap _ hac _ _; exact hac
  | cons c rest ih =>
    intro heap hc hac hcalls hheld
    obtain ⟨b, a⟩ := c
    have hb : b < n := (hcalls (b, a) (List.mem_cons_self _ _)).1
    simp only [setDependencies, Bool.and_eq_true] at hheld ⊢
    apply ih _ (SetHappensBeforeDependency_closed n heap b a hc hb)
      (SetHappensBeforeDependency_acyclic n heap b a hc hac hb hheld.1)
      (fun c hcm => hcalls c (List.mem_cons_of_mem _ hcm)) hheld.2

/-- C3 (acyclicity). Starting from nodes without edges, after every run of
`SetHappensBeforeDependency(before, after)` calls in each of which the assertion held, the
predecessor graph has no cycle; and on every closed graph a call with `before == after`,
or with `after` already reachable from `before`, violates the assertion. -/
theorem asserted_dependencies_acyclic (n : Nat) (heap : Heap)
    (calls : List (NodeId × NodeId))
    (hempty : ∀ v, (heap v).mHappensBeforeDependencies = [])
    (hcalls : ∀ c ∈ calls, c.1 < n ∧ c.2 < n) :
    ((setDependencies n heap calls).assertionHeld = true →
      Acyclic (setDependencies n heap calls).value) ∧
    (∀ (heap2 : Heap) (b a : NodeId), Closed n heap2 → b < n →
      (b = a ∨ Reaches heap2 b a) →
      (SetHappensBeforeDependency n heap2 b a).assertionHeld = false) := by
  constructor
  · apply setDependencies_acyclic n calls heap
    · intro v _ p hp
      rw [hempty v] at hp
      simp at hp
    · apply acyclic_of_decreasing
      intro v p hp
      rw [hempty v] at hp
      simp at hp
    · exact hcalls
  · intro heap2 b a hc hb hreach
    show dependencyAssertion n (SetHappensBeforeDependency n heap2 b a).value b a = false
    unfold dependencyAssertion
    split_ifs with hba
    · rfl
    · have hr : Reaches (SetHappensBeforeDependency n heap2 b a).value b a := by
        rcases hreach with h | h
        · exact absurd h hba
        · exact Relation.TransGen.mono
            (fun c y e => (SetHappensBeforeDependency_edge n heap2 b a c y).2 (Or.inl e)) h
      rcases happensAfter_spec n _ (SetHappensBeforeDependency_closed n heap2 b a hc hb) b a hb
        with ⟨h, _⟩ | ⟨_, h⟩
      · rw [h]; rfl
      · exact absurd hr h

/-- C3, on three fresh nodes and the calls (0 before 1), (1 before 2), (0 before 2). -/
theorem asserted_dependencies_acyclic_witness :
    ((∀ v, (freshHeap v).mHappensBeforeDependencies = []) ∧
      (∀ c ∈ [((0 : NodeId), (1 : NodeId)), (1, 2), (0, 2)], c.1 < 3 ∧ c.2 < 3)) ∧
    (((setDependencies 3 freshHeap [(0, 1), (1, 2), (0, 2)]).assertionHeld = true →
      Acyclic (setDependencies 3 freshHeap [(0, 1), (1, 2), (0, 2)]).value) ∧
    (∀ (heap2 : Heap) (b a : NodeId), Closed 3 heap2 → b < 3 →
      (b = a ∨ Reaches heap2 b a) →
      (SetHappensBeforeDependency 3 heap2 b a).assertionHeld = false)) ∧
    (setDependencies 3 freshHeap [(0, 1), (1, 2), (0, 2)]).assertionHeld = true ∧
    (setDependencies 3 freshHeap [(0, 1), (1, 2), (2, 0)]).assertionHeld = false :=
  ⟨⟨fun _ => rfl, by decide⟩,
    asserted_dependencies_acyclic 3 freshHeap [(0, 1), (1, 2), (0, 2)] (fun _ => rfl)
      (by decide),
    by decide, by decide⟩

/-! ## Sealing -/

/-- The node named as predecessor is sealed by `SetHappensBeforeDependency`. -/
theorem SetHappensBeforeDependency_seals (n : Nat) (heap : Heap) (b a : NodeId) :
    ((SetHappensBeforeDependency n heap b a).value b).mIsFinishedRecording = true := by
  simp [SetHappensBeforeDependency, CommandBufferNode.finishRecording]

/-- The loop of `SetHappensBeforeDependencies` keeps sealed nodes sealed and seals the
nodes it runs over. -/
theorem setHappensBeforeLoop_seals (n : Nat) (a : NodeId) :
    ∀ (bs : List NodeId) (acc : Asserted Heap) (x : NodeId),
      ((acc.value x).mIsFinishedRecording = true ∨ x ∈ bs) →
      ((setHappensBeforeLoop n a bs acc).value x).mIsFinishedRecording = true := by
  intro bs
  induction bs with
  | nil =>
    intro acc x h
    rcases h with h | h
    · exact h
    · simp at h
  | cons b rest ih =>
    intro acc x h
    simp only [setHappensBeforeLoop]
    apply ih
    by_cases hxb : x = b
    · left
      subst hxb
      simp [CommandBufferNode.finishRecording]
    · rcases h with h | h
      · left
        simp only [Function.update_noteq hxb]
        exact h
      · right
        rcases List.mem_cons.1 h with h | h
        · exact absurd h hxb
        · exact h

/-- Every node of the list is sealed by `SetHappensBeforeDependencies`. -/
theorem SetHappensBeforeDependencies_seals (n : Nat) (heap : Heap) (bs : List NodeId)
    (a x : NodeId) (hx : x ∈ bs) :
    ((SetHappensBeforeDependencies n heap bs a).value x).mIsFinishedRecording = true := by
  unfold SetHappensBeforeDependencies
  exact setHappensBeforeLoop_seals n a bs _ x (Or.inr hx)

/-- The four recording entry points violate their assertion on a sealed node. -/
theorem sealed_recording_fails (node : CommandBufferNode)
    (h : node.mIsFinishedRecording = true) :
    node.getOutsideRenderPassCommands.assertionHeld = false ∧
    node.getInsideRenderPassCommands.assertionHeld = false ∧
    (∀ (driver : VkDriver) (device commandPool : Nat),
      (node.startRecording driver device commandPool).assertionHeld = false) ∧
    (∀ (driver : VkDriver) (renderer : RendererVk),
      (node.startRenderPassRecording driver renderer).assertionHeld = false) := by
  refine ⟨by simp [CommandBufferNode.getOutsideRenderPassCommands, h],
    by simp [CommandBufferNode.getInsideRenderPassCommands, h], ?_, ?_⟩
  · intro driver device commandPool
    unfold CommandBufferNode.startRecording
    simp only []
    split <;> simp [h]
  · intro driver renderer
    unfold CommandBufferNode.startRenderPassRecording
    split
    · simp [h]
    · simp only []
      split <;> simp [h]

/-- C4 (seal on dependency). After `SetHappensBeforeDependency(before, after)` the node
`before` is sealed, and after `SetHappensBeforeDependencies(beforeNodes, after)` every node
of the list is sealed. -/
theorem dependency_seals_predecessor (n : Nat) (heap : Heap) (beforeNode afterNode : NodeId)
    (beforeNodes : List NodeId) :
    ((SetHappensBeforeDependency n heap beforeNode afterNode).value
      beforeNode).isFinishedRecording = true ∧
    ∀ x ∈ beforeNodes,
      ((SetHappensBeforeDependencies n heap beforeNodes afterNode).value
        x).isFinishedRecording = true :=
  ⟨SetHappensBeforeDependency_seals n heap beforeNode afterNode,
    fun x hx => SetHappensBeforeDependencies_seals n heap beforeNodes afterNode x hx⟩

/-- C5 (no recording into a sealed node). On a node that was named as a predecessor
(alone or in a list) or sealed with `finishRecording`, and on every sealed node,
`getOutsideRenderPassCommands`, `getInsideRenderPassCommands`, `startRecording` and
`startRenderPassRecording` violate their assertion; on an unsealed node the two getters
hold their assertion and return the outside- and the inside-render-pass surface. -/
theorem recording_into_sealed_node_fails (node : CommandBufferNode) :
    (node.isFinishedRecording = true →
      node.getOutsideRenderPassCommands.assertionHeld = false ∧
      node.getInsideRenderPassCommands.assertionHeld = false ∧
      (∀ (driver : VkDriver) (device commandPool : Nat),
        (node.startRecording driver device commandPool).assertionHeld = false) ∧
      (∀ (driver : VkDriver) (renderer : RendererVk),
        (node.startRenderPassRecording driver renderer).assertionHeld = false)) ∧
    (∀ (n : Nat) (heap : Heap) (b a : NodeId),
      (((SetHappensBeforeDependency n heap b a).value b).getOutsideRenderPassCommands).assertionHeld
        = false ∧
      (((SetHappensBeforeDependency n heap b a).value b).getInsideRenderPassCommands).assertionHeld
        = false ∧
      (∀ (driver : VkDriver) (device commandPool : Nat),
        (((SetHappensBeforeDependency n heap b a).value b).startRecording driver device
          commandPool).assertionHeld = false) ∧
      (∀ (driver : VkDriver) (renderer : RendererVk),
        (((SetHappensBeforeDependency n heap b a).value b).startRenderPassRecording driver
          renderer).assertionHeld = false)) ∧
    (∀ (n : Nat) (heap : Heap) (bs : List NodeId) (a x : NodeId), x ∈ bs →
      (((SetHappensBeforeDependencies n heap bs a).value x).getOutsideRenderPassCommands).assertionHeld
        = false ∧
      (((SetHappensBeforeDependencies n heap bs a).value x).getInsideRenderPassCommands).assertionHeld
        = false ∧
      (∀ (driver : VkDriver) (device commandPool : Nat),
        (((SetHappensBeforeDependencies n heap bs a).value x).startRecording driver device
          commandPool).assertionHeld = false) ∧
      (∀ (driver : VkDriver) (renderer : RendererVk),
        (((SetHappensBeforeDependencies n heap bs a).value x).startRenderPassRecording driver
          renderer).assertionHeld = false)) ∧
    (node.finishRecording.getOutsideRenderPassCommands.assertionHeld = false ∧
      node.finishRecording.getInsideRenderPassCommands.assertionHeld = false ∧
      (∀ (driver : VkDriver) (device commandPool : Nat),
        (node.finishRecording.startRecording driver device commandPool).assertionHeld = false) ∧
      (∀ (driver : VkDriver) (renderer : RendererVk),
        (node.finishRecording.startRenderPassRecording driver renderer).assertionHeld
          = false)) ∧
    (node.isFinishedRecording = false →
      node.getOutsideRenderPassCommands.assertionHeld = true ∧
      node.surface node.getOutsideRenderPassCommands.value = node.mOutsideRenderPassCommands ∧
      node.getInsideRenderPassCommands.assertionHeld = true ∧
      node.surface node.getInsideRenderPassCommands.value = node.mInsideRenderPassCommands) := by
  refine ⟨sealed_recording_fails node, ?_, ?_, ?_, ?_⟩
  · intro n heap b a
    exact sealed_recording_fails _ (SetHappensBeforeDependency_seals n heap b a)
  · intro n heap bs a x hx
    exact sealed_recording_fails _ (SetHappensBeforeDependencies_seals n heap bs a x hx)
  · exact sealed_recording_fails _ rfl
  · intro h
    simp only [CommandBufferNode.isFinishedRecording] at h
    simp [CommandBufferNode.getOutsideRenderPassCommands,
      CommandBufferNode.getInsideRenderPassCommands, CommandBufferNode.surface, h]

/-- C5, on a fresh node sealed with `finishRecording`. -/
theorem recording_into_sealed_node_fails_witness :
    freshNode.finishRecording.isFinishedRecording = true ∧
    (freshNode.finishRecording.getOutsideRenderPassCommands.assertionHeld = false ∧
      freshNode.finishRecording.getInsideRenderPassCommands.assertionHeld = false ∧
      (∀ (driver : VkDriver) (device commandPool : Nat),
        (freshNode.finishRecording.startRecording driver device commandPool).assertionHeld
          = false) ∧
      (∀ (driver : VkDriver) (renderer : RendererVk),
        (freshNode.finishRecording.startRenderPassRecording driver renderer).assertionHeld
          = false)) ∧
    freshNode.isFinishedRecording = false ∧
    (freshNode.getOutsideRenderPassCommands.assertionHeld = true ∧
      freshNode.surface freshNode.getOutsideRenderPassCommands.value
        = freshNode.mOutsideRenderPassCommands ∧
      freshNode.getInsideRenderPassCommands.assertionHeld = true ∧
      freshNode.surface freshNode.getInsideRenderPassCommands.value
        = freshNode.mInsideRenderPassCommands) :=
  ⟨rfl, (recording_into_sealed_node_fails freshNode.finishRecording).1 rfl,
    rfl, (recording_into_sealed_node_fails freshNode).2.2.2.2 rfl⟩

/-! ## Render-pass metadata -/

theorem stdCopy_length {α : Type} (src dst stored : List α) (h : stdCopy src dst = some stored) :
    stored.length = dst.length := by
  unfold stdCopy at h
  split_ifs at h with hle
  simp only [Option.some.injEq] at h
  rw [← h]
  simp only [List.length_append, List.length_drop]
  omega

/-- What `storeRenderPassInfo` does whenever the clear values fit in the node's array. -/
theorem storeRenderPassInfo_fits (node : CommandBufferNode) (framebuffer : Framebuffer)
    (renderArea : Rectangle) (clearValues : List VkClearValue)
    (hfit : clearValues.length ≤ node.mRenderPassClearValues.length) :
    node.storeRenderPassInfo framebuffer renderArea clearValues =
      some { node with
        mRenderPassFramebuffer := { mHandle := framebuffer.mHandle }
        mRenderPassRenderArea := renderArea
        mRenderPassClearValues :=
          clearValues ++ node.mRenderPassClearValues.drop clearValues.length } := by
  simp [CommandBufferNode.storeRenderPassInfo, stdCopy, hfit]

/-- C6, as stated, fails: on the sealed node 0 of `SetHappensBeforeDependency(0, 1)` the
two append operations change the render-pass description, and `storeRenderPassInfo`
returns a node with another framebuffer, render area and clear values. -/
theorem sealed_node_metadata_counterexample :
    sealedNode.isFinishedRecording = true ∧
    (sealedNode.appendColorRenderTarget logWrite 0 [] 1
        { format := 37, samples := 1, resource := 0 }).1.mRenderPassDesc
      ≠ sealedNode.mRenderPassDesc ∧
    (sealedNode.appendDepthStencilRenderTarget logWrite 0 [] 1
        { format := 126, samples := 1, resource := 0 }).1.mRenderPassDesc
      ≠ sealedNode.mRenderPassDesc ∧
    ∃ node2,
      sealedNode.storeRenderPassInfo { mHandle := 5 } { x := 0, y := 0, width := 4, height := 4 }
        [{ raw := 7 }] = some node2 ∧
      node2.mRenderPassFramebuffer ≠ sealedNode.mRenderPassFramebuffer ∧
      node2.mRenderPassRenderArea ≠ sealedNode.mRenderPassRenderArea ∧
      node2.mRenderPassClearValues ≠ sealedNode.mRenderPassClearValues := by
  refine ⟨by decide, by decide, by decide, _, rfl, by decide, by decide, by decide⟩

/-- C6, amended. On a sealed node the attachment and metadata operations are not
rejected. `appendColorRenderTarget` and `appendDepthStencilRenderTarget` extend the
render-pass description by one attachment and leave the framebuffer, the render area and
the clear values unchanged; `storeRenderPassInfo`, when the clear values fit in the
array, overwrites the framebuffer handle, the render area and the leading clear values
and leaves the description unchanged. The node stays sealed. -/
theorem sealed_node_metadata_not_rejected {W : Type} (hook : Nat → NodeId → Nat → W → W)
    (self : NodeId) (node : CommandBufferNode) (world : W) (serial : Nat)
    (rt : RenderTargetVk) (framebuffer : Framebuffer) (renderArea : Rectangle)
    (clearValues : List VkClearValue)
    (hsealed : node.isFinishedRecording = true)
    (hfit : clearValues.length ≤ node.mRenderPassClearValues.length) :
    ((node.appendColorRenderTarget hook self world serial rt).1.mRenderPassDesc.attachments
        = node.mRenderPassDesc.attachments
          ++ [{ kind := .color, format := rt.format, samples := rt.samples }] ∧
      (node.appendColorRenderTarget hook self world serial rt).1.mRenderPassFramebuffer
        = node.mRenderPassFramebuffer ∧
      (node.appendColorRenderTarget hook self world serial rt).1.mRenderPassRenderArea
        = node.mRenderPassRenderArea ∧
      (node.appendColorRenderTarget hook self world serial rt).1.mRenderPassClearValues
        = node.mRenderPassClearValues ∧
      (node.appendColorRenderTarget hook self world serial rt).1.isFinishedRecording = true) ∧
    ((node.appendDepthStencilRenderTarget hook self world serial
          rt).1.mRenderPassDesc.attachments
        = node.mRenderPassDesc.attachments
          ++ [{ kind := .depthStencil, format := rt.format, samples := rt.samples }] ∧
      (node.appendDepthStencilRenderTarget hook self world serial rt).1.mRenderPassFramebuffer
        = node.mRenderPassFramebuffer ∧
      (node.appendDepthStencilRenderTarget hook self world serial rt).1.mRenderPassRenderArea
        = node.mRenderPassRenderArea ∧
      (node.appendDepthStencilRenderTarget hook self world serial rt).1.mRenderPassClearValues
        = node.mRenderPassClearValues ∧
      (node.appendDepthStencilRenderTarget hook self world serial rt).1.isFinishedRecording
        = true) ∧
    ∃ node2, node.storeRenderPassInfo framebuffer renderArea clearValues = some node2 ∧
      node2.mRenderPassFramebuffer.mHandle = framebuffer.mHandle ∧
      node2.mRenderPassRenderArea = renderArea ∧
      node2.mRenderPassClearValues
        = clearValues ++ node.mRenderPassClearValues.drop clearValues.length ∧
      node2.mRenderPassDesc = node.mRenderPassDesc ∧
      node2.isFinishedRecording = true := by
  refine ⟨⟨rfl, rfl, rfl, rfl, hsealed⟩, ⟨rfl, rfl, rfl, rfl, hsealed⟩, _,
    storeRenderPassInfo_fits node framebuffer renderArea clearValues hfit,
    rfl, rfl, rfl, rfl, hsealed⟩

/-- C6 amended, on the sealed node 0 of `SetHappensBeforeDependency(0, 1)`. -/
theorem sealed_node_metadata_not_rejected_witness :
    (sealedNode.isFinishedRecording = true ∧
      [({ raw := 7 } : VkClearValue)].length ≤ sealedNode.mRenderPassClearValues.length) ∧
    ∃ node2,
      sealedNode.storeRenderPassInfo { mHandle := 5 } { x := 0, y := 0, width := 4, height := 4 }
        [{ raw := 7 }] = some node2 ∧
      node2.mRenderPassFramebuffer.mHandle = 5 ∧
      node2.mRenderPassRenderArea = { x := 0, y := 0, width := 4, height := 4 } ∧
      node2.mRenderPassClearValues
        = [{ raw := 7 }] ++ sealedNode.mRenderPassClearValues.drop 1 ∧
      node2.mRenderPassDesc = sealedNode.mRenderPassDesc ∧
      node2.isFinishedRecording = true :=
  ⟨⟨by decide, by decide⟩,
    (sealed_node_metadata_not_rejected logWrite 0 sealedNode [] 1
      { format := 37, samples := 1, resource := 0 } { mHandle := 5 }
      { x := 0, y := 0, width := 4, height := 4 } [{ raw := 7 }] (by decide) (by decide)).2.2⟩

/-- C7, as stated, fails: on a fresh node, whose description has no attachment, a call
with one clear value returns a node with the new framebuffer handle, render area and
clear value. -/
theorem storeRenderPassInfo_mismatch_counterexample :
    [({ raw := 7 } : VkClearValue)].length ≠ freshNode.mRenderPassDesc.attachmentCount ∧
    ∃ node2,
      freshNode.storeRenderPassInfo { mHandle := 5 } { x := 1, y := 2, width := 3, height := 4 }
        [{ raw := 7 }] = some node2 ∧
      node2.mRenderPassFramebuffer ≠ freshNode.mRenderPassFramebuffer ∧
      node2.mRenderPassRenderArea ≠ freshNode.mRenderPassRenderArea ∧
      node2.mRenderPassClearValues ≠ freshNode.mRenderPassClearValues := by
  refine ⟨by decide, _, rfl, by decide, by decide, by decide⟩

/-- C7, amended. `storeRenderPassInfo` does not compare the number of clear values with
the attachment count of the description. For every node and every clear-value vector, of
whatever length, that fits in the node's clear-value array, the call succeeds: the
framebuffer handle and the render area are those of the call and the leading stored
clear values are overwritten by the vector. Only a copy past the end of the array is
undefined. -/
theorem storeRenderPassInfo_ignores_attachmentCount (node : CommandBufferNode)
    (framebuffer : Framebuffer) (renderArea : Rectangle) (clearValues : List VkClearValue) :
    ((node.storeRenderPassInfo framebuffer renderArea clearValues).isSome = true ↔
      clearValues.length ≤ node.mRenderPassClearValues.length) ∧
    (clearValues.length ≤ node.mRenderPassClearValues.length →
      ∃ node2, node.storeRenderPassInfo framebuffer renderArea clearValues = some node2 ∧
        node2.mRenderPassFramebuffer.mHandle = framebuffer.mHandle ∧
        node2.mRenderPassRenderArea = renderArea ∧
        node2.mRenderPassClearValues
          = clearValues ++ node.mRenderPassClearValues.drop clearValues.length ∧
        node2.mRenderPassDesc = node.mRenderPassDesc) := by
  constructor
  · unfold CommandBufferNode.storeRenderPassInfo stdCopy
    split_ifs with h <;> simp [h]
  · intro hfit
    exact ⟨_, storeRenderPassInfo_fits node framebuffer renderArea clearValues hfit,
      rfl, rfl, rfl, rfl⟩

/-- C7 amended, on a fresh node and one clear value against zero attachments. -/
theorem storeRenderPassInfo_ignores_attachmentCount_witness :
    [({ raw := 7 } : VkClearValue)].length ≤ freshNode.mRenderPassClearValues.length ∧
    ∃ node2,
      freshNode.storeRenderPassInfo { mHandle := 5 } { x := 1, y := 2, width := 3, height := 4 }
        [{ raw := 7 }] = some node2 ∧
      node2.mRenderPassFramebuffer.mHandle = 5 ∧
      node2.mRenderPassRenderArea = { x := 1, y := 2, width := 3, height := 4 } ∧
      node2.mRenderPassClearValues = [{ raw := 7 }] ++ freshNode.mRenderPassClearValues.drop 1 ∧
      node2.mRenderPassDesc = freshNode.mRenderPassDesc :=
  ⟨by decide,
    (storeRenderPassInfo_ignores_attachmentCount freshNode { mHandle := 5 }
      { x := 1, y := 2, width := 3, height := 4 } [{ raw := 7 }]).2 (by decide)⟩

/-- C8, as stated, fails: after a first successful `storeRenderPassInfo` a second call
succeeds too, and the framebuffer, render area and clear value of the first call are no
longer bound. -/
theorem storeRenderPassInfo_second_call_counterexample :
    ∃ node1 node2,
      attachedNode.storeRenderPassInfo
        { mHandle := 5 } { x := 0, y := 0, width := 4, height := 4 } [{ raw := 7 }]
        = some node1 ∧
      node1.storeRenderPassInfo { mHandle := 6 } { x := 1, y := 1, width := 2, height := 2 }
        [{ raw := 9 }] = some node2 ∧
      node2.mRenderPassFramebuffer ≠ node1.mRenderPassFramebuffer ∧
      node2.mRenderPassRenderArea ≠ node1.mRenderPassRenderArea ∧
      node2.mRenderPassClearValues ≠ node1.mRenderPassClearValues := by
  refine ⟨_, _, rfl, rfl, by decide, by decide, by decide⟩

/-- C8, amended. `storeRenderPassInfo` is not one-shot. On a node on which it has already
succeeded, a second call whose clear values fit in the array succeeds as well;
afterwards the framebuffer handle and the render area of the second call are bound, and
the stored clear values are those of the second call followed by what the first call
left behind them. -/
theorem storeRenderPassInfo_rebinds (node node1 : CommandBufferNode)
    (framebuffer1 framebuffer2 : Framebuffer) (renderArea1 renderArea2 : Rectangle)
    (clearValues1 clearValues2 : List VkClearValue)
    (hfirst : node.storeRenderPassInfo framebuffer1 renderArea1 clearValues1 = some node1)
    (hfit : clearValues2.length ≤ node.mRenderPassClearValues.length) :
    ∃ node2, node1.storeRenderPassInfo framebuffer2 renderArea2 clearValues2 = some node2 ∧
      node2.mRenderPassFramebuffer.mHandle = framebuffer2.mHandle ∧
      node2.mRenderPassRenderArea = renderArea2 ∧
      node2.mRenderPassClearValues
        = clearValues2 ++
          (clearValues1 ++ node.mRenderPassClearValues.drop clearValues1.length).drop
            clearValues2.length := by
  have hfit1 : clearValues1.length ≤ node.mRenderPassClearValues.length := by
    by_contra hnot
    simp [CommandBufferNode.storeRenderPassInfo, stdCopy, hnot] at hfirst
  rw [storeRenderPassInfo_fits node framebuffer1 renderArea1 clearValues1 hfit1] at hfirst
  simp only [Option.some.injEq] at hfirst
  subst hfirst
  refine ⟨_, storeRenderPassInfo_fits _ framebuffer2 renderArea2 clearValues2 ?_, rfl, rfl, rfl⟩
  simp only [List.length_append, List.length_drop]
  omega

/-- C8 amended, on a fresh node with one colour attachment. -/
theorem storeRenderPassInfo_rebinds_witness :
    (attachedNode.storeRenderPassInfo { mHandle := 5 }
        { x := 0, y := 0, width := 4, height := 4 } [{ raw := 7 }] = some boundNode ∧
      [({ raw := 9 } : VkClearValue), { raw := 8 }].length
        ≤ attachedNode.mRenderPassClearValues.length) ∧
    ∃ node2,
      boundNode.storeRenderPassInfo { mHandle := 6 }
        { x := 1, y := 1, width := 2, height := 2 } [{ raw := 9 }, { raw := 8 }] = some node2 ∧
      node2.mRenderPassFramebuffer.mHandle = 6 ∧
      node2.mRenderPassRenderArea = { x := 1, y := 1, width := 2, height := 2 } ∧
      node2.mRenderPassClearValues
        = [({ raw := 9 } : VkClearValue), { raw := 8 }] ++
          ([({ raw := 7 } : VkClearValue)] ++ attachedNode.mRenderPassClearValues.drop 1).drop 2 :=
  ⟨⟨rfl, by decide⟩,
    storeRenderPassInfo_rebinds attachedNode boundNode { mHandle := 5 } { mHandle := 6 }
      { x := 0, y := 0, width := 4, height := 4 } { x := 1, y := 1, width := 2, height := 2 }
      [{ raw := 7 }] [{ raw := 9 }, { raw := 8 }] rfl (by decide)⟩

/-! ## Reachability -/

theorem cyclicHeap_closed : Closed 3 cyclicHeap := by
  intro v hv p hp
  interval_cases v <;> simp [cyclicHeap, exampleNode] at hp <;> subst hp <;> decide

/-- C9 (reachability). On every finite predecessor graph, with or without cycles or
duplicate edges, and all nodes `s` and `b`, `s->happensAfter(b)` returns, and it returns
true if and only if `b` is reachable from `s` by a path of one or more predecessor edges;
so on an acyclic graph `s->happensAfter(s)` returns false. -/
theorem happensAfter_iff_reaches (n : Nat) (heap : Heap) (s b : NodeId)
    (hc : Closed n heap) (hs : s < n) :
    (∃ r, happensAfter n heap s b = some r) ∧
    (happensAfter n heap s b = some true ↔ Reaches heap s b) ∧
    (Acyclic heap → happensAfter n heap s s = some false) := by
  refine ⟨?_, ?_, ?_⟩
  · rcases happensAfter_spec n heap hc s b hs with ⟨h, _⟩ | ⟨h, _⟩
    · exact ⟨true, h⟩
    · exact ⟨false, h⟩
  · rcases happensAfter_spec n heap hc s b hs with ⟨h, hr⟩ | ⟨h, hr⟩
    · exact ⟨fun _ => hr, fun _ => h⟩
    · constructor
      · intro h2
        rw [h] at h2
        simp at h2
      · intro h2
        exact absurd h2 hr
  · intro hac
    rcases happensAfter_spec n heap hc s s hs with ⟨_, hr⟩ | ⟨h, _⟩
    · exact absurd hr (hac s)
    · exact h

/-- C9, on a graph with a cycle and a duplicate edge: node 0 reaches itself. -/
theorem happensAfter_iff_reaches_witness :
    (Closed 3 cyclicHeap ∧ 0 < 3) ∧
    ((∃ r, happensAfter 3 cyclicHeap 0 0 = some r) ∧
    (happensAfter 3 cyclicHeap 0 0 = some true ↔ Reaches cyclicHeap 0 0) ∧
    (Acyclic cyclicHeap → happensAfter 3 cyclicHeap 0 0 = some false)) ∧
    happensAfter 3 cyclicHeap 0 0 = some true ∧
    happensAfter 3 cyclicHeap 0 2 = some false :=
  ⟨⟨cyclicHeap_closed, by decide⟩,
    happensAfter_iff_reaches 3 cyclicHeap 0 0 cyclicHeap_closed (by decide),
    by decide, by decide⟩

/-! ## Attachments and the write hook -/

/-- C10 (last writer). `appendColorRenderTarget(s, rt)` and
`appendDepthStencilRenderTarget(s, rt)` on the node `N` pack exactly one attachment, with
the format and sample count of `rt`, into the description of `N`, and invoke the hook
`onWriteResource` of `rt.resource` exactly once, with `(N, s)`. Hence, for resources that
record their last writer, after `A` appends `R` the last writer of `R` is `A`, and after
`B` then appends `R` it is `B`. -/
theorem append_render_target_records_write {W : Type} (hook : Nat → NodeId → Nat → W → W)
    (N : NodeId) (node : CommandBufferNode) (world : W) (s : Nat) (rt : RenderTargetVk)
    (log : List (Nat × NodeId × Nat))
    (A B : NodeId) (nodeA nodeB : CommandBufferNode) (resources : Nat → ResourceVk)
    (R serialA serialB formatA samplesA formatB samplesB : Nat) :
    ((node.appendColorRenderTarget hook N world s rt).1.mRenderPassDesc.attachments
        = node.mRenderPassDesc.attachments
          ++ [{ kind := .color, format := rt.format, samples := rt.samples }] ∧
      (node.appendColorRenderTarget hook N world s rt).1.mRenderPassDesc.attachmentCount
        = node.mRenderPassDesc.attachmentCount + 1 ∧
      (node.appendColorRenderTarget hook N world s rt).2 = hook rt.resource N s world ∧
      (node.appendColorRenderTarget logWrite N log s rt).2 = log ++ [(rt.resource, N, s)]) ∧
    ((node.appendDepthStencilRenderTarget hook N world s rt).1.mRenderPassDesc.attachments
        = node.mRenderPassDesc.attachments
          ++ [{ kind := .depthStencil, format := rt.format, samples := rt.samples }] ∧
      (node.appendDepthStencilRenderTarget hook N world s rt).1.mRenderPassDesc.attachmentCount
        = node.mRenderPassDesc.attachmentCount + 1 ∧
      (node.appendDepthStencilRenderTarget hook N world s rt).2 = hook rt.resource N s world ∧
      (node.appendDepthStencilRenderTarget logWrite N log s rt).2
        = log ++ [(rt.resource, N, s)]) ∧
    (lastWriter
        (nodeA.appendColorRenderTarget onWriteResource A resources serialA
          { format := formatA, samples := samplesA, resource := R }).2 R = some A ∧
      lastWriter
        (nodeB.appendColorRenderTarget onWriteResource B
          (nodeA.appendColorRenderTarget onWriteResource A resources serialA
            { format := formatA, samples := samplesA, resource := R }).2 serialB
          { format := formatB, samples := samplesB, resource := R }).2 R = some B) := by
  refine ⟨⟨rfl, ?_, rfl, rfl⟩, ⟨rfl, ?_, rfl, rfl⟩, ?_, ?_⟩
  · simp [CommandBufferNode.appendColorRenderTarget, RenderPassDesc.packColorAttachment,
      RenderPassDesc.attachmentCount]
  · simp [CommandBufferNode.appendDepthStencilRenderTarget,
      RenderPassDesc.packDepthStencilAttachment, RenderPassDesc.attachmentCount]
  · simp [CommandBufferNode.appendColorRenderTarget, onWriteResource, lastWriter]
  · simp [CommandBufferNode.appendColorRenderTarget, onWriteResource, lastWriter]

/-! ## Effect of the node operations on the graph fields -/

theorem SetHappensBeforeDependency_hasAfter (n : Nat) (heap : Heap) (b a v : NodeId) :
    ((SetHappensBeforeDependency n heap b a).value v).mHasHappensAfterDependencies
      = if v = b then true else (heap v).mHasHappensAfterDependencies := by
  unfold SetHappensBeforeDependency CommandBufferNode.finishRecording
    CommandBufferNode.setHasHappensAfterDependencies
  simp only [Function.update_apply]
  split_ifs <;> simp_all

theorem SetHappensBeforeDependency_finished (n : Nat) (heap : Heap) (b a v : NodeId) :
    ((SetHappensBeforeDependency n heap b a).value v).mIsFinishedRecording
      = if v = b then true else (heap v).mIsFinishedRecording := by
  unfold SetHappensBeforeDependency CommandBufferNode.finishRecording
    CommandBufferNode.setHasHappensAfterDependencies
  simp only [Function.update_apply]
  split_ifs <;> simp_all

/-- The loop of `SetHappensBeforeDependencies` changes no predecessor list. -/
theorem setHappensBeforeLoop_deps (n : Nat) (a : NodeId) :
    ∀ (bs : List NodeId) (acc : Asserted Heap) (v : NodeId),
      ((setHappensBeforeLoop n a bs acc).value v).mHappensBeforeDependencies
        = (acc.value v).mHappensBeforeDependencies := by
  intro bs
  induction bs with
  | nil => intro acc v; rfl
  | cons b rest ih =>
    intro acc v
    simp only [setHappensBeforeLoop]
    rw [ih]
    simp only [Function.update_apply, CommandBufferNode.finishRecording,
      CommandBufferNode.setHasHappensAfterDependencies]
    split_ifs <;> simp_all

/-- The loop of `SetHappensBeforeDependencies` sets the successor flag of the nodes it runs
over, and of no other node. -/
theorem setHappensBeforeLoop_hasAfter (n : Nat) (a : NodeId) :
    ∀ (bs : List NodeId) (acc : Asserted Heap) (v : NodeId),
      ((setHappensBeforeLoop n a bs acc).value v).mHasHappensAfterDependencies
        = (decide (v ∈ bs) || (acc.value v).mHasHappensAfterDependencies) := by
  intro bs
  induction bs with
  | nil => intro acc v; simp [setHappensBeforeLoop]
  | cons b rest ih =>
    intro acc v
    simp only [setHappensBeforeLoop]
    rw [ih]
    simp only [Function.update_apply, CommandBufferNode.finishRecording,
      CommandBufferNode.setHasHappensAfterDependencies]
    by_cases hvb : v = b
    · subst hvb; simp
    · simp [hvb]

/-- Predecessor lists after `SetHappensBeforeDependencies`. -/
theorem SetHappensBeforeDependencies_deps (n : Nat) (heap : Heap) (bs : List NodeId)
    (a v : NodeId) :
    ((SetHappensBeforeDependencies n heap bs a).value v).mHappensBeforeDependencies
      = if v = a then (heap a).mHappensBeforeDependencies ++ bs
        else (heap v).mHappensBeforeDependencies := by
  unfold SetHappensBeforeDependencies
  simp only []
  rw [setHappensBeforeLoop_deps]
  simp only [Function.update_apply]
  split_ifs with h
  · subst h; rfl
  · rfl

/-- Successor flags after `SetHappensBeforeDependencies`. -/
theorem SetHappensBeforeDependencies_hasAfter (n : Nat) (heap : Heap) (bs : List NodeId)
    (a v : NodeId) :
    ((SetHappensBeforeDependencies n heap bs a).value v).mHasHappensAfterDependencies
      = (decide (v ∈ bs) || (heap v).mHasHappensAfterDependencies) := by
  unfold SetHappensBeforeDependencies
  simp only []
  rw [setHappensBeforeLoop_hasAfter]
  simp only [Function.update_apply]
  split_ifs with h
  · subst h; rfl
  · rfl

/-- A sealed node stays sealed through `SetHappensBeforeDependencies`. -/
theorem SetHappensBeforeDependencies_keeps_sealed (n : Nat) (heap : Heap) (bs : List NodeId)
    (a v : NodeId) (h : (heap v).mIsFinishedRecording = true) :
    ((SetHappensBeforeDependencies n heap bs a).value v).mIsFinishedRecording = true := by
  unfold SetHappensBeforeDependencies
  apply setHappensBeforeLoop_seals n a bs _ v
  left
  simp only [Function.update_apply]
  split_ifs with hva
  · subst hva; exact h
  · exact h

theorem startRecording_keeps (driver : VkDriver) (device commandPool : Nat)
    (node : CommandBufferNode) :
    KeepsGraphFields node (node.startRecording driver device commandPool).value.node := by
  unfold KeepsGraphFields CommandBufferNode.startRecording
  simp only []
  split <;> exact ⟨rfl, rfl, fun h => h⟩

theorem startRenderPassRecording_keeps (driver : VkDriver) (renderer : RendererVk)
    (node : CommandBufferNode) :
    KeepsGraphFields node (node.startRenderPassRecording driver renderer).value.node := by
  unfold KeepsGraphFields CommandBufferNode.startRenderPassRecording
  split
  · exact ⟨rfl, rfl, fun h => h⟩
  · simp only []
    split <;> exact ⟨rfl, rfl, fun h => h⟩

theorem storeRenderPassInfo_keeps (node node2 : CommandBufferNode) (framebuffer : Framebuffer)
    (renderArea : Rectangle) (clearValues : List VkClearValue)
    (h : node.storeRenderPassInfo framebuffer renderArea clearValues = some node2) :
    KeepsGraphFields node node2 := by
  unfold CommandBufferNode.storeRenderPassInfo at h
  split at h
  · simp at h
  · simp only [Option.some.injEq] at h
    subst h
    exact ⟨rfl, rfl, fun h => h⟩

theorem visitAndExecute_keeps (renderer : RendererVk) (node : CommandBufferNode)
    (primary : List PrimaryCommand) :
    KeepsGraphFields node (node.visitAndExecute renderer primary).node := by
  unfold KeepsGraphFields CommandBufferNode.visitAndExecute
  simp only []
  split_ifs <;> (try split) <;> exact ⟨rfl, rfl, fun h => h⟩

/-- A node operation is one of the two dependency setters, or it replaces one node by a
node value with the same predecessor list and successor flag that is sealed if the old
one was. -/
theorem NodeOp.apply_effect (n : Nat) (driver : VkDriver) (renderer : RendererVk)
    (heap heap2 : Heap) (op : NodeOp) (hop : op.apply n driver renderer heap = some heap2) :
    (∃ self node2, heap2 = Function.update heap self node2 ∧
      KeepsGraphFields (heap self) node2) ∨
    (∃ b a, heap2 = (SetHappensBeforeDependency n heap b a).value) ∨
    (∃ bs a, heap2 = (SetHappensBeforeDependencies n heap bs a).value) := by
  cases op with
  | setHappensBeforeDependency b a =>
    simp only [NodeOp.apply, Option.some.injEq] at hop
    exact Or.inr (Or.inl ⟨b, a, hop.symm⟩)
  | setHappensBeforeDependencies bs a =>
    simp only [NodeOp.apply, Option.some.injEq] at hop
    exact Or.inr (Or.inr ⟨bs, a, hop.symm⟩)
  | finishRecording self =>
    simp only [NodeOp.apply, Option.some.injEq] at hop
    exact Or.inl ⟨self, _, hop.symm, rfl, rfl, fun _ => rfl⟩
  | storeRenderPassInfo self framebuffer renderArea clearValues =>
    simp only [NodeOp.apply] at hop
    cases hst : (heap self).storeRenderPassInfo framebuffer renderArea clearValues with
    | none => rw [hst] at hop; simp at hop
    | some node2 =>
      rw [hst] at hop
      simp only [Option.some.injEq] at hop
      exact Or.inl ⟨self, node2, hop.symm, storeRenderPassInfo_keeps _ _ _ _ _ hst⟩
  | appendColorRenderTarget self serial rt =>
    simp only [NodeOp.apply, Option.some.injEq] at hop
    exact Or.inl ⟨self, _, hop.symm, rfl, rfl, fun h => h⟩
  | appendDepthStencilRenderTarget self serial rt =>
    simp only [NodeOp.apply, Option.some.injEq] at hop
    exact Or.inl ⟨self, _, hop.symm, rfl, rfl, fun h => h⟩
  | startRecording self device commandPool =>
    simp only [NodeOp.apply, Option.some.injEq] at hop
    exact Or.inl ⟨self, _, hop.symm, startRecording_keeps driver device commandPool _⟩
  | startRenderPassRecording self =>
    simp only [NodeOp.apply, Option.some.injEq] at hop
    exact Or.inl ⟨self, _, hop.symm, startRenderPassRecording_keeps driver renderer _⟩
  | visitDependencies self stack =>
    simp only [NodeOp.apply, Option.some.injEq] at hop
    exact Or.inl ⟨self, _, hop.symm, rfl, rfl, fun h => h⟩
  | visitAndExecute self primary =>
    simp only [NodeOp.apply, Option.some.injEq] at hop
    exact Or.inl ⟨self, _, hop.symm, visitAndExecute_keeps renderer _ primary⟩

/-- A node operation changes the predecessor lists by appending only. -/
theorem NodeOp.apply_deps (n : Nat) (driver : VkDriver) (renderer : RendererVk)
    (heap heap2 : Heap) (op : NodeOp) (hop : op.apply n driver renderer heap = some heap2)
    (v : NodeId) :
    ∃ t, (heap2 v).mHappensBeforeDependencies = (heap v).mHappensBeforeDependencies ++ t := by
  rcases NodeOp.apply_effect n driver renderer heap heap2 op hop with
    ⟨self, node2, h2, hk⟩ | ⟨b, a, h2⟩ | ⟨bs, a, h2⟩
  · refine ⟨[], ?_⟩
    rw [h2, List.append_nil]
    by_cases hvs : v = self
    · subst hvs; simp only [Function.update_same]; exact hk.1
    · simp only [Function.update_noteq hvs]
  · rw [h2, SetHappensBeforeDependency_deps]
    split_ifs with h
    · subst h; exact ⟨[b], rfl⟩
    · exact ⟨[], (List.append_nil _).symm⟩
  · rw [h2, SetHappensBeforeDependencies_deps]
    split_ifs with h
    · subst h; exact ⟨bs, rfl⟩
    · exact ⟨[], (List.append_nil _).symm⟩

/-- A node operation keeps sealed nodes sealed. -/
theorem NodeOp.apply_keeps_sealed (n : Nat) (driver : VkDriver) (renderer : RendererVk)
    (heap heap2 : Heap) (op : NodeOp) (hop : op.apply n driver renderer heap = some heap2)
    (v : NodeId) (hv : (heap v).mIsFinishedRecording = true) :
    (heap2 v).mIsFinishedRecording = true := by
  rcases NodeOp.apply_effect n driver renderer heap heap2 op hop with
    ⟨self, node2, h2, hk⟩ | ⟨b, a, h2⟩ | ⟨bs, a, h2⟩
  · rw [h2]
    by_cases hvs : v = self
    · subst hvs; simp only [Function.update_same]; exact hk.2.2 hv
    · simp only [Function.update_noteq hvs]; exact hv
  · rw [h2, SetHappensBeforeDependency_finished]
    split_ifs
    · rfl
    · exact hv
  · rw [h2]
    exact SetHappensBeforeDependencies_keeps_sealed n heap bs a v hv

/-- In every reachable heap the successor flag of a node says whether some predecessor
list names the node. -/
theorem reachable_successor_flag (n : Nat) (heap : Heap) (hr : ReachableHeap n heap) :
    ∀ x, (heap x).mHasHappensAfterDependencies = true ↔
      ∃ y, x ∈ (heap y).mHappensBeforeDependencies := by
  induction hr with
  | fresh heap h =>
    intro x
    obtain ⟨cvs, hx⟩ := h x
    constructor
    · intro hf
      rw [hx] at hf
      simp [CommandBufferNode.new] at hf
    · rintro ⟨y, hy⟩
      obtain ⟨cvs2, hy2⟩ := h y
      rw [hy2] at hy
      simp [CommandBufferNode.new] at hy
  | step heap heap2 driver renderer op _ hop ih =>
    intro x
    rcases NodeOp.apply_effect n driver renderer heap heap2 op hop with
      ⟨self, node2, h2, hk⟩ | ⟨b, a, h2⟩ | ⟨bs, a, h2⟩
    · have hdeps : ∀ v, (heap2 v).mHappensBeforeDependencies
          = (heap v).mHappensBeforeDependencies := by
        intro v
        rw [h2]
        by_cases hvs : v = self
        · subst hvs; simp only [Function.update_same]; exact hk.1
        · simp only [Function.update_noteq hvs]
      have hflag : (heap2 x).mHasHappensAfterDependencies
          = (heap x).mHasHappensAfterDependencies := by
        rw [h2]
        by_cases hvs : x = self
        · subst hvs; simp only [Function.update_same]; exact hk.2.1
        · simp only [Function.update_noteq hvs]
      rw [hflag, ih x]
      simp only [hdeps]
    · rw [h2, SetHappensBeforeDependency_hasAfter]
      simp only [SetHappensBeforeDependency_deps]
      by_cases hxb : x = b
      · subst hxb
        simp only [if_true, true_iff]
        exact ⟨a, by simp⟩
      · simp only [if_neg hxb]
        rw [ih x]
        constructor
        · rintro ⟨y, hy⟩
          refine ⟨y, ?_⟩
          split_ifs with hya
          · subst hya; exact List.mem_append_left _ hy
          · exact hy
        · rintro ⟨y, hy⟩
          split_ifs at hy with hya
          · subst hya
            rcases List.mem_append.1 hy with h | h
            · exact ⟨y, h⟩
            · simp only [List.mem_singleton] at h
              exact absurd h hxb
          · exact ⟨y, hy⟩
    · rw [h2, SetHappensBeforeDependencies_hasAfter]
      simp only [SetHappensBeforeDependencies_deps]
      by_cases hxb : x ∈ bs
      · simp only [hxb, decide_True, Bool.true_or, true_iff]
        exact ⟨a, by simp [hxb]⟩
      · simp only [hxb, decide_False, Bool.false_or]
        rw [ih x]
        constructor
        · rintro ⟨y, hy⟩
          refine ⟨y, ?_⟩
          split_ifs with hya
          · subst hya; exact List.mem_append_left _ hy
          · exact hy
        · rintro ⟨y, hy⟩
          split_ifs at hy with hya
          · subst hya
            rcases List.mem_append.1 hy with h | h
            · exact ⟨y, h⟩
            · exact absurd h hxb
          · exact ⟨y, hy⟩

/-! ## Claims on the graph fields -/

/-- C11 (append-only predecessor lists). For every node operation and every node `v`, the
predecessor list of `v` before the operation is an initial segment of its list
afterwards. `SetHappensBeforeDependency(b, a)` makes the list of `a` its old list followed
by `b`, `SetHappensBeforeDependencies(bs, a)` makes it the old list followed by `bs` in
order, and both leave the list of every other node unchanged. -/
theorem predecessors_append_only (n : Nat) (driver : VkDriver) (renderer : RendererVk)
    (heap heap2 : Heap) (op : NodeOp) (v b a : NodeId) (bs : List NodeId)
    (hop : op.apply n driver renderer heap = some heap2) :
    (∃ t, (heap2 v).mHappensBeforeDependencies = (heap v).mHappensBeforeDependencies ++ t) ∧
    ((SetHappensBeforeDependency n heap b a).value a).mHappensBeforeDependencies
      = (heap a).mHappensBeforeDependencies ++ [b] ∧
    ((SetHappensBeforeDependencies n heap bs a).value a).mHappensBeforeDependencies
      = (heap a).mHappensBeforeDependencies ++ bs ∧
    (v ≠ a →
      ((SetHappensBeforeDependency n heap b a).value v).mHappensBeforeDependencies
        = (heap v).mHappensBeforeDependencies ∧
      ((SetHappensBeforeDependencies n heap bs a).value v).mHappensBeforeDependencies
        = (heap v).mHappensBeforeDependencies) := by
  refine ⟨NodeOp.apply_deps n driver renderer heap heap2 op hop v, ?_, ?_, ?_⟩
  · rw [SetHappensBeforeDependency_deps, if_pos rfl]
  · rw [SetHappensBeforeDependencies_deps, if_pos rfl]
  · intro hva
    rw [SetHappensBeforeDependency_deps, SetHappensBeforeDependencies_deps, if_neg hva,
      if_neg hva]
    exact ⟨rfl, rfl⟩

/-- C11, on the example graph and the batch call that puts nodes 0 and 1 before node 2. -/
theorem predecessors_append_only_witness :
    (NodeOp.setHappensBeforeDependencies [0, 1] 2).apply 3 exampleDriver exampleRenderer
        exampleHeap
      = some (SetHappensBeforeDependencies 3 exampleHeap [0, 1] 2).value ∧
    ((∃ t, ((SetHappensBeforeDependencies 3 exampleHeap [0, 1] 2).value
          2).mHappensBeforeDependencies
        = (exampleHeap 2).mHappensBeforeDependencies ++ t) ∧
    ((SetHappensBeforeDependency 3 exampleHeap 0 1).value 1).mHappensBeforeDependencies
      = (exampleHeap 1).mHappensBeforeDependencies ++ [0] ∧
    ((SetHappensBeforeDependencies 3 exampleHeap [0, 1] 1).value 1).mHappensBeforeDependencies
      = (exampleHeap 1).mHappensBeforeDependencies ++ [0, 1] ∧
    (2 ≠ 1 →
      ((SetHappensBeforeDependency 3 exampleHeap 0 1).value 2).mHappensBeforeDependencies
        = (exampleHeap 2).mHappensBeforeDependencies ∧
      ((SetHappensBeforeDependencies 3 exampleHeap [0, 1] 1).value 2).mHappensBeforeDependencies
        = (exampleHeap 2).mHappensBeforeDependencies)) ∧
    ((SetHappensBeforeDependencies 3 exampleHeap [0, 1] 2).value 2).mHappensBeforeDependencies
      = [0, 0, 1, 0, 1] :=
  ⟨rfl,
    predecessors_append_only 3 exampleDriver exampleRenderer exampleHeap _
      (NodeOp.setHappensBeforeDependencies [0, 1] 2) 2 0 1 [0, 1] rfl,
    by decide⟩

/-- C12 (successor flag). In every heap reachable from freshly constructed nodes through
the node operations, `X->hasHappensAfterDependencies()` is true if and only if `X` occurs
in the predecessor list of some node, and `X->hasHappensBeforeDependencies()` is true if
and only if the predecessor list of `X` is not empty. -/
theorem successor_flag_iff_named (n : Nat) (heap : Heap) (x : NodeId)
    (hr : ReachableHeap n heap) :
    ((heap x).hasHappensAfterDependencies = true ↔
      ∃ y, x ∈ (heap y).mHappensBeforeDependencies) ∧
    ((heap x).hasHappensBeforeDependencies = true ↔
      (heap x).mHappensBeforeDependencies ≠ []) := by
  refine ⟨reachable_successor_flag n heap hr x, ?_⟩
  unfold CommandBufferNode.hasHappensBeforeDependencies
  cases (heap x).mHappensBeforeDependencies <;> simp

/-- C13 (sealing is irreversible and idempotent). Through every node operation a sealed
node stays sealed, and `finishRecording` on a sealed node leaves the node unchanged. -/
theorem sealing_irreversible (n : Nat) (driver : VkDriver) (renderer : RendererVk)
    (heap heap2 : Heap) (op : NodeOp) (v : NodeId)
    (hop : op.apply n driver renderer heap = some heap2)
    (hsealed : (heap v).isFinishedRecording = true) :
    (heap2 v).isFinishedRecording = true ∧
    (heap v).finishRecording = heap v ∧
    Function.update heap v (heap v).finishRecording = heap := by
  have hfix : (heap v).finishRecording = heap v := by
    unfold CommandBufferNode.isFinishedRecording at hsealed
    unfold CommandBufferNode.finishRecording
    rw [← hsealed]
  refine ⟨NodeOp.apply_keeps_sealed n driver renderer heap heap2 op hop v hsealed, hfix, ?_⟩
  rw [hfix, Function.update_eq_self]

/-- C12, on two fresh nodes after `SetHappensBeforeDependency(0, 1)`. -/
theorem successor_flag_iff_named_witness :
    ReachableHeap 2 linkedHeap ∧
    (((linkedHeap 0).hasHappensAfterDependencies = true ↔
      ∃ y, 0 ∈ (linkedHeap y).mHappensBeforeDependencies) ∧
    ((linkedHeap 0).hasHappensBeforeDependencies = true ↔
      (linkedHeap 0).mHappensBeforeDependencies ≠ [])) ∧
    (linkedHeap 0).hasHappensAfterDependencies = true ∧
    (linkedHeap 1).hasHappensAfterDependencies = false ∧
    (linkedHeap 1).hasHappensBeforeDependencies = true :=
  ⟨ReachableHeap.step freshHeap linkedHeap exampleDriver exampleRenderer
      (NodeOp.setHappensBeforeDependency 0 1)
      (ReachableHeap.fresh freshHeap (fun _ => ⟨_, rfl⟩)) rfl,
    successor_flag_iff_named 2 linkedHeap 0
      (ReachableHeap.step freshHeap linkedHeap exampleDriver exampleRenderer
        (NodeOp.setHappensBeforeDependency 0 1)
        (ReachableHeap.fresh freshHeap (fun _ => ⟨_, rfl⟩)) rfl),
    by decide, by decide, by decide⟩

/-- C13, on the sealed node 0 of two linked nodes and a later `startRecording` on it. -/
theorem sealing_irreversible_witness :
    ((NodeOp.startRecording 0 1 2).apply 2 exampleDriver exampleRenderer linkedHeap
        = some (Function.update linkedHeap 0
            ((linkedHeap 0).startRecording exampleDriver 1 2).value.node) ∧
      (linkedHeap 0).isFinishedRecording = true) ∧
    ((Function.update linkedHeap 0
        ((linkedHeap 0).startRecording exampleDriver 1 2).value.node 0).isFinishedRecording
        = true ∧
      (linkedHeap 0).finishRecording = linkedHeap 0 ∧
      Function.update linkedHeap 0 (linkedHeap 0).finishRecording = linkedHeap) :=
  ⟨⟨rfl, by decide⟩,
    sealing_irreversible 2 exampleDriver exampleRenderer linkedHeap _
      (NodeOp.startRecording 0 1 2) 0 rfl (by decide)⟩

/-! ## Claims on executing one node -/

/-- What `visitAndExecute` does when `getCompatibleRenderPass` succeeds on the node. -/
theorem visitAndExecute_of_renderPass_ok (renderer : RendererVk) (node : CommandBufferNode)
    (primary : List PrimaryCommand) (rp : Nat)
    (hrp : renderer.getCompatibleRenderPass node.mRenderPassDesc = .ok rp) :
    (node.visitAndExecute renderer primary).error = none ∧
    (node.visitAndExecute renderer primary).node.mVisitedState = .Visited ∧
    (node.visitAndExecute renderer primary).primaryCommandBuffer
      = primary ++
        ((if node.mOutsideRenderPassCommands.valid = true then
            [PrimaryCommand.executeCommands 1 node.mOutsideRenderPassCommands.end_]
          else []) ++
        (if node.mInsideRenderPassCommands.valid = true then
            [PrimaryCommand.beginRenderPass (renderPassBeginInfo node rp)
                VkSubpassContents.secondaryCommandBuffers,
              PrimaryCommand.executeCommands 1 node.mInsideRenderPassCommands.end_,
              PrimaryCommand.endRenderPass]
          else [])) := by
  unfold CommandBufferNode.visitAndExecute renderPassBeginInfo
  by_cases hin : node.mInsideRenderPassCommands.valid = true
  · by_cases hout : node.mOutsideRenderPassCommands.valid = true
    · simp [hin, hout, hrp]
    · simp [hin, hout, hrp]
  · by_cases hout : node.mOutsideRenderPassCommands.valid = true
    · simp [hin, hout]
    · simp [hin, hout]

/-- The cast to `uint32_t` keeps a non-negative `int`. -/
theorem toUint32_of_nonneg (i : Int) (h0 : 0 ≤ i) (hi : IsInt i) : (toUint32 i : Int) = i := by
  unfold toUint32
  unfold IsInt at hi
  rw [Int.toNat_of_nonneg (Int.emod_nonneg _ (by decide))]
  exact Int.emod_eq_of_lt h0 (by omega)

/-- The cast of an `int` to `uint32_t` followed by the conversion to `int32_t` gives the
`int` back, negative values included. -/
theorem toInt32_toUint32 (i : Int) (hi : IsInt i) : toInt32 (toUint32 i) = i := by
  unfold toInt32 toUint32
  unfold IsInt at hi
  have h1 : ((i % 4294967296).toNat : Int) = i % 4294967296 :=
    Int.toNat_of_nonneg (Int.emod_nonneg _ (by decide))
  have h2 : (i % 4294967296).toNat % 4294967296 = (i % 4294967296).toNat := by
    apply Nat.mod_eq_of_lt
    have : i % 4294967296 < 4294967296 := Int.emod_lt_of_pos _ (by decide)
    omega
  rw [h2]
  split_ifs with h <;> omega

/-- C14 (emission of one node). On a node for which `getCompatibleRenderPass` succeeds,
`visitAndExecute` returns no error, leaves the node `Visited`, and appends to the primary
command buffer exactly: `executeCommands` of the outside-render-pass surface if that
surface is valid, followed by `beginRenderPass`, `executeCommands` of the
inside-render-pass surface and `endRenderPass` if that surface is valid. The
`beginRenderPass` names the render pass that was fetched and the framebuffer of the node;
its render-area offset is the signed offset of the node, negative values included, and
its extent is the cast to `uint32_t` of the width and height of the node. -/
theorem visitAndExecute_emission (renderer : RendererVk) (node : CommandBufferNode)
    (primary : List PrimaryCommand) (rp : Nat)
    (hrp : renderer.getCompatibleRenderPass node.mRenderPassDesc = .ok rp) :
    (node.visitAndExecute renderer primary).error = none ∧
    (node.visitAndExecute renderer primary).node.visitedState = .Visited ∧
    (node.visitAndExecute renderer primary).primaryCommandBuffer
      = primary ++
        ((if node.mOutsideRenderPassCommands.valid = true then
            [PrimaryCommand.executeCommands 1 node.mOutsideRenderPassCommands.end_]
          else []) ++
        (if node.mInsideRenderPassCommands.valid = true then
            [PrimaryCommand.beginRenderPass (renderPassBeginInfo node rp)
                VkSubpassContents.secondaryCommandBuffers,
              PrimaryCommand.executeCommands 1 node.mInsideRenderPassCommands.end_,
              PrimaryCommand.endRenderPass]
          else [])) ∧
    (renderPassBeginInfo node rp).renderPass = rp ∧
    (renderPassBeginInfo node rp).framebuffer = node.mRenderPassFramebuffer.mHandle ∧
    (IsInt node.mRenderPassRenderArea.x →
      (renderPassBeginInfo node rp).offsetX = node.mRenderPassRenderArea.x) ∧
    (IsInt node.mRenderPassRenderArea.y →
      (renderPassBeginInfo node rp).offsetY = node.mRenderPassRenderArea.y) ∧
    (renderPassBeginInfo node rp).extentWidth = toUint32 node.mRenderPassRenderArea.width ∧
    (renderPassBeginInfo node rp).extentHeight = toUint32 node.mRenderPassRenderArea.height :=
  have h := visitAndExecute_of_renderPass_ok renderer node primary rp hrp
  ⟨h.1, h.2.1, h.2.2, rfl, rfl, fun hx => toInt32_toUint32 _ hx,
    fun hy => toInt32_toUint32 _ hy, rfl, rfl⟩

/-- C14, on a node whose two surfaces are valid and whose render area has the negative
offset (-1, -2): the `beginRenderPass` carries the offset (-1, -2). -/
theorem visitAndExecute_emission_witness :
    exampleRenderer.getCompatibleRenderPass offsetNode.mRenderPassDesc = .ok 100 ∧
    ((offsetNode.visitAndExecute exampleRenderer []).error = none ∧
    (offsetNode.visitAndExecute exampleRenderer []).node.visitedState = .Visited ∧
    (offsetNode.visitAndExecute exampleRenderer []).primaryCommandBuffer
      = [] ++
        ((if offsetNode.mOutsideRenderPassCommands.valid = true then
            [PrimaryCommand.executeCommands 1 offsetNode.mOutsideRenderPassCommands.end_]
          else []) ++
        (if offsetNode.mInsideRenderPassCommands.valid = true then
            [PrimaryCommand.beginRenderPass (renderPassBeginInfo offsetNode 100)
                VkSubpassContents.secondaryCommandBuffers,
              PrimaryCommand.executeCommands 1 offsetNode.mInsideRenderPassCommands.end_,
              PrimaryCommand.endRenderPass]
          else [])) ∧
    (renderPassBeginInfo offsetNode 100).renderPass = 100 ∧
    (renderPassBeginInfo offsetNode 100).framebuffer = offsetNode.mRenderPassFramebuffer.mHandle ∧
    (IsInt offsetNode.mRenderPassRenderArea.x →
      (renderPassBeginInfo offsetNode 100).offsetX = offsetNode.mRenderPassRenderArea.x) ∧
    (IsInt offsetNode.mRenderPassRenderArea.y →
      (renderPassBeginInfo offsetNode 100).offsetY = offsetNode.mRenderPassRenderArea.y) ∧
    (renderPassBeginInfo offsetNode 100).extentWidth
      = toUint32 offsetNode.mRenderPassRenderArea.width ∧
    (renderPassBeginInfo offsetNode 100).extentHeight
      = toUint32 offsetNode.mRenderPassRenderArea.height) ∧
    (IsInt offsetNode.mRenderPassRenderArea.x ∧ IsInt offsetNode.mRenderPassRenderArea.y) ∧
    (offsetNode.visitAndExecute exampleRenderer []).primaryCommandBuffer
      = [PrimaryCommand.executeCommands 1 { mHandle := 11, recording := false },
          PrimaryCommand.beginRenderPass
            { renderPass := 100, framebuffer := 5, offsetX := -1, offsetY := -2,
              extentWidth := 4, extentHeight := 3, clearValueCount := 0, pClearValues := [] }
            VkSubpassContents.secondaryCommandBuffers,
          PrimaryCommand.executeCommands 1 { mHandle := 21, recording := false },
          PrimaryCommand.endRenderPass] :=
  ⟨rfl, visitAndExecute_emission exampleRenderer offsetNode [] 100 rfl,
    ⟨⟨by decide, by decide⟩, ⟨by decide, by decide⟩⟩, by decide⟩

/-- C16 (render-pass failure). On a node whose inside-render-pass surface is valid, when
`getCompatibleRenderPass` fails, `visitAndExecute` returns that error, leaves the visit
state of the node as it was, and appends to the primary command buffer only the
`executeCommands` of a valid outside-render-pass surface: no `beginRenderPass`, no
`executeCommands` of the inside surface, no `endRenderPass`. -/
theorem visitAndExecute_renderPass_failure (renderer : RendererVk) (node : CommandBufferNode)
    (primary : List PrimaryCommand) (e : VkResult)
    (hvalid : node.mInsideRenderPassCommands.valid = true)
    (hrp : renderer.getCompatibleRenderPass node.mRenderPassDesc = .error e) :
    (node.visitAndExecute renderer primary).error = some e ∧
    (node.visitAndExecute renderer primary).node.visitedState = node.visitedState ∧
    (node.visitAndExecute renderer primary).primaryCommandBuffer
      = primary ++
        (if node.mOutsideRenderPassCommands.valid = true then
          [PrimaryCommand.executeCommands 1 node.mOutsideRenderPassCommands.end_]
        else []) ∧
    (node.visitAndExecute renderer primary).node.mInsideRenderPassCommands
      = node.mInsideRenderPassCommands := by
  unfold CommandBufferNode.visitAndExecute CommandBufferNode.visitedState
  by_cases hout : node.mOutsideRenderPassCommands.valid = true
  · simp [hvalid, hout, hrp]
  · simp [hvalid, hout, hrp]

/-- C16, on node 1 of the example graph and a renderer whose cache fails. -/
theorem visitAndExecute_renderPass_failure_witness :
    ((exampleHeap 1).mInsideRenderPassCommands.valid = true ∧
      failingRenderer.getCompatibleRenderPass (exampleHeap 1).mRenderPassDesc = .error (-3)) ∧
    (((exampleHeap 1).visitAndExecute failingRenderer []).error = some (-3) ∧
    ((exampleHeap 1).visitAndExecute failingRenderer []).node.visitedState
      = (exampleHeap 1).visitedState ∧
    ((exampleHeap 1).visitAndExecute failingRenderer []).primaryCommandBuffer
      = [] ++
        (if (exampleHeap 1).mOutsideRenderPassCommands.valid = true then
          [PrimaryCommand.executeCommands 1 (exampleHeap 1).mOutsideRenderPassCommands.end_]
        else []) ∧
    ((exampleHeap 1).visitAndExecute failingRenderer []).node.mInsideRenderPassCommands
      = (exampleHeap 1).mInsideRenderPassCommands) ∧
    ((exampleHeap 1).visitAndExecute failingRenderer []).primaryCommandBuffer
      = [PrimaryCommand.executeCommands 1 { mHandle := 11, recording := false }] :=
  ⟨⟨by decide, rfl⟩,
    visitAndExecute_renderPass_failure failingRenderer (exampleHeap 1) [] (-3) (by decide) rfl,
    by decide⟩

/-- A successful `storeRenderPassInfo` had room for the clear values and produced the node
with the three members overwritten. -/
theorem storeRenderPassInfo_some (node node1 : CommandBufferNode) (framebuffer : Framebuffer)
    (renderArea : Rectangle) (clearValues : List VkClearValue)
    (h : node.storeRenderPassInfo framebuffer renderArea clearValues = some node1) :
    clearValues.length ≤ node.mRenderPassClearValues.length ∧
    node1 = { node with
      mRenderPassFramebuffer := { mHandle := framebuffer.mHandle }
      mRenderPassRenderArea := renderArea
      mRenderPassClearValues :=
        clearValues ++ node.mRenderPassClearValues.drop clearValues.length } := by
  have hfit : clearValues.length ≤ node.mRenderPassClearValues.length := by
    by_contra hnot
    simp [CommandBufferNode.storeRenderPassInfo, stdCopy, hnot] at h
  rw [storeRenderPassInfo_fits node framebuffer renderArea clearValues hfit] at h
  simp only [Option.some.injEq] at h
  exact ⟨hfit, h.symm⟩

/-- C15 (render-pass begin info). Let `storeRenderPassInfo(F, area, cv)` have been called
on a node with `cv.length` equal to the attachment count of its description and with the
fields of `area` non-negative `int`s, and let the node, with the same description,
framebuffer, render area and clear values, have a valid inside-render-pass surface when
`visitAndExecute` runs. Then the `beginRenderPass` that `visitAndExecute` emits carries
the framebuffer handle of `F`, the offset `(area.x, area.y)`, the extent
`(area.width, area.height)`, a clear-value count equal to the attachment count, and clear
values equal to `cv` position by position. -/
theorem beginRenderPass_carries_metadata (renderer : RendererVk)
    (node0 node1 node : CommandBufferNode) (F : Framebuffer) (area : Rectangle)
    (cv : List VkClearValue) (primary : List PrimaryCommand) (rp : Nat)
    (hstore : node0.storeRenderPassInfo F area cv = some node1)
    (hlen : cv.length = node0.mRenderPassDesc.attachmentCount)
    (hsame : node.mRenderPassDesc = node1.mRenderPassDesc ∧
      node.mRenderPassFramebuffer = node1.mRenderPassFramebuffer ∧
      node.mRenderPassRenderArea = node1.mRenderPassRenderArea ∧
      node.mRenderPassClearValues = node1.mRenderPassClearValues)
    (hvalid : node.mInsideRenderPassCommands.valid = true)
    (hrp : renderer.getCompatibleRenderPass node.mRenderPassDesc = .ok rp)
    (harea : (0 ≤ area.x ∧ IsInt area.x) ∧ (0 ≤ area.y ∧ IsInt area.y) ∧
      (0 ≤ area.width ∧ IsInt area.width) ∧ (0 ≤ area.height ∧ IsInt area.height)) :
    (node.visitAndExecute renderer primary).primaryCommandBuffer
      = primary ++
        ((if node.mOutsideRenderPassCommands.valid = true then
            [PrimaryCommand.executeCommands 1 node.mOutsideRenderPassCommands.end_]
          else []) ++
          [PrimaryCommand.beginRenderPass (renderPassBeginInfo node rp)
              VkSubpassContents.secondaryCommandBuffers,
            PrimaryCommand.executeCommands 1 node.mInsideRenderPassCommands.end_,
            PrimaryCommand.endRenderPass]) ∧
    (renderPassBeginInfo node rp).framebuffer = F.mHandle ∧
    ((renderPassBeginInfo node rp).offsetX : Int) = area.x ∧
    ((renderPassBeginInfo node rp).offsetY : Int) = area.y ∧
    ((renderPassBeginInfo node rp).extentWidth : Int) = area.width ∧
    ((renderPassBeginInfo node rp).extentHeight : Int) = area.height ∧
    (renderPassBeginInfo node rp).clearValueCount = node0.mRenderPassDesc.attachmentCount ∧
    (renderPassBeginInfo node rp).pClearValues.take (renderPassBeginInfo node rp).clearValueCount
      = cv := by
  obtain ⟨_, hnode1⟩ := storeRenderPassInfo_some node0 node1 F area cv hstore
  obtain ⟨hdesc, hfb, har, hcv⟩ := hsame
  subst hnode1
  simp only at hdesc hfb har hcv
  refine ⟨?_, ?_, ?_, ?_, ?_, ?_, ?_, ?_⟩
  · have h := (visitAndExecute_of_renderPass_ok renderer node primary rp hrp).2.2
    rw [h, if_pos hvalid]
  · simp [renderPassBeginInfo, hfb]
  · simp only [renderPassBeginInfo, har]
    exact toInt32_toUint32 _ harea.1.2
  · simp only [renderPassBeginInfo, har]
    exact toInt32_toUint32 _ harea.2.1.2
  · simp only [renderPassBeginInfo, har]
    exact toUint32_of_nonneg _ harea.2.2.1.1 harea.2.2.1.2
  · simp only [renderPassBeginInfo, har]
    exact toUint32_of_nonneg _ harea.2.2.2.1 harea.2.2.2.2
  · simp [renderPassBeginInfo, hdesc]
  · simp only [renderPassBeginInfo, hdesc, hcv, ← hlen]
    simp

/-- C15, on a node with one colour attachment, framebuffer 5, a 4 by 4 render area at the
origin and one clear value, after `startRenderPassRecording`. -/
theorem beginRenderPass_carries_metadata_witness :
    (attachedNode.storeRenderPassInfo { mHandle := 5 }
        { x := 0, y := 0, width := 4, height := 4 } [{ raw := 7 }] = some boundNode ∧
      [({ raw := 7 } : VkClearValue)].length = attachedNode.mRenderPassDesc.attachmentCount ∧
      recordingNode.mInsideRenderPassCommands.valid = true ∧
      exampleRenderer.getCompatibleRenderPass recordingNode.mRenderPassDesc = .ok 101) ∧
    ((recordingNode.visitAndExecute exampleRenderer []).primaryCommandBuffer
      = [] ++
        ((if recordingNode.mOutsideRenderPassCommands.valid = true then
            [PrimaryCommand.executeCommands 1 recordingNode.mOutsideRenderPassCommands.end_]
          else []) ++
          [PrimaryCommand.beginRenderPass (renderPassBeginInfo recordingNode 101)
              VkSubpassContents.secondaryCommandBuffers,
            PrimaryCommand.executeCommands 1 recordingNode.mInsideRenderPassCommands.end_,
            PrimaryCommand.endRenderPass]) ∧
    (renderPassBeginInfo recordingNode 101).framebuffer = 5 ∧
    ((renderPassBeginInfo recordingNode 101).offsetX : Int) = 0 ∧
    ((renderPassBeginInfo recordingNode 101).offsetY : Int) = 0 ∧
    ((renderPassBeginInfo recordingNode 101).extentWidth : Int) = 4 ∧
    ((renderPassBeginInfo recordingNode 101).extentHeight : Int) = 4 ∧
    (renderPassBeginInfo recordingNode 101).clearValueCount
      = attachedNode.mRenderPassDesc.attachmentCount ∧
    (renderPassBeginInfo recordingNode 101).pClearValues.take
        (renderPassBeginInfo recordingNode 101).clearValueCount
      = [{ raw := 7 }]) :=
  ⟨⟨rfl, by decide, by decide, rfl⟩,
    beginRenderPass_carries_metadata exampleRenderer attachedNode boundNode recordingNode
      { mHandle := 5 } { x := 0, y := 0, width := 4, height := 4 } [{ raw := 7 }] [] 101
      rfl (by decide) (by decide) (by decide) rfl
      ⟨⟨by decide, by decide, by decide⟩, ⟨by decide, by decide, by decide⟩,
        ⟨by decide, by decide, by decide⟩, ⟨by decide, by decide, by decide⟩⟩⟩

/-! ## Claims on starting a recording -/

/-- The three outcomes of `InitAndBeginCommandBuffer`, by the answers of the driver. -/
theorem InitAndBeginCommandBuffer_cases (driver : VkDriver) (device commandPool : Nat)
    (inheritanceInfo : VkCommandBufferInheritanceInfo) (flags : Nat)
    (commandBuffer : CommandBuffer) :
    (∀ e, driver.allocate (secondaryAllocateInfo commandPool) = .error e →
      (InitAndBeginCommandBuffer driver device commandPool inheritanceInfo flags
          commandBuffer).value
        = { commandBuffer := commandBuffer
            calls := [.allocateCommandBuffers (secondaryAllocateInfo commandPool)]
            error := some e }) ∧
    (∀ h e, driver.allocate (secondaryAllocateInfo commandPool) = .ok h →
      driver.beginBuffer h
          { flags := flags ||| VK_COMMAND_BUFFER_USAGE_ONE_TIME_SUBMIT_BIT
            pInheritanceInfo := inheritanceInfo } = .error e →
      (InitAndBeginCommandBuffer driver device commandPool inheritanceInfo flags
          commandBuffer).value
        = { commandBuffer := { commandBuffer with mHandle := h }
            calls := [.allocateCommandBuffers (secondaryAllocateInfo commandPool),
              .beginCommandBuffer h
                { flags := flags ||| VK_COMMAND_BUFFER_USAGE_ONE_TIME_SUBMIT_BIT
                  pInheritanceInfo := inheritanceInfo }]
            error := some e }) ∧
    (∀ h u, driver.allocate (secondaryAllocateInfo commandPool) = .ok h →
      driver.beginBuffer h
          { flags := flags ||| VK_COMMAND_BUFFER_USAGE_ONE_TIME_SUBMIT_BIT
            pInheritanceInfo := inheritanceInfo } = .ok u →
      (InitAndBeginCommandBuffer driver device commandPool inheritanceInfo flags
          commandBuffer).value
        = { commandBuffer := { mHandle := h, recording := true }
            calls := [.allocateCommandBuffers (secondaryAllocateInfo commandPool),
              .beginCommandBuffer h
                { flags := flags ||| VK_COMMAND_BUFFER_USAGE_ONE_TIME_SUBMIT_BIT
                  pInheritanceInfo := inheritanceInfo }]
            error := none }) ∧
    (InitAndBeginCommandBuffer driver device commandPool inheritanceInfo flags
        commandBuffer).assertionHeld = !commandBuffer.valid := by
  unfold InitAndBeginCommandBuffer secondaryAllocateInfo
  refine ⟨?_, ?_, ?_, ?_⟩
  · intro e he
    simp only [he]
  · intro h e hh he
    simp only [hh, he]
  · intro h u hh hu
    simp only [hh, hu]
  · simp only []
    split
    · rfl
    · split <;> rfl

/-- The three outcomes of `startRecording`, by the answers of the driver. -/
theorem startRecording_cases (driver : VkDriver) (device commandPool : Nat)
    (node : CommandBufferNode) :
    (∀ e, driver.allocate (secondaryAllocateInfo commandPool) = .error e →
      (node.startRecording driver device commandPool).value
        = { node := node
            commandsOut := none
            calls := [.allocateCommandBuffers (secondaryAllocateInfo commandPool)]
            error := some e }) ∧
    (∀ h e, driver.allocate (secondaryAllocateInfo commandPool) = .ok h →
      driver.beginBuffer h outsideBeginInfo = .error e →
      (node.startRecording driver device commandPool).value
        = { node :=
              { node with
                mOutsideRenderPassCommands :=
                  { node.mOutsideRenderPassCommands with mHandle := h } }
            commandsOut := none
            calls := [.allocateCommandBuffers (secondaryAllocateInfo commandPool),
              .beginCommandBuffer h outsideBeginInfo]
            error := some e }) ∧
    (∀ h u, driver.allocate (secondaryAllocateInfo commandPool) = .ok h →
      driver.beginBuffer h outsideBeginInfo = .ok u →
      (node.startRecording driver device commandPool).value
        = { node :=
              { node with mOutsideRenderPassCommands := { mHandle := h, recording := true } }
            commandsOut := some .outsideRenderPass
            calls := [.allocateCommandBuffers (secondaryAllocateInfo commandPool),
              .beginCommandBuffer h outsideBeginInfo]
            error := none }) ∧
    (node.startRecording driver device commandPool).assertionHeld
      = (!node.mIsFinishedRecording && !node.mOutsideRenderPassCommands.valid) := by
  obtain ⟨hA, hB, hC, hD⟩ := InitAndBeginCommandBuffer_cases driver device commandPool
    outsideBeginInfo.pInheritanceInfo 0 node.mOutsideRenderPassCommands
  have hinfo : ({ flags := 0 ||| VK_COMMAND_BUFFER_USAGE_ONE_TIME_SUBMIT_BIT
                  pInheritanceInfo := outsideBeginInfo.pInheritanceInfo }
      : VkCommandBufferBeginInfo) = outsideBeginInfo := rfl
  rw [hinfo] at hB hC
  have hunfold : node.startRecording driver device commandPool
      = (match (InitAndBeginCommandBuffer driver device commandPool
            outsideBeginInfo.pInheritanceInfo 0 node.mOutsideRenderPassCommands).value.error with
        | some e =>
          { value :=
              { node := { node with mOutsideRenderPassCommands :=
                  (InitAndBeginCommandBuffer driver device commandPool
                    outsideBeginInfo.pInheritanceInfo 0
                    node.mOutsideRenderPassCommands).value.commandBuffer }
                commandsOut := none
                calls := (InitAndBeginCommandBuffer driver device commandPool
                  outsideBeginInfo.pInheritanceInfo 0
                  node.mOutsideRenderPassCommands).value.calls
                error := some e }
            assertionHeld := !node.mIsFinishedRecording &&
              (InitAndBeginCommandBuffer driver device commandPool
                outsideBeginInfo.pInheritanceInfo 0
                node.mOutsideRenderPassCommands).assertionHeld }
        | none =>
          { value :=
              { node := { node with mOutsideRenderPassCommands :=
                  (InitAndBeginCommandBuffer driver device commandPool
                    outsideBeginInfo.pInheritanceInfo 0
                    node.mOutsideRenderPassCommands).value.commandBuffer }
                commandsOut := some .outsideRenderPass
                calls := (InitAndBeginCommandBuffer driver device commandPool
                  outsideBeginInfo.pInheritanceInfo 0
                  node.mOutsideRenderPassCommands).value.calls
                error := none }
            assertionHeld := !node.mIsFinishedRecording &&
              (InitAndBeginCommandBuffer driver device commandPool
                outsideBeginInfo.pInheritanceInfo 0
                node.mOutsideRenderPassCommands).assertionHeld }) := rfl
  rw [hunfold]
  refine ⟨?_, ?_, ?_, ?_⟩
  · intro e he
    rw [hA e he]
  · intro h e hh he
    rw [hB h e hh he]
  · intro h u hh hu
    rw [hC h u hh hu]
  · rw [hD]
    split <;> rfl

/-- The outcomes of `startRenderPassRecording`, by the answers of the renderer and of the
driver. -/
theorem startRenderPassRecording_cases (driver : VkDriver) (renderer : RendererVk)
    (node : CommandBufferNode) :
    (∀ e, renderer.getCompatibleRenderPass node.mRenderPassDesc = .error e →
      node.startRenderPassRecording driver renderer
        = { value := { node := node, commandsOut := none, calls := [], error := some e }
            assertionHeld := !node.mIsFinishedRecording }) ∧
    (∀ rp, renderer.getCompatibleRenderPass node.mRenderPassDesc = .ok rp →
      (∀ e, driver.allocate (secondaryAllocateInfo renderer.commandPool) = .error e →
        (node.startRenderPassRecording driver renderer).value
          = { node := node
              commandsOut := none
              calls := [.allocateCommandBuffers (secondaryAllocateInfo renderer.commandPool)]
              error := some e }) ∧
      (∀ h e, driver.allocate (secondaryAllocateInfo renderer.commandPool) = .ok h →
        driver.beginBuffer h (insideBeginInfo rp node.mRenderPassFramebuffer.mHandle)
          = .error e →
        (node.startRenderPassRecording driver renderer).value
          = { node :=
                { node with
                  mInsideRenderPassCommands :=
                    { node.mInsideRenderPassCommands with mHandle := h } }
              commandsOut := none
              calls := [.allocateCommandBuffers (secondaryAllocateInfo renderer.commandPool),
                .beginCommandBuffer h
                  (insideBeginInfo rp node.mRenderPassFramebuffer.mHandle)]
              error := some e }) ∧
      (∀ h u, driver.allocate (secondaryAllocateInfo renderer.commandPool) = .ok h →
        driver.beginBuffer h (insideBeginInfo rp node.mRenderPassFramebuffer.mHandle)
          = .ok u →
        (node.startRenderPassRecording driver renderer).value
          = { node :=
                { node with mInsideRenderPassCommands := { mHandle := h, recording := true } }
              commandsOut := some .insideRenderPass
              calls := [.allocateCommandBuffers (secondaryAllocateInfo renderer.commandPool),
                .beginCommandBuffer h
                  (insideBeginInfo rp node.mRenderPassFramebuffer.mHandle)]
              error := none }) ∧
      (node.startRenderPassRecording driver renderer).assertionHeld
        = (!node.mIsFinishedRecording && !node.mInsideRenderPassCommands.valid)) := by
  constructor
  · intro e he
    unfold CommandBufferNode.startRenderPassRecording
    simp only [he]
  · intro rp hrp
    obtain ⟨hA, hB, hC, hD⟩ := InitAndBeginCommandBuffer_cases driver renderer.device
      renderer.commandPool
      { renderPass := rp
        subpass := 0
        framebuffer := node.mRenderPassFramebuffer.mHandle
        occlusionQueryEnable := false
        queryFlags := 0
        pipelineStatistics := 0 }
      VK_COMMAND_BUFFER_USAGE_RENDER_PASS_CONTINUE_BIT node.mInsideRenderPassCommands
    have hinfo : ({ flags := VK_COMMAND_BUFFER_USAGE_RENDER_PASS_CONTINUE_BIT
                      ||| VK_COMMAND_BUFFER_USAGE_ONE_TIME_SUBMIT_BIT
                    pInheritanceInfo :=
                      { renderPass := rp
                        subpass := 0
                        framebuffer := node.mRenderPassFramebuffer.mHandle
                        occlusionQueryEnable := false
                        queryFlags := 0
                        pipelineStatistics := 0 } }
        : VkCommandBufferBeginInfo)
        = insideBeginInfo rp node.mRenderPassFramebuffer.mHandle := by
      unfold insideBeginInfo
      congr 1
    rw [hinfo] at hB hC
    unfold CommandBufferNode.startRenderPassRecording
    simp only [hrp]
    refine ⟨?_, ?_, ?_, ?_⟩
    · intro e he
      rw [hA e he]
    · intro h e hh he
      rw [hB h e hh he]
    · intro h u hh hu
      rw [hC h u hh hu]
    · rw [hD]
      split <;> rfl

/-- C17 (error propagation of the recording calls). On an unsealed node `startRecording`
returns an error exactly when the allocation (`init`) or `begin` of the command buffer
fails, and then returns that error; after a failed allocation `begin` is not attempted.
`startRenderPassRecording` also returns the error of a failed `getCompatibleRenderPass`,
without any driver call, and otherwise behaves alike. On success each returns no error and
stores the address of the outside- (inside-) render-pass surface into `*commandsOut`. The
assertions hold when the surface was not valid before. -/
theorem start_recording_errors (driver : VkDriver) (renderer : RendererVk)
    (device commandPool : Nat) (node : CommandBufferNode)
    (hunsealed : node.isFinishedRecording = false) :
    ((∀ e, driver.allocate (secondaryAllocateInfo commandPool) = .error e →
        (node.startRecording driver device commandPool).value.error = some e ∧
        (node.startRecording driver device commandPool).value.calls
          = [.allocateCommandBuffers (secondaryAllocateInfo commandPool)] ∧
        (node.startRecording driver device commandPool).value.commandsOut = none) ∧
      (∀ h e, driver.allocate (secondaryAllocateInfo commandPool) = .ok h →
        driver.beginBuffer h outsideBeginInfo = .error e →
        (node.startRecording driver device commandPool).value.error = some e ∧
        (node.startRecording driver device commandPool).value.commandsOut = none) ∧
      (∀ h u, driver.allocate (secondaryAllocateInfo commandPool) = .ok h →
        driver.beginBuffer h outsideBeginInfo = .ok u →
        (node.startRecording driver device commandPool).value.error = none ∧
        (node.startRecording driver device commandPool).value.commandsOut
          = some .outsideRenderPass ∧
        (node.startRecording driver device commandPool).value.node.surface .outsideRenderPass
          = { mHandle := h, recording := true }) ∧
      ((node.startRecording driver device commandPool).value.error ≠ none ↔
        (∃ e, driver.allocate (secondaryAllocateInfo commandPool) = .error e) ∨
        ∃ h e, driver.allocate (secondaryAllocateInfo commandPool) = .ok h ∧
          driver.beginBuffer h outsideBeginInfo = .error e) ∧
      (node.mOutsideRenderPassCommands.valid = false →
        (node.startRecording driver device commandPool).assertionHeld = true)) ∧
    ((∀ e, renderer.getCompatibleRenderPass node.mRenderPassDesc = .error e →
        (node.startRenderPassRecording driver renderer).value.error = some e ∧
        (node.startRenderPassRecording driver renderer).value.calls = [] ∧
        (node.startRenderPassRecording driver renderer).value.node = node ∧
        (node.startRenderPassRecording driver renderer).value.commandsOut = none) ∧
      (∀ rp, renderer.getCompatibleRenderPass node.mRenderPassDesc = .ok rp →
        (∀ e, driver.allocate (secondaryAllocateInfo renderer.commandPool) = .error e →
          (node.startRenderPassRecording driver renderer).value.error = some e ∧
          (node.startRenderPassRecording driver renderer).value.calls
            = [.allocateCommandBuffers (secondaryAllocateInfo renderer.commandPool)] ∧
          (node.startRenderPassRecording driver renderer).value.commandsOut = none) ∧
        (∀ h e, driver.allocate (secondaryAllocateInfo renderer.commandPool) = .ok h →
          driver.beginBuffer h (insideBeginInfo rp node.mRenderPassFramebuffer.mHandle)
            = .error e →
          (node.startRenderPassRecording driver renderer).value.error = some e ∧
          (node.startRenderPassRecording driver renderer).value.commandsOut = none) ∧
        (∀ h u, driver.allocate (secondaryAllocateInfo renderer.commandPool) = .ok h →
          driver.beginBuffer h (insideBeginInfo rp node.mRenderPassFramebuffer.mHandle)
            = .ok u →
          (node.startRenderPassRecording driver renderer).value.error = none ∧
          (node.startRenderPassRecording driver renderer).value.commandsOut
            = some .insideRenderPass ∧
          (node.startRenderPassRecording driver renderer).value.node.surface
              .insideRenderPass
            = { mHandle := h, recording := true }) ∧
        ((node.startRenderPassRecording driver renderer).value.error ≠ none ↔
          (∃ e, driver.allocate (secondaryAllocateInfo renderer.commandPool) = .error e) ∨
          ∃ h e, driver.allocate (secondaryAllocateInfo renderer.commandPool) = .ok h ∧
            driver.beginBuffer h (insideBeginInfo rp node.mRenderPassFramebuffer.mHandle)
              = .error e) ∧
        (node.mInsideRenderPassCommands.valid = false →
          (node.startRenderPassRecording driver renderer).assertionHeld = true))) := by
  have hun : node.mIsFinishedRecording = false := hunsealed
  obtain ⟨hA, hB, hC, hD⟩ := startRecording_cases driver device commandPool node
  obtain ⟨hE, hF⟩ := startRenderPassRecording_cases driver renderer node
  refine ⟨⟨?_, ?_, ?_, ?_, ?_⟩, ?_, ?_⟩
  · intro e he
    rw [hA e he]
    exact ⟨rfl, rfl, rfl⟩
  · intro h e hh he
    rw [hB h e hh he]
    exact ⟨rfl, rfl⟩
  · intro h u hh hu
    rw [hC h u hh hu]
    exact ⟨rfl, rfl, rfl⟩
  · cases hal : driver.allocate (secondaryAllocateInfo commandPool) with
    | error e =>
      rw [hA e hal]
      simp
    | ok h =>
      cases hbe : driver.beginBuffer h outsideBeginInfo with
      | error e =>
        rw [hB h e hal hbe]
        simp [hbe]
      | ok u =>
        rw [hC h u hal hbe]
        simp [hbe]
  · intro hv
    rw [hD, hun, hv]
    rfl
  · intro e he
    rw [hE e he]
    exact ⟨rfl, rfl, rfl, rfl⟩
  · intro rp hrp
    obtain ⟨hA2, hB2, hC2, hD2⟩ := hF rp hrp
    refine ⟨?_, ?_, ?_, ?_, ?_⟩
    · intro e he
      rw [hA2 e he]
      exact ⟨rfl, rfl, rfl⟩
    · intro h e hh he
      rw [hB2 h e hh he]
      exact ⟨rfl, rfl⟩
    · intro h u hh hu
      rw [hC2 h u hh hu]
      exact ⟨rfl, rfl, rfl⟩
    · cases hal : driver.allocate (secondaryAllocateInfo renderer.commandPool) with
      | error e =>
        rw [hA2 e hal]
        simp
      | ok h =>
        cases hbe : driver.beginBuffer h
            (insideBeginInfo rp node.mRenderPassFramebuffer.mHandle) with
        | error e =>
          rw [hB2 h e hal hbe]
          simp [hbe]
        | ok u =>
          rw [hC2 h u hal hbe]
          simp [hbe]
    · intro hv
      rw [hD2, hun, hv]
      rfl

/-- C17, on a fresh node: a failing allocation, a failing begin, a failing render-pass
cache, and success. -/
theorem start_recording_errors_witness :
    freshNode.isFinishedRecording = false ∧
    ((freshNode.startRecording failingDriver 1 2).value.error = some (-1) ∧
      (freshNode.startRecording failingDriver 1 2).value.calls
        = [.allocateCommandBuffers (secondaryAllocateInfo 2)] ∧
      (freshNode.startRecording failingDriver 1 2).value.commandsOut = none) ∧
    ((freshNode.startRecording beginFailingDriver 1 2).value.error = some (-2) ∧
      (freshNode.startRecording beginFailingDriver 1 2).value.commandsOut = none) ∧
    ((freshNode.startRecording exampleDriver 1 2).value.error = none ∧
      (freshNode.startRecording exampleDriver 1 2).value.commandsOut
        = some .outsideRenderPass ∧
      (freshNode.startRecording exampleDriver 1 2).value.node.surface .outsideRenderPass
        = { mHandle := 77, recording := true }) ∧
    ((freshNode.startRenderPassRecording exampleDriver failingRenderer).value.error
        = some (-3) ∧
      (freshNode.startRenderPassRecording exampleDriver failingRenderer).value.calls = [] ∧
      (freshNode.startRenderPassRecording exampleDriver failingRenderer).value.node
        = freshNode ∧
      (freshNode.startRenderPassRecording exampleDriver failingRenderer).value.commandsOut
        = none) :=
  ⟨rfl,
    (start_recording_errors failingDriver exampleRenderer 1 2 freshNode rfl).1.1 (-1) rfl,
    (start_recording_errors beginFailingDriver exampleRenderer 1 2 freshNode rfl).1.2.1
      77 (-2) rfl rfl,
    (start_recording_errors exampleDriver exampleRenderer 1 2 freshNode rfl).1.2.2.1
      77 () rfl rfl,
    (start_recording_errors exampleDriver failingRenderer 1 2 freshNode rfl).2.1 (-3) rfl⟩

/-- C18 (allocation and begin parameters). `startRecording` and
`startRenderPassRecording` make no driver calls besides one allocation, with level
secondary and count 1, followed (if it succeeded) by one begin. `startRecording` begins
with flags exactly `ONE_TIME_SUBMIT` and an inheritance info with null render pass, null
framebuffer and subpass 0; `startRenderPassRecording` begins with flags exactly
`ONE_TIME_SUBMIT | RENDER_PASS_CONTINUE` and an inheritance info holding the compatible
render pass of the description of the node, subpass 0 and the framebuffer handle of the
node; occlusion query, query flags and pipeline statistics are zero in both. -/
theorem recording_driver_parameters (driver : VkDriver) (renderer : RendererVk)
    (device commandPool : Nat) (node : CommandBufferNode) (rp fb : Nat) :
    (node.startRecording driver device commandPool).value.calls
      = (match driver.allocate (secondaryAllocateInfo commandPool) with
        | .error _ => [.allocateCommandBuffers (secondaryAllocateInfo commandPool)]
        | .ok h => [.allocateCommandBuffers (secondaryAllocateInfo commandPool),
            .beginCommandBuffer h outsideBeginInfo]) ∧
    (node.startRenderPassRecording driver renderer).value.calls
      = (match renderer.getCompatibleRenderPass node.mRenderPassDesc with
        | .error _ => []
        | .ok renderPass =>
          match driver.allocate (secondaryAllocateInfo renderer.commandPool) with
          | .error _ => [.allocateCommandBuffers (secondaryAllocateInfo renderer.commandPool)]
          | .ok h => [.allocateCommandBuffers (secondaryAllocateInfo renderer.commandPool),
              .beginCommandBuffer h
                (insideBeginInfo renderPass node.mRenderPassFramebuffer.mHandle)]) ∧
    secondaryAllocateInfo commandPool
      = { commandPool := commandPool, level := .secondary, commandBufferCount := 1 } ∧
    outsideBeginInfo
      = { flags := VK_COMMAND_BUFFER_USAGE_ONE_TIME_SUBMIT_BIT
          pInheritanceInfo :=
            { renderPass := VK_NULL_HANDLE, subpass := 0, framebuffer := VK_NULL_HANDLE,
              occlusionQueryEnable := false, queryFlags := 0, pipelineStatistics := 0 } } ∧
    outsideBeginInfo.flags = 1 ∧
    insideBeginInfo rp fb
      = { flags := VK_COMMAND_BUFFER_USAGE_ONE_TIME_SUBMIT_BIT
            ||| VK_COMMAND_BUFFER_USAGE_RENDER_PASS_CONTINUE_BIT
          pInheritanceInfo :=
            { renderPass := rp, subpass := 0, framebuffer := fb,
              occlusionQueryEnable := false, queryFlags := 0, pipelineStatistics := 0 } } ∧
    (insideBeginInfo rp fb).flags = 3 := by
  obtain ⟨hA, hB, hC, _⟩ := startRecording_cases driver device commandPool node
  obtain ⟨hE, hF⟩ := startRenderPassRecording_cases driver renderer node
  refine ⟨?_, ?_, rfl, rfl, rfl, rfl, rfl⟩
  · cases hal : driver.allocate (secondaryAllocateInfo commandPool) with
    | error e => rw [hA e hal]
    | ok h =>
      cases hbe : driver.beginBuffer h outsideBeginInfo with
      | error e => rw [hB h e hal hbe]
      | ok u => rw [hC h u hal hbe]
  · cases hrp : renderer.getCompatibleRenderPass node.mRenderPassDesc with
    | error e => rw [hE e hrp]
    | ok renderPass =>
      obtain ⟨hA2, hB2, hC2, _⟩ := hF renderPass hrp
      cases hal : driver.allocate (secondaryAllocateInfo renderer.commandPool) with
      | error e => rw [hA2 e hal]
      | ok h =>
        cases hbe : driver.beginBuffer h
            (insideBeginInfo renderPass node.mRenderPassFramebuffer.mHandle) with
        | error e => rw [hB2 h e hal hbe]
        | ok u => rw [hC2 h u hal hbe]

/-! ## Claims on single steps -/

/-- C19, as stated, fails: node 1 is `Unvisited` and its only predecessor, node 0, is
`Visited`; `visitDependencies` pushes node 0 all the same. -/
theorem visitDependencies_pushes_visited_counterexample :
    (visitedHeap 1).visitedState = .Unvisited ∧
    (visitedHeap 0).visitedState = .Visited ∧
    unvisitedPredecessors visitedHeap (visitedHeap 1) = [] ∧
    ((visitedHeap 1).visitDependencies [5]).value.2 = [0, 5] ∧
    ((visitedHeap 1).visitDependencies [5]).value.2
      ≠ (unvisitedPredecessors visitedHeap (visitedHeap 1)).reverse ++ [5] := by
  refine ⟨rfl, rfl, by decide, rfl, by decide⟩

/-- C19, amended. For every node `N` and every stack, `visitDependencies` pushes all
predecessors of `N`, whatever their visit state, in predecessor-list order on top of the
existing entries, and sets the visit state of `N` to `Ready`, changing nothing else of
`N`; its assertion holds exactly when `N` was `Unvisited`. What is pushed is the list of
unvisited predecessors only when every predecessor is `Unvisited`. -/
theorem visitDependencies_pushes_all (heap : Heap) (node : CommandBufferNode)
    (stack : List NodeId)
    (hstate : node.visitedState = .Unvisited) :
    (node.visitDependencies stack).value.2 = node.mHappensBeforeDependencies.reverse ++ stack ∧
    (node.visitDependencies stack).value.2.reverse
      = stack.reverse ++ node.mHappensBeforeDependencies ∧
    (node.visitDependencies stack).value.1 = { node with mVisitedState := .Ready } ∧
    (node.visitDependencies stack).assertionHeld = true ∧
    (∀ other : CommandBufferNode, other.visitedState ≠ .Unvisited →
      (other.visitDependencies stack).assertionHeld = false) ∧
    ((∀ p ∈ node.mHappensBeforeDependencies, (heap p).mVisitedState = .Unvisited) →
      (node.visitDependencies stack).value.2
        = (unvisitedPredecessors heap node).reverse ++ stack) := by
  refine ⟨rfl, ?_, rfl, ?_, ?_, ?_⟩
  · simp [CommandBufferNode.visitDependencies]
  · simp only [CommandBufferNode.visitDependencies]
    exact decide_eq_true hstate
  · intro other hother
    simp only [CommandBufferNode.visitDependencies]
    exact decide_eq_false hother
  · intro hall
    have : unvisitedPredecessors heap node = node.mHappensBeforeDependencies := by
      unfold unvisitedPredecessors
      rw [List.filter_eq_self]
      intro p hp
      exact decide_eq_true (hall p hp)
    rw [this]
    rfl

/-- C19 amended, on the `Unvisited` node 1 whose predecessor node 0 is `Visited`. -/
theorem visitDependencies_pushes_all_witness :
    (visitedHeap 1).visitedState = .Unvisited ∧
    ((visitedHeap 1).visitDependencies [5]).value.2
      = (visitedHeap 1).mHappensBeforeDependencies.reverse ++ [5] ∧
    ((visitedHeap 1).visitDependencies [5]).value.2 = [0, 5] ∧
    ((visitedHeap 0).visitDependencies [5]).assertionHeld = false :=
  ⟨rfl, (visitDependencies_pushes_all visitedHeap (visitedHeap 1) [5] rfl).1, rfl,
    (visitDependencies_pushes_all visitedHeap (visitedHeap 1) [5] rfl).2.2.2.2.1
      (visitedHeap 0) (by decide)⟩

/-- The node values after `SetHappensBeforeDependency(b, a)`: only the predecessor list of
`a` and the two flags of `b` differ. -/
theorem SetHappensBeforeDependency_frame (n : Nat) (heap : Heap) (b a v : NodeId) :
    (SetHappensBeforeDependency n heap b a).value v
      = { heap v with
          mHappensBeforeDependencies :=
            if v = a then (heap a).mHappensBeforeDependencies ++ [b]
            else (heap v).mHappensBeforeDependencies
          mHasHappensAfterDependencies :=
            if v = b then true else (heap v).mHasHappensAfterDependencies
          mIsFinishedRecording :=
            if v = b then true else (heap v).mIsFinishedRecording } := by
  unfold SetHappensBeforeDependency CommandBufferNode.finishRecording
    CommandBufferNode.setHasHappensAfterDependencies
  by_cases hvb : v = b
  · by_cases hva : v = a
    · subst hvb; subst hva
      simp
    · subst hvb
      simp [Function.update_noteq hva, hva]
  · by_cases hva : v = a
    · subst hva
      simp [Function.update_noteq hvb, hvb]
    · simp [Function.update_noteq hvb, Function.update_noteq hva, hvb, hva]

/-- What `visitAndExecute` emits and returns does not depend on the predecessor list, the
successor flag or the sealed flag of the node. -/
theorem visitAndExecute_ignores_graph_fields (renderer : RendererVk)
    (node : CommandBufferNode) (primary : List PrimaryCommand) (deps : List NodeId)
    (hasAfter finished : Bool) :
    ({ node with
        mHappensBeforeDependencies := deps
        mHasHappensAfterDependencies := hasAfter
        mIsFinishedRecording := finished } : CommandBufferNode).visitAndExecute renderer primary
      = { node :=
            { (node.visitAndExecute renderer primary).node with
              mHappensBeforeDependencies := deps
              mHasHappensAfterDependencies := hasAfter
              mIsFinishedRecording := finished }
          primaryCommandBuffer := (node.visitAndExecute renderer primary).primaryCommandBuffer
          error := (node.visitAndExecute renderer primary).error } := by
  unfold CommandBufferNode.visitAndExecute
  by_cases hout : node.mOutsideRenderPassCommands.valid = true <;>
    by_cases hin : node.mInsideRenderPassCommands.valid = true <;>
    cases hrp : renderer.getCompatibleRenderPass node.mRenderPassDesc <;>
    simp [hout, hin, hrp]

/-- C20 (sealing by dependency touches nothing else). `SetHappensBeforeDependency(b, a)`
changes only the predecessor list of `a` and the successor flag and the sealed flag of
`b`: every other node is unchanged, and the two command surfaces, the render-pass
description, the framebuffer, the render area, the clear values and the visit state of
`b` are unchanged. Hence `visitAndExecute` on `b` emits the same commands, and returns
the same error, as it would without the edge. -/
theorem dependency_touches_nothing_else (n : Nat) (heap : Heap) (b a v : NodeId)
    (renderer : RendererVk) (primary : List PrimaryCommand) :
    (SetHappensBeforeDependency n heap b a).value v
      = { heap v with
          mHappensBeforeDependencies :=
            if v = a then (heap a).mHappensBeforeDependencies ++ [b]
            else (heap v).mHappensBeforeDependencies
          mHasHappensAfterDependencies :=
            if v = b then true else (heap v).mHasHappensAfterDependencies
          mIsFinishedRecording :=
            if v = b then true else (heap v).mIsFinishedRecording } ∧
    (v ≠ a → v ≠ b → (SetHappensBeforeDependency n heap b a).value v = heap v) ∧
    (((SetHappensBeforeDependency n heap b a).value b).mOutsideRenderPassCommands
        = (heap b).mOutsideRenderPassCommands ∧
      ((SetHappensBeforeDependency n heap b a).value b).mInsideRenderPassCommands
        = (heap b).mInsideRenderPassCommands ∧
      ((SetHappensBeforeDependency n heap b a).value b).mRenderPassDesc
        = (heap b).mRenderPassDesc ∧
      ((SetHappensBeforeDependency n heap b a).value b).mRenderPassFramebuffer
        = (heap b).mRenderPassFramebuffer ∧
      ((SetHappensBeforeDependency n heap b a).value b).mRenderPassRenderArea
        = (heap b).mRenderPassRenderArea ∧
      ((SetHappensBeforeDependency n heap b a).value b).mRenderPassClearValues
        = (heap b).mRenderPassClearValues ∧
      ((SetHappensBeforeDependency n heap b a).value b).visitedState
        = (heap b).visitedState) ∧
    emitted renderer ((SetHappensBeforeDependency n heap b a).value b)
      = emitted renderer (heap b) ∧
    (((SetHappensBeforeDependency n heap b a).value b).visitAndExecute renderer
        primary).primaryCommandBuffer
      = ((heap b).visitAndExecute renderer primary).primaryCommandBuffer ∧
    (((SetHappensBeforeDependency n heap b a).value b).visitAndExecute renderer primary).error
      = ((heap b).visitAndExecute renderer primary).error := by
  have hframe := SetHappensBeforeDependency_frame n heap b a
  refine ⟨hframe v, ?_, ?_, ?_, ?_, ?_⟩
  · intro hva hvb
    rw [hframe v, if_neg hva, if_neg hvb, if_neg hvb]
  · rw [hframe b]
    exact ⟨rfl, rfl, rfl, rfl, rfl, rfl, rfl⟩
  · unfold emitted
    rw [hframe b, visitAndExecute_ignores_graph_fields]
  · rw [hframe b, visitAndExecute_ignores_graph_fields]
  · rw [hframe b, visitAndExecute_ignores_graph_fields]

/-! ## The batch setter against single calls -/

/-- The loop of `SetHappensBeforeDependencies` changes the two flags of the nodes it runs
over, and nothing else. -/
theorem setHappensBeforeLoop_frame (n : Nat) (a : NodeId) :
    ∀ (bs : List NodeId) (acc : Asserted Heap) (v : NodeId),
      (setHappensBeforeLoop n a bs acc).value v
        = { acc.value v with
            mHasHappensAfterDependencies :=
              decide (v ∈ bs) || (acc.value v).mHasHappensAfterDependencies
            mIsFinishedRecording :=
              decide (v ∈ bs) || (acc.value v).mIsFinishedRecording } := by
  intro bs
  induction bs with
  | nil => intro acc v; simp [setHappensBeforeLoop]
  | cons b rest ih =>
    intro acc v
    simp only [setHappensBeforeLoop]
    rw [ih]
    by_cases hvb : v = b
    · subst hvb
      simp [CommandBufferNode.finishRecording, CommandBufferNode.setHasHappensAfterDependencies]
    · simp [Function.update_noteq hvb, hvb]

/-- The node values after `SetHappensBeforeDependencies(bs, a)`. -/
theorem SetHappensBeforeDependencies_frame (n : Nat) (heap : Heap) (bs : List NodeId)
    (a v : NodeId) :
    (SetHappensBeforeDependencies n heap bs a).value v
      = { heap v with
          mHappensBeforeDependencies :=
            if v = a then (heap a).mHappensBeforeDependencies ++ bs
            else (heap v).mHappensBeforeDependencies
          mHasHappensAfterDependencies :=
            decide (v ∈ bs) || (heap v).mHasHappensAfterDependencies
          mIsFinishedRecording := decide (v ∈ bs) || (heap v).mIsFinishedRecording } := by
  unfold SetHappensBeforeDependencies
  simp only []
  rw [setHappensBeforeLoop_frame]
  by_cases hva : v = a
  · subst hva
    simp
  · simp [Function.update_noteq hva, hva]

/-- The node values after the single calls for each node of `bs`, in order. -/
theorem setDependencies_singleCalls_frame (n : Nat) (a : NodeId) :
    ∀ (bs : List NodeId) (heap : Heap) (v : NodeId),
      (setDependencies n heap (singleCalls bs a)).value v
        = { heap v with
            mHappensBeforeDependencies :=
              if v = a then (heap a).mHappensBeforeDependencies ++ bs
              else (heap v).mHappensBeforeDependencies
            mHasHappensAfterDependencies :=
              decide (v ∈ bs) || (heap v).mHasHappensAfterDependencies
            mIsFinishedRecording := decide (v ∈ bs) || (heap v).mIsFinishedRecording } := by
  intro bs
  induction bs with
  | nil =>
    intro heap v
    by_cases hva : v = a
    · subst hva; simp [singleCalls, setDependencies]
    · simp [singleCalls, setDependencies, hva]
  | cons b rest ih =>
    intro heap v
    have hcalls : singleCalls (b :: rest) a = (b, a) :: singleCalls rest a := rfl
    rw [hcalls]
    simp only [setDependencies]
    rw [ih, SetHappensBeforeDependency_frame n heap b a v,
      SetHappensBeforeDependency_frame n heap b a a]
    by_cases hvb : v = b
    · by_cases hva : v = a
      · subst hvb; subst hva; simp
      · subst hvb; simp [hva]
    · by_cases hva : v = a
      · subst hva; simp [hvb]
      · simp [hvb, hva]

/-- The search loop reads the heap through the predecessor lists only. -/
theorem happensAfterLoop_congr (heap heap2 : Heap) (b : NodeId)
    (h : ∀ v, (heap2 v).mHappensBeforeDependencies = (heap v).mHappensBeforeDependencies) :
    ∀ (fuel : Nat) (visited openList : List NodeId),
      happensAfterLoop heap2 b fuel visited openList
        = happensAfterLoop heap b fuel visited openList := by
  intro fuel
  induction fuel with
  | zero => intro visited openList; rfl
  | succ fuel ih =>
    intro visited openList
    cases openList with
    | nil => rfl
    | cons x rest =>
      simp only [happensAfterLoop, ih, h]

/-- `happensAfter` reads the heap through the predecessor lists only. -/
theorem happensAfter_congr (n : Nat) (heap heap2 : Heap) (s b : NodeId)
    (h : ∀ v, (heap2 v).mHappensBeforeDependencies = (heap v).mHappensBeforeDependencies) :
    happensAfter n heap2 s b = happensAfter n heap s b := by
  unfold happensAfter
  simp only [h, pendingWork_congr n heap heap2 _ h, happensAfterLoop_congr heap heap2 b h]

theorem closed_congr (n : Nat) (heap heap2 : Heap)
    (h : ∀ v, (heap2 v).mHappensBeforeDependencies = (heap v).mHappensBeforeDependencies)
    (hc : Closed n heap) : Closed n heap2 := by
  intro v hv p hp
  rw [h v] at hp
  exact hc v hv p hp

/-- A path to `a` in a graph with more edges out of `a` starts at `a` or is a path of the
smaller graph. -/
theorem reaches_target_or_eq (heap heap2 : Heap) (a : NodeId)
    (hother : ∀ v, v ≠ a →
      (heap2 v).mHappensBeforeDependencies = (heap v).mHappensBeforeDependencies)
    (x : NodeId) (hr : Reaches heap2 x a) : x = a ∨ Reaches heap x a := by
  unfold Reaches at hr ⊢
  refine Relation.TransGen.head_induction_on hr ?_ ?_
  · intro c e
    by_cases hca : c = a
    · exact Or.inl hca
    · right
      apply Relation.TransGen.single
      unfold Edge at e ⊢
      rw [hother c hca] at e
      exact e
  · intro c d e _ ih2
    by_cases hca : c = a
    · exact Or.inl hca
    · right
      have e2 : Edge heap c d := by
        unfold Edge at e ⊢
        rw [hother c hca] at e
        exact e
      rcases ih2 with h | h
      · rw [h] at e2
        exact Relation.TransGen.single e2
      · exact Relation.TransGen.head e2 h

/-- Edges added out of `a` do not change which nodes reach `a`. -/
theorem reaches_target_edges_out (heap heap2 : Heap) (a x : NodeId)
    (hother : ∀ v, v ≠ a →
      (heap2 v).mHappensBeforeDependencies = (heap v).mHappensBeforeDependencies)
    (hmono : ∀ p ∈ (heap a).mHappensBeforeDependencies,
      p ∈ (heap2 a).mHappensBeforeDependencies)
    (hx : x ≠ a) : Reaches heap2 x a ↔ Reaches heap x a := by
  constructor
  · intro hr
    exact (reaches_target_or_eq heap heap2 a hother x hr).resolve_left hx
  · intro hr
    apply Relation.TransGen.mono _ hr
    intro c y e
    unfold Edge at e ⊢
    by_cases hca : c = a
    · subst hca; exact hmono y e
    · rw [hother c hca]; exact e

/-- The assertion of a dependency setter gives the same verdict on a closed graph and on
that graph with more edges out of `a`. -/
theorem dependencyAssertion_edges_out (n : Nat) (heap heap2 : Heap) (b a : NodeId)
    (hc : Closed n heap) (hc2 : Closed n heap2) (hb : b < n)
    (hother : ∀ v, v ≠ a →
      (heap2 v).mHappensBeforeDependencies = (heap v).mHappensBeforeDependencies)
    (hmono : ∀ p ∈ (heap a).mHappensBeforeDependencies,
      p ∈ (heap2 a).mHappensBeforeDependencies) :
    dependencyAssertion n heap2 b a = dependencyAssertion n heap b a := by
  unfold dependencyAssertion
  by_cases hba : b = a
  · simp [hba]
  · simp only [if_neg hba]
    have hiff := reaches_target_edges_out heap heap2 a b hother hmono hba
    rcases happensAfter_spec n heap hc b a hb with ⟨h1, hr1⟩ | ⟨h1, hr1⟩ <;>
      rcases happensAfter_spec n heap2 hc2 b a hb with ⟨h2, hr2⟩ | ⟨h2, hr2⟩
    · rw [h1, h2]
    · exact absurd (hiff.2 hr1) hr2
    · exact absurd (hiff.1 hr2) hr1
    · rw [h1, h2]

/-- The assertions of the batch loop hold together exactly when the assertion holds for
each node of the list on the graph before the call. -/
theorem setHappensBeforeLoop_flag (n : Nat) (heap : Heap) (a : NodeId) (hc : Closed n heap) :
    ∀ (bs : List NodeId) (acc : Asserted Heap),
      Closed n acc.value →
      (∀ v, v ≠ a →
        (acc.value v).mHappensBeforeDependencies = (heap v).mHappensBeforeDependencies) →
      (∀ p ∈ (heap a).mHappensBeforeDependencies,
        p ∈ (acc.value a).mHappensBeforeDependencies) →
      (∀ b ∈ bs, b < n) →
      (setHappensBeforeLoop n a bs acc).assertionHeld
        = (acc.assertionHeld && bs.all fun b => dependencyAssertion n heap b a) := by
  intro bs
  induction bs with
  | nil => intro acc _ _ _ _; simp [setHappensBeforeLoop]
  | cons b rest ih =>
    intro acc hc2 hother hmono hbs
    have hb : b < n := hbs b (List.mem_cons_self _ _)
    have hdeps : ∀ v,
        ((Function.update
            (Function.update acc.value b (acc.value b).setHasHappensAfterDependencies) b
            ((Function.update acc.value b (acc.value b).setHasHappensAfterDependencies
              b).finishRecording)) v).mHappensBeforeDependencies
          = (acc.value v).mHappensBeforeDependencies := by
      intro v
      by_cases hvb : v = b
      · subst hvb
        simp [CommandBufferNode.finishRecording,
          CommandBufferNode.setHasHappensAfterDependencies]
      · simp [Function.update_noteq hvb]
    simp only [setHappensBeforeLoop]
    rw [ih]
    · rw [dependencyAssertion_edges_out n heap _ b a hc (closed_congr n _ _ hdeps hc2) hb
        (fun v hv => by rw [hdeps v]; exact hother v hv)
        (fun p hp => by rw [hdeps a]; exact hmono p hp)]
      simp [Bool.and_assoc]
    · exact closed_congr n _ _ hdeps hc2
    · intro v hv
      rw [hdeps v]
      exact hother v hv
    · intro p hp
      rw [hdeps a]
      exact hmono p hp
    · intro x hx
      exact hbs x (List.mem_cons_of_mem _ hx)

/-- The assertions of the single calls hold together exactly when the assertion holds for
each node of the list on the graph before the first call. -/
theorem setDependencies_singleCalls_flag (n : Nat) (heap : Heap) (a : NodeId)
    (hc : Closed n heap) :
    ∀ (bs : List NodeId) (cur : Heap),
      Closed n cur →
      (∀ v, v ≠ a →
        (cur v).mHappensBeforeDependencies = (heap v).mHappensBeforeDependencies) →
      (∀ p ∈ (heap a).mHappensBeforeDependencies, p ∈ (cur a).mHappensBeforeDependencies) →
      (∀ b ∈ bs, b < n) →
      (setDependencies n cur (singleCalls bs a)).assertionHeld
        = bs.all fun b => dependencyAssertion n heap b a := by
  intro bs
  induction bs with
  | nil => intro cur _ _ _ _; rfl
  | cons b rest ih =>
    intro cur hc2 hother hmono hbs
    have hb : b < n := hbs b (List.mem_cons_self _ _)
    have hcalls : singleCalls (b :: rest) a = (b, a) :: singleCalls rest a := rfl
    have hc3 := SetHappensBeforeDependency_closed n cur b a hc2 hb
    have hother3 : ∀ v, v ≠ a →
        ((SetHappensBeforeDependency n cur b a).value v).mHappensBeforeDependencies
          = (heap v).mHappensBeforeDependencies := by
      intro v hv
      rw [SetHappensBeforeDependency_deps, if_neg hv]
      exact hother v hv
    have hmono3 : ∀ p ∈ (heap a).mHappensBeforeDependencies,
        p ∈ ((SetHappensBeforeDependency n cur b a).value a).mHappensBeforeDependencies := by
      intro p hp
      rw [SetHappensBeforeDependency_deps, if_pos rfl]
      exact List.mem_append_left _ (hmono p hp)
    rw [hcalls]
    simp only [setDependencies]
    rw [ih _ hc3 hother3 hmono3 (fun x hx => hbs x (List.mem_cons_of_mem _ hx))]
    have hflag : (SetHappensBeforeDependency n cur b a).assertionHeld
        = dependencyAssertion n (SetHappensBeforeDependency n cur b a).value b a := rfl
    rw [hflag, dependencyAssertion_edges_out n heap _ b a hc hc3 hb hother3 hmono3]
    simp

/-- C21 (batch against single calls). For every list `bs` of nodes of a graph and every
node `a`, `SetHappensBeforeDependencies(bs, a)` leaves the same heap as the calls
`SetHappensBeforeDependency(b, a)` for each `b` of `bs` in order, and some assertion of
the batch call is violated exactly when some assertion of the single calls is: in both,
the assertions hold together exactly when each `b` differs from `a` and does not reach
`a` in the graph before the call. The graph need not be acyclic for this. -/
theorem batch_agrees_with_single_calls (n : Nat) (heap : Heap) (bs : List NodeId)
    (a : NodeId) (hc : Closed n heap) (hbs : ∀ b ∈ bs, b < n) :
    (SetHappensBeforeDependencies n heap bs a).value
      = (setDependencies n heap (singleCalls bs a)).value ∧
    ((SetHappensBeforeDependencies n heap bs a).assertionHeld = false ↔
      (setDependencies n heap (singleCalls bs a)).assertionHeld = false) ∧
    (SetHappensBeforeDependencies n heap bs a).assertionHeld
      = (bs.all fun b => dependencyAssertion n heap b a) ∧
    (setDependencies n heap (singleCalls bs a)).assertionHeld
      = (bs.all fun b => dependencyAssertion n heap b a) := by
  have hbatch : (SetHappensBeforeDependencies n heap bs a).assertionHeld
      = (bs.all fun b => dependencyAssertion n heap b a) := by
    unfold SetHappensBeforeDependencies
    simp only []
    rw [setHappensBeforeLoop_flag n heap a hc bs]
    · simp
    · intro v hv p hp
      by_cases hva : v = a
      · subst hva
        simp only [Function.update_same] at hp
        rcases List.mem_append.1 hp with h | h
        · exact hc v hv p h
        · exact hbs p h
      · simp only [Function.update_noteq hva] at hp
        exact hc v hv p hp
    · intro v hv
      simp only [Function.update_noteq hv]
    · intro p hp
      simp only [Function.update_same]
      exact List.mem_append_left _ hp
    · exact hbs
  have hsingle := setDependencies_singleCalls_flag n heap a hc bs heap hc
    (fun _ _ => rfl) (fun _ hp => hp) hbs
  refine ⟨?_, ?_, hbatch, hsingle⟩
  · funext v
    rw [SetHappensBeforeDependencies_frame, setDependencies_singleCalls_frame]
  · rw [hbatch, hsingle]

/-- C21, on the example graph: nodes 0 and 1 before node 2 (all assertions hold), and
nodes 2 and 0 before node 1 (node 2 already comes after node 1). -/
theorem batch_agrees_with_single_calls_witness :
    (Closed 3 exampleHeap ∧ ∀ b ∈ [(0 : NodeId), 1], b < 3) ∧
    ((SetHappensBeforeDependencies 3 exampleHeap [0, 1] 2).value
      = (setDependencies 3 exampleHeap (singleCalls [0, 1] 2)).value ∧
    ((SetHappensBeforeDependencies 3 exampleHeap [0, 1] 2).assertionHeld = false ↔
      (setDependencies 3 exampleHeap (singleCalls [0, 1] 2)).assertionHeld = false) ∧
    (SetHappensBeforeDependencies 3 exampleHeap [0, 1] 2).assertionHeld
      = ([(0 : NodeId), 1].all fun b => dependencyAssertion 3 exampleHeap b 2) ∧
    (setDependencies 3 exampleHeap (singleCalls [0, 1] 2)).assertionHeld
      = ([(0 : NodeId), 1].all fun b => dependencyAssertion 3 exampleHeap b 2)) ∧
    (SetHappensBeforeDependencies 3 exampleHeap [0, 1] 2).assertionHeld = true ∧
    (setDependencies 3 exampleHeap (singleCalls [0, 1] 2)).assertionHeld = true ∧
    (SetHappensBeforeDependencies 3 exampleHeap [2, 0] 1).assertionHeld = false ∧
    (setDependencies 3 exampleHeap (singleCalls [2, 0] 1)).assertionHeld = false :=
  ⟨⟨exampleHeap_closed, by decide⟩,
    batch_agrees_with_single_calls 3 exampleHeap [0, 1] 2 exampleHeap_closed (by decide),
    by decide, by decide, by decide, by decide⟩

/-! ## Termination of the search -/

/-- The instrumented loop gives the answer of the loop. -/
theorem happensAfterTrace_answer (heap : Heap) (b : NodeId) :
    ∀ (fuel : Nat) (visited openList : List NodeId),
      (happensAfterTrace heap b fuel visited openList).map Prod.fst
        = happensAfterLoop heap b fuel visited openList := by
  intro fuel
  induction fuel with
  | zero => intro visited openList; rfl
  | succ fuel ih =>
    intro visited openList
    cases openList with
    | nil => rfl
    | cons x rest =>
      simp only [happensAfterTrace, happensAfterLoop]
      split_ifs
      · exact ih _ _
      · rfl
      · exact ih _ _

/-- The visited list of the loop never holds a node twice, and holds graph nodes only. -/
theorem happensAfterTrace_expanded (n : Nat) (heap : Heap) (hc : Closed n heap) (b : NodeId) :
    ∀ (fuel : Nat) (visited openList : List NodeId) (r : Bool) (final : List NodeId),
      visited.Nodup → (∀ v ∈ visited, v < n) → (∀ x ∈ openList, x < n) →
      happensAfterTrace heap b fuel visited openList = some (r, final) →
      final.Nodup ∧ ∀ v ∈ final, v < n := by
  intro fuel
  induction fuel with
  | zero => intro visited openList r final _ _ _ h; simp [happensAfterTrace] at h
  | succ fuel ih =>
    intro visited openList r final hnd hlt hopen h
    cases openList with
    | nil =>
      simp only [happensAfterTrace, Option.some.injEq, Prod.mk.injEq] at h
      rw [← h.2]
      exact ⟨hnd, hlt⟩
    | cons x rest =>
      have hxn : x < n := hopen x (List.mem_cons_self _ _)
      simp only [happensAfterTrace] at h
      split_ifs at h with hxv hxb
      · exact ih visited rest r final hnd hlt
          (fun y hy => hopen y (List.mem_cons_of_mem _ hy)) h
      · simp only [Option.some.injEq, Prod.mk.injEq] at h
        rw [← h.2]
        exact ⟨hnd, hlt⟩
      · apply ih (x :: visited) _ r final (List.nodup_cons.2 ⟨hxv, hnd⟩) _ _ h
        · intro v hv
          rcases List.mem_cons.1 hv with hv | hv
          · rw [hv]; exact hxn
          · exact hlt v hv
        · intro y hy
          rcases List.mem_append.1 hy with hy | hy
          · exact hc x hxn y (List.mem_reverse.1 hy)
          · exact hopen y (List.mem_cons_of_mem _ hy)

/-- A list of distinct graph nodes is no longer than the graph. -/
theorem nodup_length_le (n : Nat) (l : List NodeId) (hnd : l.Nodup) (hlt : ∀ v ∈ l, v < n) :
    l.length ≤ n := by
  have hsub : l.toFinset ⊆ Finset.range n := by
    intro v hv
    rw [List.mem_toFinset] at hv
    exact Finset.mem_range.2 (hlt v hv)
  have hcard := Finset.card_le_card hsub
  rw [List.toFinset_card_of_nodup hnd, Finset.card_range] at hcard
  exact hcard

/-- On a closed graph the search returns, having expanded every node at most once. -/
theorem happensAfterExpanded_spec (n : Nat) (heap : Heap) (s b : NodeId)
    (hc : Closed n heap) (hs : s < n) :
    ∃ r expanded, happensAfterExpanded n heap s b = some (r, expanded) ∧
      happensAfter n heap s b = some r ∧ expanded.Nodup ∧ (∀ v ∈ expanded, v < n) ∧
      expanded.length ≤ n := by
  have hans : (happensAfterExpanded n heap s b).map Prod.fst = happensAfter n heap s b := by
    unfold happensAfterExpanded happensAfter
    exact happensAfterTrace_answer heap b _ _ _
  have hret : ∃ r, happensAfter n heap s b = some r := by
    rcases happensAfter_spec n heap hc s b hs with ⟨h, _⟩ | ⟨h, _⟩
    · exact ⟨true, h⟩
    · exact ⟨false, h⟩
  obtain ⟨r, hr⟩ := hret
  cases htr : happensAfterExpanded n heap s b with
  | none =>
    rw [htr, hr] at hans
    simp at hans
  | some res =>
    obtain ⟨r2, expanded⟩ := res
    rw [htr, hr] at hans
    simp only [Option.map_some', Option.some.injEq] at hans
    subst hans
    have hexp := happensAfterTrace_expanded n heap hc b _ [] _ r2 expanded List.nodup_nil
      (by intro v hv; simp at hv)
      (by intro x hx; exact hc s hs x (List.mem_reverse.1 hx))
      (by unfold happensAfterExpanded at htr; exact htr)
    exact ⟨r2, expanded, rfl, hr, hexp.1, hexp.2, nodup_length_le n expanded hexp.1 hexp.2⟩

/-- C22 (termination of the search). On every finite predecessor graph, with cycles,
self-edges or duplicate edges, and every pair of nodes, `happensAfter` returns: the nodes
it expands are pairwise distinct graph nodes, so no more than the graph has. The search
reads the predecessor lists only. In the embedding it is a function of the heap that
returns the answer alone: the source writes to its two local containers and to no node. -/
theorem happensAfter_terminates (n : Nat) (heap : Heap) (s b : NodeId)
    (hc : Closed n heap) (hs : s < n) :
    (∃ r, happensAfter n heap s b = some r) ∧
    (∃ r expanded, happensAfterExpanded n heap s b = some (r, expanded) ∧
      happensAfter n heap s b = some r ∧ expanded.Nodup ∧ (∀ v ∈ expanded, v < n) ∧
      expanded.length ≤ n) ∧
    (∀ heap2 : Heap,
      (∀ v, (heap2 v).mHappensBeforeDependencies = (heap v).mHappensBeforeDependencies) →
      happensAfter n heap2 s b = happensAfter n heap s b) := by
  obtain ⟨r, expanded, h1, h2, h3, h4, h5⟩ := happensAfterExpanded_spec n heap s b hc hs
  exact ⟨⟨r, h2⟩, ⟨r, expanded, h1, h2, h3, h4, h5⟩,
    fun heap2 h => happensAfter_congr n heap heap2 s b h⟩

/-- C22, on the graph with a cycle, a duplicate edge and a self-edge. -/
theorem happensAfter_terminates_witness :
    (Closed 3 cyclicHeap ∧ 0 < 3) ∧
    ((∃ r, happensAfter 3 cyclicHeap 0 2 = some r) ∧
    (∃ r expanded, happensAfterExpanded 3 cyclicHeap 0 2 = some (r, expanded) ∧
      happensAfter 3 cyclicHeap 0 2 = some r ∧ expanded.Nodup ∧ (∀ v ∈ expanded, v < 3) ∧
      expanded.length ≤ 3) ∧
    (∀ heap2 : Heap,
      (∀ v, (heap2 v).mHappensBeforeDependencies
        = (cyclicHeap v).mHappensBeforeDependencies) →
      happensAfter 3 heap2 0 2 = happensAfter 3 cyclicHeap 0 2)) ∧
    happensAfterExpanded 3 cyclicHeap 0 2 = some (false, [0, 1]) ∧
    happensAfterExpanded 3 cyclicHeap 2 2 = some (true, []) ∧
    happensAfterExpanded 3 cyclicHeap 2 0 = some (false, [2]) :=
  ⟨⟨cyclicHeap_closed, by decide⟩,
    happensAfter_terminates 3 cyclicHeap 0 2 cyclicHeap_closed (by decide),
    by decide, by decide, by decide⟩

/-! ## The flush loop of the code against the flush loop of the specification -/

theorem liveEntries_cons_visited (heap : Heap) (u : NodeId) (rest : List NodeId)
    (h : (heap u).mVisitedState = .Visited) :
    liveEntries heap (u :: rest) = liveEntries heap rest := by
  simp [liveEntries, List.filter_cons, h]

theorem liveEntries_cons_live (heap : Heap) (u : NodeId) (rest : List NodeId)
    (h : (heap u).mVisitedState ≠ .Visited) :
    liveEntries heap (u :: rest) = u :: liveEntries heap rest := by
  simp [liveEntries, List.filter_cons, h]

theorem liveEntries_append (heap : Heap) (l1 l2 : List NodeId) :
    liveEntries heap (l1 ++ l2) = liveEntries heap l1 ++ liveEntries heap l2 := by
  simp [liveEntries, List.filter_append]

/-- The live entries do not change when no node becomes or ceases to be `Visited`. -/
theorem liveEntries_congr (heap heap2 : Heap) (l : List NodeId)
    (h : ∀ v, (heap2 v).mVisitedState = .Visited ↔ (heap v).mVisitedState = .Visited) :
    liveEntries heap2 l = liveEntries heap l := by
  unfold liveEntries
  apply List.filter_congr
  intro x _
  by_cases hx : (heap x).mVisitedState = .Visited
  · simp [hx, (h x).2 hx]
  · have : (heap2 x).mVisitedState ≠ .Visited := fun h2 => hx ((h x).1 h2)
    simp [hx, this]

/-- When the node `u` becomes `Visited` and no other visit state changes, the live entries
lose the occurrences of `u`. -/
theorem liveEntries_visit (heap heap2 : Heap) (u : NodeId) (l : List NodeId)
    (hu : (heap2 u).mVisitedState = .Visited)
    (hother : ∀ v, v ≠ u → (heap2 v).mVisitedState = (heap v).mVisitedState) :
    liveEntries heap2 l = (liveEntries heap l).filter fun v => decide (v ≠ u) := by
  unfold liveEntries
  rw [List.filter_filter]
  apply List.filter_congr
  intro x _
  by_cases hxu : x = u
  · subst hxu; simp [hu]
  · simp [hxu, hother x hxu]

/-- On an acyclic graph, no predecessor of an `Unvisited` node on top of the stack is
`Ready`. -/
theorem unvisited_top_predecessors_not_ready (renderer : RendererVk) (n : Nat) (heap0 : Heap)
    (hc : Closed n heap0) (hac : Acyclic heap0) (s : FlushState) (u : NodeId)
    (rest : List NodeId)
    (hstack : s.nodeStack = u :: rest) (hvs : (s.heap u).mVisitedState = .Unvisited)
    (inv : FlushInv renderer n heap0 s) :
    ∀ p ∈ (heap0 u).mHappensBeforeDependencies, (s.heap p).mVisitedState ≠ .Ready := by
  intro p hp hready
  have hun : u < n := inv.stack_lt u (by rw [hstack]; exact List.mem_cons_self _ _)
  have hpn : p < n := hc u hun p hp
  obtain ⟨above, below, hsplit, _, hreach⟩ := inv.ready p hpn hready
  rw [hstack] at hsplit
  have hpu : p ≠ u := by
    intro h
    rw [h, hvs] at hready
    exact absurd hready (by decide)
  obtain ⟨above2, habove, _⟩ := split_below_top hsplit hpu
  have hpreach : Reaches heap0 p u := hreach u (by rw [habove]; exact List.mem_cons_self _ _)
  exact hac u (Relation.TransGen.head hp hpreach)

/-- What the code pushes and what the specification pushes have the same live entries,
when no predecessor is `Ready`. -/
theorem liveEntries_pushed (heap : Heap) (node : CommandBufferNode)
    (h : ∀ p ∈ node.mHappensBeforeDependencies, (heap p).mVisitedState ≠ .Ready) :
    liveEntries heap node.mHappensBeforeDependencies.reverse
      = liveEntries heap (unvisitedPredecessors heap node).reverse := by
  unfold liveEntries unvisitedPredecessors
  rw [← List.filter_reverse, List.filter_filter]
  apply List.filter_congr
  intro x hx
  have hx2 := h x (List.mem_reverse.1 hx)
  cases hvs : (heap x).mVisitedState <;> simp_all

theorem flushLoop_unvisited (renderer : RendererVk) (fuel : Nat) (s : FlushState) (u : NodeId)
    (rest : List NodeId) (hstack : s.nodeStack = u :: rest)
    (hvs : (s.heap u).mVisitedState = .Unvisited) :
    flushLoop renderer (fuel + 1) s = flushLoop renderer fuel
      { heap := Function.update s.heap u { s.heap u with mVisitedState := .Ready }
        nodeStack := (s.heap u).mHappensBeforeDependencies.reverse ++ s.nodeStack
        primaryCommandBuffer := s.primaryCommandBuffer
        executed := s.executed } := by
  simp [flushLoop, hstack, hvs, CommandBufferNode.visitDependencies]

theorem flushLoop_visited (renderer : RendererVk) (fuel : Nat) (s : FlushState) (u : NodeId)
    (rest : List NodeId) (hstack : s.nodeStack = u :: rest)
    (hvs : (s.heap u).mVisitedState = .Visited) :
    flushLoop renderer (fuel + 1) s = flushLoop renderer fuel
      { heap := s.heap
        nodeStack := rest
        primaryCommandBuffer := s.primaryCommandBuffer
        executed := s.executed } := by
  simp only [flushLoop, hstack, hvs]

theorem flushLoop_ready_ok (renderer : RendererVk) (fuel : Nat) (s : FlushState) (u : NodeId)
    (rest : List NodeId) (hstack : s.nodeStack = u :: rest)
    (hvs : (s.heap u).mVisitedState = .Ready)
    (herr : ((s.heap u).visitAndExecute renderer s.primaryCommandBuffer).error = none) :
    flushLoop renderer (fuel + 1) s = flushLoop renderer fuel
      { heap := Function.update s.heap u
          ((s.heap u).visitAndExecute renderer s.primaryCommandBuffer).node
        nodeStack := rest
        primaryCommandBuffer :=
          ((s.heap u).visitAndExecute renderer s.primaryCommandBuffer).primaryCommandBuffer
        executed := s.executed ++ [u] } := by
  simp only [flushLoop, hstack, hvs, herr]

theorem flushLoop_ready_failed (renderer : RendererVk) (fuel : Nat) (s : FlushState)
    (u : NodeId) (rest : List NodeId) (e : VkResult) (hstack : s.nodeStack = u :: rest)
    (hvs : (s.heap u).mVisitedState = .Ready)
    (herr : ((s.heap u).visitAndExecute renderer s.primaryCommandBuffer).error = some e) :
    flushLoop renderer (fuel + 1) s = .failed e
      { heap := Function.update s.heap u
          ((s.heap u).visitAndExecute renderer s.primaryCommandBuffer).node
        nodeStack := u :: rest
        primaryCommandBuffer :=
          ((s.heap u).visitAndExecute renderer s.primaryCommandBuffer).primaryCommandBuffer
        executed := s.executed ++ [u] } := by
  simp only [flushLoop, hstack, hvs, herr]

theorem flushLoopSpec_unvisited (renderer : RendererVk) (fuel : Nat) (s : FlushState)
    (u : NodeId) (rest : List NodeId) (hstack : s.nodeStack = u :: rest)
    (hvs : (s.heap u).mVisitedState = .Unvisited) :
    flushLoopSpec renderer (fuel + 1) s = flushLoopSpec renderer fuel
      { heap := Function.update s.heap u { s.heap u with mVisitedState := .Ready }
        nodeStack := (unvisitedPredecessors s.heap (s.heap u)).reverse ++ s.nodeStack
        primaryCommandBuffer := s.primaryCommandBuffer
        executed := s.executed } := by
  simp [flushLoopSpec, hstack, hvs, visitDependenciesSpec]

theorem flushLoopSpec_visited (renderer : RendererVk) (fuel : Nat) (s : FlushState)
    (u : NodeId) (rest : List NodeId) (hstack : s.nodeStack = u :: rest)
    (hvs : (s.heap u).mVisitedState = .Visited) :
    flushLoopSpec renderer (fuel + 1) s = flushLoopSpec renderer fuel
      { heap := s.heap
        nodeStack := rest
        primaryCommandBuffer := s.primaryCommandBuffer
        executed := s.executed } := by
  simp only [flushLoopSpec, hstack, hvs]

theorem flushLoopSpec_ready_ok (renderer : RendererVk) (fuel : Nat) (s : FlushState)
    (u : NodeId) (rest : List NodeId) (hstack : s.nodeStack = u :: rest)
    (hvs : (s.heap u).mVisitedState = .Ready)
    (herr : ((s.heap u).visitAndExecute renderer s.primaryCommandBuffer).error = none) :
    flushLoopSpec renderer (fuel + 1) s = flushLoopSpec renderer fuel
      { heap := Function.update s.heap u
          ((s.heap u).visitAndExecute renderer s.primaryCommandBuffer).node
        nodeStack := rest
        primaryCommandBuffer :=
          ((s.heap u).visitAndExecute renderer s.primaryCommandBuffer).primaryCommandBuffer
        executed := s.executed ++ [u] } := by
  simp only [flushLoopSpec, hstack, hvs, herr]

theorem flushLoopSpec_ready_failed (renderer : RendererVk) (fuel : Nat) (s : FlushState)
    (u : NodeId) (rest : List NodeId) (e : VkResult) (hstack : s.nodeStack = u :: rest)
    (hvs : (s.heap u).mVisitedState = .Ready)
    (herr : ((s.heap u).visitAndExecute renderer s.primaryCommandBuffer).error = some e) :
    flushLoopSpec renderer (fuel + 1) s = .failed e
      { heap := Function.update s.heap u
          ((s.heap u).visitAndExecute renderer s.primaryCommandBuffer).node
        nodeStack := u :: rest
        primaryCommandBuffer :=
          ((s.heap u).visitAndExecute renderer s.primaryCommandBuffer).primaryCommandBuffer
        executed := s.executed ++ [u] } := by
  simp only [flushLoopSpec, hstack, hvs, herr]

/-- The `Unvisited` step of the specification lowers the remaining work. -/
theorem flushMeasure_visitDependenciesSpec (n : Nat) (s : FlushState) (u : NodeId)
    (rest : List NodeId) (hstack : s.nodeStack = u :: rest) (hun : u < n)
    (hvs : (s.heap u).mVisitedState = .Unvisited) :
    flushMeasure n
      { heap := Function.update s.heap u { s.heap u with mVisitedState := .Ready }
        nodeStack := (unvisitedPredecessors s.heap (s.heap u)).reverse ++ s.nodeStack
        primaryCommandBuffer := s.primaryCommandBuffer
        executed := s.executed } + 1 ≤ flushMeasure n s := by
  have hcode := flushMeasure_visitDependencies n s u rest hstack hun hvs
  have hlen : (unvisitedPredecessors s.heap (s.heap u)).length
      ≤ (s.heap u).mHappensBeforeDependencies.length := by
    unfold unvisitedPredecessors
    exact List.length_filter_le _ _
  unfold flushMeasure at hcode ⊢
  simp only [List.length_append, List.length_reverse] at hcode ⊢
  omega

/-- On an acyclic graph the flush loop of the code and the flush loop of the
specification, started in corresponding states with enough fuel each, end alike. -/
theorem flush_simulation (renderer : RendererVk) (n : Nat) (heap0 : Heap)
    (hc : Closed n heap0) (hac : Acyclic heap0) :
    ∀ (N f1 f2 : Nat) (s1 s2 : FlushState), f1 + f2 ≤ N → FlushSim s1 s2 →
      FlushInv renderer n heap0 s1 → flushMeasure n s1 < f1 → flushMeasure n s2 < f2 →
      SameOutcome (flushLoop renderer f1 s1) (flushLoopSpec renderer f2 s2) := by
  intro N
  induction N with
  | zero => intro f1 f2 s1 s2 hN _ _ hm1 _; omega
  | succ N ih =>
    intro f1 f2 s1 s2 hN hsim inv hm1 hm2
    obtain ⟨hheap, hprim, hexec, hlive⟩ := hsim
    cases f1 with
    | zero => omega
    | succ g1 =>
    cases f2 with
    | zero => omega
    | succ g2 =>
    have specPop : ∀ w rest2, s2.nodeStack = w :: rest2 →
        (s2.heap w).mVisitedState = .Visited →
        SameOutcome (flushLoop renderer (g1 + 1) s1) (flushLoopSpec renderer (g2 + 1) s2) := by
      intro w rest2 hst2 hvs2
      rw [flushLoopSpec_visited renderer g2 s2 w rest2 hst2 hvs2]
      refine ih (g1 + 1) g2 s1 _ (by omega) ⟨hheap, hprim, hexec, ?_⟩ inv hm1 ?_
      · simp only
        rw [hlive, hst2, liveEntries_cons_visited _ _ _ hvs2]
      · unfold flushMeasure at hm2 ⊢
        simp only [hst2, List.length_cons] at hm2 ⊢
        omega
    cases hst1 : s1.nodeStack with
    | nil =>
      cases hst2 : s2.nodeStack with
      | nil =>
        have e1 : flushLoop renderer (g1 + 1) s1 = .finished s1 := by
          simp [flushLoop, hst1]
        have e2 : flushLoopSpec renderer (g2 + 1) s2 = .finished s2 := by
          simp [flushLoopSpec, hst2]
        rw [e1, e2]
        exact ⟨hheap, hprim, hexec⟩
      | cons w rest2 =>
        apply specPop w rest2 hst2
        by_contra hnv
        rw [hst1, hst2, liveEntries_cons_live _ _ _ hnv] at hlive
        simp [liveEntries] at hlive
    | cons u rest1 =>
      have hun : u < n := inv.stack_lt u (by rw [hst1]; exact List.mem_cons_self _ _)
      by_cases hv1 : (s1.heap u).mVisitedState = .Visited
      · rw [flushLoop_visited renderer g1 s1 u rest1 hst1 hv1]
        refine ih g1 (g2 + 1) _ s2 (by omega) ⟨hheap, hprim, hexec, ?_⟩
          (flushInv_pop renderer n heap0 s1 u rest1 hst1 hv1 inv) ?_ hm2
        · simp only
          rw [← hlive, hst1, liveEntries_cons_visited _ _ _ hv1]
        · unfold flushMeasure at hm1 ⊢
          simp only [hst1, List.length_cons] at hm1 ⊢
          omega
      · cases hst2 : s2.nodeStack with
        | nil =>
          rw [hst1, hst2, liveEntries_cons_live _ _ _ hv1] at hlive
          simp [liveEntries] at hlive
        | cons w rest2 =>
          by_cases hv2 : (s2.heap w).mVisitedState = .Visited
          · exact specPop w rest2 hst2 hv2
          · have hlive2 := hlive
            rw [hst1, hst2, liveEntries_cons_live _ _ _ hv1,
              liveEntries_cons_live _ _ _ hv2] at hlive2
            simp only [List.cons.injEq] at hlive2
            obtain ⟨huw, hrest⟩ := hlive2
            subst huw
            have hnode : s2.heap u = s1.heap u := by rw [hheap]
            cases hvs : (s1.heap u).mVisitedState with
            | Visited => exact absurd hvs hv1
            | Unvisited =>
              have hvs2 : (s2.heap u).mVisitedState = .Unvisited := by rw [hnode]; exact hvs
              rw [flushLoop_unvisited renderer g1 s1 u rest1 hst1 hvs,
                flushLoopSpec_unvisited renderer g2 s2 u rest2 hst2 hvs2]
              have hnoReady : ∀ p ∈ (s1.heap u).mHappensBeforeDependencies,
                  (s1.heap p).mVisitedState ≠ .Ready := by
                intro p hp
                rw [inv.deps u] at hp
                exact unvisited_top_predecessors_not_ready renderer n heap0 hc hac s1 u rest1
                  hst1 hvs inv p hp
              have hiff : ∀ v,
                  ((Function.update s1.heap u
                      { s1.heap u with mVisitedState := .Ready }) v).mVisitedState = .Visited ↔
                    (s1.heap v).mVisitedState = .Visited := by
                intro v
                by_cases hvu : v = u
                · subst hvu
                  simp [Function.update_same, hvs]
                · simp only [Function.update_noteq hvu]
              refine ih g1 g2 _ _ (by omega) ⟨?_, hprim, hexec, ?_⟩
                (flushInv_visitDependencies renderer n heap0 hc s1 u rest1 hst1 hvs inv) ?_ ?_
              · simp only
                rw [hheap]
              · simp only
                rw [← hheap, liveEntries_congr s1.heap _ _ hiff,
                  liveEntries_congr s1.heap _ _ hiff, liveEntries_append, liveEntries_append,
                  liveEntries_pushed s1.heap (s1.heap u) hnoReady, hlive, hheap]
              · have := flushMeasure_visitDependencies n s1 u rest1 hst1 hun hvs
                omega
              · have := flushMeasure_visitDependenciesSpec n s2 u rest2 hst2 hun hvs2
                omega
            | Ready =>
              have hvs2 : (s2.heap u).mVisitedState = .Ready := by rw [hnode]; exact hvs
              cases herr : ((s1.heap u).visitAndExecute renderer
                  s1.primaryCommandBuffer).error with
              | some e =>
                have herr2 : ((s2.heap u).visitAndExecute renderer
                    s2.primaryCommandBuffer).error = some e := by
                  rw [hnode, ← hprim]; exact herr
                rw [flushLoop_ready_failed renderer g1 s1 u rest1 e hst1 hvs herr,
                  flushLoopSpec_ready_failed renderer g2 s2 u rest2 e hst2 hvs2 herr2]
                refine ⟨rfl, ?_, ?_, ?_⟩
                · simp only
                  rw [hheap, hprim]
                · simp only
                  rw [hnode, hprim]
                · simp only
                  rw [hexec]
              | none =>
                have herr2 : ((s2.heap u).visitAndExecute renderer
                    s2.primaryCommandBuffer).error = none := by
                  rw [hnode, ← hprim]; exact herr
                have hvisited := (visitAndExecute_ok renderer (s1.heap u)
                  s1.primaryCommandBuffer herr).1
                rw [flushLoop_ready_ok renderer g1 s1 u rest1 hst1 hvs herr,
                  flushLoopSpec_ready_ok renderer g2 s2 u rest2 hst2 hvs2 herr2]
                refine ih g1 g2 _ _ (by omega) ⟨?_, ?_, ?_, ?_⟩
                  (flushInv_visitAndExecute renderer n heap0 hc hac s1 u rest1 hst1 hvs herr
                    inv) ?_ ?_
                · simp only
                  rw [hheap, hprim]
                · simp only
                  rw [hnode, hprim]
                · simp only
                  rw [hexec]
                · simp only
                  rw [← hheap, ← hprim,
                    liveEntries_visit s1.heap _ u rest1
                      (by simp only [Function.update_same]; exact hvisited)
                      (fun v hv => by simp only [Function.update_noteq hv]),
                    liveEntries_visit s1.heap _ u rest2
                      (by simp only [Function.update_same]; exact hvisited)
                      (fun v hv => by simp only [Function.update_noteq hv]),
                    hrest, hheap]
                · have := flushMeasure_visitAndExecute renderer n s1 u rest1 hst1 hvs herr
                  omega
                · have := flushMeasure_visitAndExecute renderer n s2 u rest2 hst2 hvs2 herr2
                  omega

/-- The flush loop is the iteration of `flushStep`. -/
theorem flushLoop_eq_flushStep (renderer : RendererVk) (fuel : Nat) (s : FlushState) :
    flushLoop renderer (fuel + 1) s
      = (match flushStep renderer s with
        | .finished => .finished s
        | .failed e s2 => .failed e s2
        | .next s2 => flushLoop renderer fuel s2) := by
  cases hst : s.nodeStack with
  | nil => simp [flushLoop, flushStep, hst]
  | cons u rest =>
    cases hvs : (s.heap u).mVisitedState with
    | Unvisited => simp [flushLoop, flushStep, hst, hvs]
    | Visited => simp [flushLoop, flushStep, hst, hvs]
    | Ready =>
      cases herr : ((s.heap u).visitAndExecute renderer s.primaryCommandBuffer).error with
      | none => simp [flushLoop, flushStep, hst, hvs, herr]
      | some e => simp [flushLoop, flushStep, hst, hvs, herr]

/-- One iteration of the flush loop keeps the invariant. -/
theorem flushStep_inv (renderer : RendererVk) (n : Nat) (heap0 : Heap)
    (hc : Closed n heap0) (hac : Acyclic heap0) (s s2 : FlushState)
    (inv : FlushInv renderer n heap0 s) (hstep : flushStep renderer s = .next s2) :
    FlushInv renderer n heap0 s2 := by
  cases hst : s.nodeStack with
  | nil => simp [flushStep, hst] at hstep
  | cons u rest =>
    cases hvs : (s.heap u).mVisitedState with
    | Unvisited =>
      simp only [flushStep, hst, hvs, CommandBufferNode.visitDependencies,
        FlushStepResult.next.injEq] at hstep
      rw [← hstep, ← hst]
      exact flushInv_visitDependencies renderer n heap0 hc s u rest hst hvs inv
    | Visited =>
      simp only [flushStep, hst, hvs, FlushStepResult.next.injEq] at hstep
      rw [← hstep]
      exact flushInv_pop renderer n heap0 s u rest hst hvs inv
    | Ready =>
      cases herr : ((s.heap u).visitAndExecute renderer s.primaryCommandBuffer).error with
      | some e => simp [flushStep, hst, hvs, herr] at hstep
      | none =>
        simp only [flushStep, hst, hvs, herr, FlushStepResult.next.injEq] at hstep
        rw [← hstep]
        exact flushInv_visitAndExecute renderer n heap0 hc hac s u rest hst hvs herr inv

/-- Every state of the flush loop satisfies the invariant. -/
theorem flushRun_inv (renderer : RendererVk) (n : Nat) (heap0 : Heap)
    (hc : Closed n heap0) (hac : Acyclic heap0) :
    ∀ (k : Nat) (s s2 : FlushState), FlushInv renderer n heap0 s →
      flushRun renderer k s = some s2 → FlushInv renderer n heap0 s2 := by
  intro k
  induction k with
  | zero =>
    intro s s2 inv h
    simp only [flushRun, Option.some.injEq] at h
    rw [← h]
    exact inv
  | succ k ih =>
    intro s s2 inv h
    simp only [flushRun] at h
    cases hstep : flushStep renderer s with
    | finished => rw [hstep] at h; simp at h
    | failed e s3 => rw [hstep] at h; simp at h
    | next s3 =>
      rw [hstep] at h
      exact ih s3 s2 (flushStep_inv renderer n heap0 hc hac s s3 inv hstep) h

/-- The flush of the code and the flush of the specification end alike on an acyclic
graph. -/
theorem flush_sameOutcome (renderer : RendererVk) (n : Nat) (heap : Heap) (seed : List NodeId)
    (hc : Closed n heap) (hac : Acyclic heap)
    (hfresh : ∀ v, v < n → (heap v).mVisitedState = .Unvisited)
    (hseed : ∀ v ∈ seed, v < n) (hall : ∀ v, v < n → v ∈ seed) :
    SameOutcome (flush renderer n heap seed) (flushSpec renderer n heap seed) := by
  unfold flush flushSpec
  apply flush_simulation renderer n heap hc hac _ _ _ _ _ (le_refl _)
    ⟨rfl, rfl, rfl, rfl⟩ (flushInv_initial renderer n heap seed hfresh hseed hall)
  · unfold flushMeasure
    simp only
    omega
  · unfold flushMeasure
    simp only
    omega

/-- C23 (the code's flush against the specification's). On every finite acyclic
predecessor graph with unvisited nodes, the flush loop run with the code's
`visitDependencies`, which pushes every predecessor, and the flush loop run with step 2 of
the specification, which pushes the `Unvisited` predecessors only, end alike: both finish
or both fail with the same error, with the same primary command buffer, the same heap
(so the same visit states) and the same execution log; both finish when the renderer does
not fail. In every state the code's loop goes through, no predecessor of an `Unvisited`
node on top of the stack is `Ready`, so no node is pushed while `Ready`, and all
predecessors of a `Ready` node on top of the stack are `Visited`. -/
theorem flush_code_refines_spec (renderer : RendererVk) (n : Nat) (heap : Heap)
    (seed : List NodeId) (hc : Closed n heap) (hac : Acyclic heap)
    (hfresh : ∀ v, v < n → (heap v).mVisitedState = .Unvisited)
    (hseed : ∀ v ∈ seed, v < n) (hall : ∀ v, v < n → v ∈ seed) :
    SameOutcome (flush renderer n heap seed) (flushSpec renderer n heap seed) ∧
    ((∀ d, ∃ rp, renderer.getCompatibleRenderPass d = .ok rp) →
      ∃ s1 s2, flush renderer n heap seed = .finished s1 ∧
        flushSpec renderer n heap seed = .finished s2 ∧
        s1.primaryCommandBuffer = s2.primaryCommandBuffer ∧
        (∀ v, (s1.heap v).visitedState = (s2.heap v).visitedState) ∧
        s1.executed = s2.executed) ∧
    (∀ (k : Nat) (s : FlushState),
      flushRun renderer k
          { heap := heap, nodeStack := seed, primaryCommandBuffer := [], executed := [] }
        = some s →
      ∀ u rest, s.nodeStack = u :: rest →
        ((s.heap u).visitedState = .Unvisited →
          ∀ p ∈ (s.heap u).mHappensBeforeDependencies, (s.heap p).visitedState ≠ .Ready) ∧
        ((s.heap u).visitedState = .Ready →
          ∀ p ∈ (s.heap u).mHappensBeforeDependencies,
            (s.heap p).visitedState = .Visited)) ∧
    (∀ (fuel : Nat) (s : FlushState),
      flushLoop renderer (fuel + 1) s
        = (match flushStep renderer s with
          | .finished => .finished s
          | .failed e s2 => .failed e s2
          | .next s2 => flushLoop renderer fuel s2)) := by
  have hsame := flush_sameOutcome renderer n heap seed hc hac hfresh hseed hall
  refine ⟨hsame, ?_, ?_, flushLoop_eq_flushStep renderer⟩
  · intro hok
    rcases flush_spec renderer n heap seed hc hac hfresh hseed hall with
      ⟨e, s2, _, d, hd⟩ | ⟨s1, hs1, _⟩
    · obtain ⟨rp, hrp⟩ := hok d
      rw [hrp] at hd
      cases hd
    · rw [hs1] at hsame
      cases hs2 : flushSpec renderer n heap seed with
      | outOfFuel => rw [hs2] at hsame; exact hsame.elim
      | failed e s2 => rw [hs2] at hsame; exact hsame.elim
      | finished s2 =>
        rw [hs2] at hsame
        obtain ⟨hh, hp, he⟩ := hsame
        exact ⟨s1, s2, hs1, rfl, hp, fun v => by rw [hh], he⟩
  · intro k s hrun u rest hst
    have inv := flushRun_inv renderer n heap hc hac k _ s
      (flushInv_initial renderer n heap seed hfresh hseed hall) hrun
    constructor
    · intro hvs p hp
      rw [inv.deps u] at hp
      exact unvisited_top_predecessors_not_ready renderer n heap hc hac s u rest hst hvs inv p hp
    · intro hvs p hp
      rw [inv.deps u] at hp
      exact ready_top_predecessors_visited renderer n heap hac s u rest hst hvs inv p hp

/-- C23, on the example graph seeded with nodes 0, 1, 2: the code pushes the `Visited`
node 0 again for nodes 1 and 2, the specification does not, and both emit the same. -/
theorem flush_code_refines_spec_witness :
    (Closed 3 exampleHeap ∧ Acyclic exampleHeap ∧
      (∀ v, v < 3 → (exampleHeap v).mVisitedState = .Unvisited) ∧
      (∀ v ∈ [0, 1, 2], v < 3) ∧ (∀ v, v < 3 → v ∈ [0, 1, 2])) ∧
    SameOutcome (flush exampleRenderer 3 exampleHeap [0, 1, 2])
      (flushSpec exampleRenderer 3 exampleHeap [0, 1, 2]) ∧
    (flush exampleRenderer 3 exampleHeap [0, 1, 2]).executedLog = some [0, 1, 2] ∧
    (flushSpec exampleRenderer 3 exampleHeap [0, 1, 2]).executedLog = some [0, 1, 2] ∧
    (flush exampleRenderer 3 exampleHeap [0, 1, 2]).primaryCommands
      = (flushSpec exampleRenderer 3 exampleHeap [0, 1, 2]).primaryCommands ∧
    ((exampleHeap 1).visitDependencies [1, 2]).value.2 = [0, 1, 2] ∧
    (visitDependenciesSpec visitedHeap (visitedHeap 1) [1, 2]).2 = [1, 2] :=
  ⟨⟨exampleHeap_closed, acyclic_of_decreasing exampleHeap exampleHeap_decreasing,
      exampleHeap_fresh, by decide, by intro v hv; interval_cases v <;> simp⟩,
    (flush_code_refines_spec exampleRenderer 3 exampleHeap [0, 1, 2] exampleHeap_closed
      (acyclic_of_decreasing exampleHeap exampleHeap_decreasing) exampleHeap_fresh
      (by decide) (by intro v hv; interval_cases v <;> simp)).1,
    by decide, by decide, by decide, by decide, by decide⟩

end rx.vk
